/-
  Verification development for the taxonomy-tree engine of
  `stringmeup/taxonomy.py` (kraken2_confidence_recal).

  Shallow embedding conventions:
  * Python dicts are association lists (first binding wins; the code keeps
    keys unique), Python sets of ints are lists queried by membership.
  * Python exceptions become the `PyErr` type; distinct
    `TaxonomyTreeException` messages get distinct constructors.
  * Unbounded `while` loops and recursive traversals take explicit fuel;
    exhausting fuel yields `Res.timeout` (the source would not terminate).
  * `int` values that can go negative (distances) are `Int`.
-/
import Mathlib

set_option maxHeartbeats 1600000

namespace TaxSpec

/-- Python exception outcomes, distinguished by exception type and,
for `TaxonomyTreeException`, by message. -/
inductive PyErr where
  /-- `KeyError` with an integer key, or with key `None`. -/
  | keyErrorN : Option Nat → PyErr
  /-- `KeyError` with a string key. -/
  | keyErrorS : String → PyErr
  /-- `ValueError` (`list.remove` / `list.index` on a missing element). -/
  | valueError : PyErr
  /-- `IndexError` from list indexing. -/
  | indexError : PyErr
  /-- `TaxonomyTreeException`: "You have not built the taxonomy tree yet." -/
  | notBuilt : PyErr
  /-- `TaxonomyTreeException`: more than one scientific name for a tax_id. -/
  | dupSci : Nat → PyErr
  /-- `TaxonomyTreeException`: more than one genbank common name for a tax_id. -/
  | dupCommon : Nat → PyErr
  /-- `TaxonomyTreeException`: "Logical error. Should not end up here." -/
  | logicErr : PyErr
  /-- `TaxonomyTreeException`: "Can only work with ranks of level [...]". -/
  | invalidRank : PyErr
deriving DecidableEq, Repr

/-- Outcome of running a piece of the Python code: a value, a raised
exception, or exhausted fuel (the source loop would not have terminated). -/
inductive Res (α : Type) where
  | ok : α → Res α
  | err : PyErr → Res α
  | timeout : Res α
deriving DecidableEq, Repr

namespace Res

def map {α β : Type} (f : α → β) : Res α → Res β
  | .ok a => .ok (f a)
  | .err e => .err e
  | .timeout => .timeout

def bind {α β : Type} : Res α → (α → Res β) → Res β
  | .ok a, f => f a
  | .err e, _ => .err e
  | .timeout, _ => .timeout

end Res

/-- Python dict lookup `m[k]` on an association list (first binding wins). -/
def lookupD {κ α : Type} [DecidableEq κ] : List (κ × α) → κ → Option α
  | [], _ => none
  | p :: ps, k => if p.1 = k then some p.2 else lookupD ps k

/-- Python dict write `m[k] = v`: replace the binding in place, else append. -/
def upsertD {κ α : Type} [DecidableEq κ] : List (κ × α) → κ → α → List (κ × α)
  | [], k, v => [(k, v)]
  | p :: ps, k, v => if p.1 = k then (k, v) :: ps else p :: upsertD ps k v

/-- Python `list.remove(x)`: drop the first occurrence, `ValueError` if absent. -/
def pyRemove : List Nat → Nat → Res (List Nat)
  | [], _ => .err .valueError
  | a :: rest, x => if a = x then .ok rest else (pyRemove rest x).map (a :: ·)

/-- Python `list.index(x)`: index of the first occurrence, `ValueError` if absent. -/
def pyIndexOf : List Nat → Nat → Res Nat
  | [], _ => .err .valueError
  | a :: rest, x => if a = x then .ok 0 else (pyIndexOf rest x).map (· + 1)

/-- Python list indexing `l[i]` with an `int` index (a negative index wraps
once from the end; still out of range raises `IndexError`). -/
def pyGet (l : List Nat) (i : Int) : Res Nat :=
  let j : Int := if i < 0 then i + l.length else i
  if j < 0 then .err .indexError
  else
    match l.get? j.toNat with
    | some x => .ok x
    | none => .err .indexError

/-- The dataclass `Node`. -/
structure Node where
  name : Option String := none
  genbank_common_name : Option String := none
  rank : Option String := none
  parent : Option Nat := none
  children : List Nat := []
deriving DecidableEq, Repr

/-- The namedtuple `Rank`. -/
structure Rank where
  rank_name : Option String
  rank_code : String
  rank_depth : Int
deriving DecidableEq, Repr

/-- The `translate_rank2code` dict (insertion order preserved). -/
def translate_rank2code : List (String × String) :=
  [("superkingdom", "D"), ("kingdom", "K"), ("phylum", "P"), ("class", "C"),
   ("order", "O"), ("family", "F"), ("genus", "G"), ("species", "S")]

/-- `rank in translate_rank2code` / `translate_rank2code[rank]`, with a node's
rank field possibly `None` (never a dict key). -/
def rankCodeOf : Option String → Option String
  | none => none
  | some r => lookupD translate_rank2code r

/-- `translate_rank2code.values()` in insertion order. -/
def canonical_ranks : List String := translate_rank2code.map (·.2)

/-- `{rank: weight for weight, rank in enumerate(['R'] + list(canonical_ranks))}`. -/
def canonical_rank_weights : List (String × Nat) :=
  (("R" :: canonical_ranks).enum).map (fun p => (p.2, p.1))

/-- The main `self.taxonomy` dict. -/
abbrev Taxonomy := List (Nat × Node)

/-- `_get_property(tax_id, ...)` / `get_node` on a single tax_id: the
empty-tree guard, then the dict lookup. -/
def get_node1 (t : Taxonomy) (id : Nat) : Res Node :=
  if t.isEmpty then .err .notBuilt
  else
    match lookupD t id with
    | none => .err (.keyErrorN (some id))
    | some n => .ok n

/-- `self.get_parent([id])[id]` (reads the `parent` field). -/
def get_parent1 (t : Taxonomy) (id : Nat) : Res (Option Nat) :=
  (get_node1 t id).map (·.parent)

/-- `self.get_rank([id])[id]` (reads the `rank` field). -/
def get_rank1 (t : Taxonomy) (id : Nat) : Res (Option String) :=
  (get_node1 t id).map (·.rank)

/-- `self.get_children([id])[id]` (reads the `children` field). -/
def get_children1 (t : Taxonomy) (id : Nat) : Res (List Nat) :=
  (get_node1 t id).map (·.children)

/-- The `while node.parent:` loop of `get_lineage`, accumulating the
deepest-first list of ancestors.  `node.parent` is falsy for `None` and
for `0`. -/
def lineage_walk (t : Taxonomy) : Nat → List Nat → Node → Res (List Nat)
  | 0, _, _ => .timeout
  | fuel + 1, acc, node =>
    match node.parent with
    | none => .ok acc
    | some p =>
      if p = 0 then .ok acc
      else
        match get_node1 t p with
        | .ok pn => lineage_walk t fuel (acc ++ [p]) pn
        | .err e => .err e
        | .timeout => .timeout

/-- The uncached body of `get_lineage` for one tax_id: walk up from the
node, then reverse into root-first order. -/
def get_lineage1 (t : Taxonomy) (F : Nat) (id : Nat) : Res (List Nat) :=
  match get_node1 t id with
  | .ok n => (lineage_walk t F [id] n).map List.reverse
  | .err e => .err e
  | .timeout => .timeout

/-- `len(set(l1).intersection(set(l2)))`. -/
def interCard (l1 l2 : List Nat) : Nat :=
  ((l1.filter (fun x => x ∈ l2)).dedup).length

/-- The uncached body of `get_lca`: both lineages, intersection size `k`,
then `lineages[tax_id_1][k - 1]`. -/
def pure_lca (t : Taxonomy) (F : Nat) (a b : Nat) : Res Nat :=
  (get_lineage1 t F a).bind fun La =>
  (get_lineage1 t F b).bind fun Lb =>
  pyGet La ((interCard La Lb : Int) - 1)

/-- `one_way_distance(tax_id_ancestor, tax_id)` (uncached lineage). -/
def pure_one_way (t : Taxonomy) (F : Nat) (anc id : Nat) : Res Int :=
  (get_lineage1 t F id).bind fun L =>
  (pyIndexOf L anc).bind fun ai =>
  (pyIndexOf L id).bind fun ii =>
  .ok ((ii : Int) - (ai : Int))

/-- The uncached body of `get_distance`: LCA, then the two one-way
distances summed. -/
def pure_distance (t : Taxonomy) (F : Nat) (a b : Nat) : Res Int :=
  (pure_lca t F a b).bind fun z =>
  (pure_one_way t F z a).bind fun d1 =>
  (pure_one_way t F z b).bind fun d2 =>
  .ok (d1 + d2)

/-- The `while not rank_code:` loop of `get_rank_code`: walk upward from
`current` (whose textual rank is `rank`) until a canonical rank or the
root is found; returns the code and the node where the walk stopped.
Stepping to a `None` parent makes the subsequent `get_rank([None])`
raise `KeyError(None)`. -/
def rank_walk (t : Taxonomy) : Nat → Option String → Nat → Res (String × Nat)
  | 0, _, _ => .timeout
  | fuel + 1, rank, current =>
    match rankCodeOf rank with
    | some c => .ok (c, current)
    | none =>
      if current = 1 then .ok ("R", current)
      else
        match get_parent1 t current with
        | .ok pOpt =>
          match pOpt with
          | none => .err (.keyErrorN none)
          | some p =>
            match get_rank1 t p with
            | .ok r => rank_walk t fuel r p
            | .err e => .err e
            | .timeout => .timeout
        | .err e => .err e
        | .timeout => .timeout

/-- The body of `get_rank_code` for one tax_id, with uncached distance. -/
def pure_rank_code (t : Taxonomy) (F : Nat) (id : Nat) : Res Rank :=
  (get_rank1 t id).bind fun rank =>
  (rank_walk t F rank id).bind fun cc =>
  (pure_distance t F cc.2 id).bind fun depth =>
  (get_rank1 t id).bind fun name =>
  .ok ⟨name, cc.1, depth⟩

/-! ### Construction (`construct_tree`)

Input lines are modelled at record level: the `'|'`-splitting and `int()`
parsing of well-formed lines has already happened (malformed-line failures
are outside the claims under verification). -/

/-- One retained-relevant line of `names.dmp`: fields 0, 1 and 3. -/
structure NameLine where
  tax_id : Nat
  name_txt : String
  name_type : String
deriving DecidableEq, Repr

/-- One line of `nodes.dmp`: the first three fields. -/
structure NodeLine where
  tax_id : Nat
  parent : Nat
  rank : String
deriving DecidableEq, Repr

/-- Value type of the `taxid2name` dict. -/
structure Names where
  scientific_name : Option String := none
  genbank_common_name : Option String := none
deriving DecidableEq, Repr

/-- `self.wanted_name_types`. -/
def wanted_name_types : List String := ["scientific name", "genbank common name"]

/-- The `names.dmp` reading loop of `construct_tree`, building `taxid2name`. -/
def parse_names : List NameLine → List (Nat × Names) → Res (List (Nat × Names))
  | [], m => .ok m
  | l :: rest, m =>
    if l.name_type ∈ wanted_name_types then
      let m := match lookupD m l.tax_id with
        | some _ => m
        | none => upsertD m l.tax_id {}
      let entry := (lookupD m l.tax_id).getD {}
      if l.name_type = "scientific name" then
        if entry.scientific_name.isSome then .err (.dupSci l.tax_id)
        else parse_names rest (upsertD m l.tax_id { entry with scientific_name := some l.name_txt })
      else if l.name_type = "genbank common name" then
        if entry.genbank_common_name.isSome then .err (.dupCommon l.tax_id)
        else parse_names rest (upsertD m l.tax_id { entry with genbank_common_name := some l.name_txt })
      else .err .logicErr
    else parse_names rest m

/-- Number of retained scientific-name lines for `id`. -/
def countSci (ls : List NameLine) (id : Nat) : Nat :=
  ls.countP (fun l => decide (l.tax_id = id ∧ l.name_type = "scientific name"))

/-- Number of retained genbank-common-name lines for `id`. -/
def countCommon (ls : List NameLine) (id : Nat) : Nat :=
  ls.countP (fun l => decide (l.tax_id = id ∧ l.name_type = "genbank common name"))

/-- 1 when the accumulated `taxid2name` map already holds a scientific
name for `id`. -/
def sciFlag (m : List (Nat × Names)) (id : Nat) : Nat :=
  if ((lookupD m id).getD {}).scientific_name.isSome then 1 else 0

/-- 1 when the accumulated `taxid2name` map already holds a genbank
common name for `id`. -/
def comFlag (m : List (Nat × Names)) (id : Nat) : Nat :=
  if ((lookupD m id).getD {}).genbank_common_name.isSome then 1 else 0

/-- The structure fields a `TaxonomyTree` builds in `construct_tree`. -/
structure BuildState where
  taxonomy : Taxonomy := []
  byranks : List (String × List Nat) := []
  leaves : List Nat := []
deriving DecidableEq, Repr

/-- Processing of one `nodes.dmp` line inside `construct_tree`. -/
def process_node_line (m : List (Nat × Names)) (st : BuildState) (l : NodeLine) :
    Res BuildState :=
  match lookupD m l.tax_id with
  | none => .err (.keyErrorN (some l.tax_id))
  | some nm =>
    let st :=
      match lookupD st.taxonomy l.tax_id with
      | some node =>
        let node' : Node := { node with rank := some l.rank, parent := some l.parent }
        { st with taxonomy := upsertD st.taxonomy l.tax_id node' }
      | none =>
        let node' : Node :=
          { name := nm.scientific_name,
            genbank_common_name := nm.genbank_common_name,
            rank := some l.rank, parent := some l.parent, children := [] }
        { st with taxonomy := upsertD st.taxonomy l.tax_id node',
                  leaves := st.leaves ++ [l.tax_id] }
    let withRank : BuildState → BuildState := fun st =>
      match lookupD st.byranks l.rank with
      | some ids => { st with byranks := upsertD st.byranks l.rank (ids ++ [l.tax_id]) }
      | none => { st with byranks := upsertD st.byranks l.rank [l.tax_id] }
    match lookupD st.taxonomy l.parent with
    | some pnode =>
      let pnode' : Node := { pnode with children := pnode.children ++ [l.tax_id] }
      let st :=
        { st with taxonomy := upsertD st.taxonomy l.parent pnode',
                  leaves := if l.parent ∈ st.leaves then st.leaves.erase l.parent
                            else st.leaves }
      .ok (withRank st)
    | none =>
      match lookupD m l.parent with
      | none => .err (.keyErrorN (some l.parent))
      | some pm =>
        let pnode' : Node :=
          { name := pm.scientific_name,
            genbank_common_name := pm.genbank_common_name,
            rank := none, parent := none, children := [l.tax_id] }
        let st := { st with taxonomy := upsertD st.taxonomy l.parent pnode' }
        .ok (withRank st)

/-- The `nodes.dmp` reading loop. -/
def process_node_lines (m : List (Nat × Names)) :
    List NodeLine → BuildState → Res BuildState
  | [], st => .ok st
  | l :: rest, st =>
    match process_node_line m st l with
    | .ok st' => process_node_lines m rest st'
    | .err e => .err e
    | .timeout => .timeout

/-- The post-loop root adjustment: `taxonomy[1].children.remove(1)` and
`taxonomy[1].parent = None`. -/
def adjust_root (st : BuildState) : Res BuildState :=
  match lookupD st.taxonomy 1 with
  | none => .err (.keyErrorN (some 1))
  | some root =>
    match pyRemove root.children 1 with
    | .ok ch =>
      let root' : Node := { root with parent := none, children := ch }
      .ok { st with taxonomy := upsertD st.taxonomy 1 root' }
    | .err e => .err e
    | .timeout => .timeout

/-- `construct_tree`: names phase, nodes phase, root adjustment. -/
def construct_tree (names : List NameLine) (nodes : List NodeLine) :
    Res BuildState :=
  (parse_names names []).bind fun m =>
  (process_node_lines m nodes {}).bind fun st =>
  adjust_root st

/-! ### The stateful query layer

`TaxState` packages `self.taxonomy` with the three memo caches; every
query method takes the state and returns the (possibly mutated) state
together with its `Res` outcome, since Python side effects performed
before an exception persist. -/

/-- The mutable attributes of a `TaxonomyTree` used by queries. -/
structure TaxState where
  taxonomy : Taxonomy
  lineages : List (Nat × List Nat)
  distances : List (Nat × List (Nat × Int))
  lca_mappings : List (Nat × List (Nat × Nat))
deriving DecidableEq, Repr

/-- The state right after `construct_tree`: empty memo caches. -/
def initState (bs : BuildState) : TaxState :=
  ⟨bs.taxonomy, [], [], []⟩

/-- The per-tax_id loop of `get_lineage`: memo-cache check, else the
uncached walk (which is then cached). -/
def get_lineage_go (F : Nat) :
    List Nat → List (Nat × List Nat) → TaxState → Res (List (Nat × List Nat)) × TaxState
  | [], acc, s => (.ok acc, s)
  | id :: rest, acc, s =>
    match lookupD s.lineages id with
    | some l => get_lineage_go F rest (upsertD acc id l) s
    | none =>
      match get_lineage1 s.taxonomy F id with
      | .ok l => get_lineage_go F rest (upsertD acc id l)
          { s with lineages := upsertD s.lineages id l }
      | .err e => (.err e, s)
      | .timeout => (.timeout, s)

/-- `get_lineage(tax_id_list)`. -/
def get_lineage_st (F : Nat) (ids : List Nat) (s : TaxState) :
    Res (List (Nat × List Nat)) × TaxState :=
  get_lineage_go F ids [] s

/-- The uncached branch of `get_lca`: both lineages through the caching
`get_lineage`, set-intersection size, index, and the memo-cache write
(`tax_id_small`/`tax_id_large` written as `min`/`max`). -/
def get_lca_uncached (F : Nat) (a b : Nat) (s : TaxState) : Res Nat × TaxState :=
  match get_lineage_st F [a, b] s with
  | (.ok lins, s) =>
    match lookupD lins a, lookupD lins b with
    | some La, some Lb =>
      match pyGet La ((interCard La Lb : Int) - 1) with
      | .ok z =>
        let sub := (lookupD s.lca_mappings (min a b)).getD []
        let newmap := upsertD s.lca_mappings (min a b) (upsertD sub (max a b) z)
        (.ok z, { s with lca_mappings := newmap })
      | .err e => (.err e, s)
      | .timeout => (.timeout, s)
    | _, _ => (.err (.keyErrorN (some a)), s)
  | (.err e, s) => (.err e, s)
  | (.timeout, s) => (.timeout, s)

/-- `get_lca(tax_id_1, tax_id_2)`: cache probe (inserting an empty subdict
for an unseen smaller id), else the uncached branch. -/
def get_lca_st (F : Nat) (a b : Nat) (s : TaxState) : Res Nat × TaxState :=
  let cached : Option Nat :=
    match lookupD s.lca_mappings (min a b) with
    | some sub => lookupD sub (max a b)
    | none => none
  let s :=
    match lookupD s.lca_mappings (min a b) with
    | some _ => s
    | none => { s with lca_mappings := upsertD s.lca_mappings (min a b) [] }
  match cached with
  | some z => (.ok z, s)
  | none => get_lca_uncached F a b s

/-- `one_way_distance(tax_id_ancestor, tax_id)` (inner function of
`get_distance`, using the caching `get_lineage`). -/
def one_way_st (F : Nat) (anc id : Nat) (s : TaxState) : Res Int × TaxState :=
  match get_lineage_st F [id] s with
  | (.ok lins, s) =>
    match lookupD lins id with
    | some L =>
      match pyIndexOf L anc with
      | .ok ai =>
        match pyIndexOf L id with
        | .ok ii => (.ok ((ii : Int) - (ai : Int)), s)
        | .err e => (.err e, s)
        | .timeout => (.timeout, s)
      | .err e => (.err e, s)
      | .timeout => (.timeout, s)
    | none => (.err (.keyErrorN (some id)), s)
  | (.err e, s) => (.err e, s)
  | (.timeout, s) => (.timeout, s)

/-- The uncached branch of `get_distance`: LCA, two one-way distances,
sum, and the memo-cache write. -/
def get_distance_uncached (F : Nat) (a b : Nat) (s : TaxState) : Res Int × TaxState :=
  match get_lca_st F a b s with
  | (.ok z, s) =>
    match one_way_st F z a s with
    | (.ok d1, s) =>
      match one_way_st F z b s with
      | (.ok d2, s) =>
        let sub := (lookupD s.distances (min a b)).getD []
        let newmap := upsertD s.distances (min a b) (upsertD sub (max a b) (d1 + d2))
        (.ok (d1 + d2), { s with distances := newmap })
      | (.err e, s) => (.err e, s)
      | (.timeout, s) => (.timeout, s)
    | (.err e, s) => (.err e, s)
    | (.timeout, s) => (.timeout, s)
  | (.err e, s) => (.err e, s)
  | (.timeout, s) => (.timeout, s)

/-- `get_distance(tax_id_1, tax_id_2)`: cache probe (inserting an empty
subdict for an unseen smaller id), else the uncached branch. -/
def get_distance_st (F : Nat) (a b : Nat) (s : TaxState) : Res Int × TaxState :=
  let cached : Option Int :=
    match lookupD s.distances (min a b) with
    | some sub => lookupD sub (max a b)
    | none => none
  let s :=
    match lookupD s.distances (min a b) with
    | some _ => s
    | none => { s with distances := upsertD s.distances (min a b) [] }
  match cached with
  | some d => (.ok d, s)
  | none => get_distance_uncached F a b s

/-- `rank_dict = self.get_rank(tax_id_list)` (pure dict of rank fields). -/
def get_rank_dict (t : Taxonomy) : List Nat → List (Nat × Option String) →
    Res (List (Nat × Option String))
  | [], acc => .ok acc
  | id :: rest, acc =>
    match get_rank1 t id with
    | .ok r => get_rank_dict t rest (upsertD acc id r)
    | .err e => .err e
    | .timeout => .timeout

/-- The `for tax_id in rank_dict:` loop of `get_rank_code`. -/
def get_rank_code_go (F : Nat) :
    List (Nat × Option String) → List (Nat × Rank) → TaxState →
    Res (List (Nat × Rank)) × TaxState
  | [], acc, s => (.ok acc, s)
  | (id, rank) :: rest, acc, s =>
    match rank_walk s.taxonomy F rank id with
    | .ok cc =>
      match get_distance_st F cc.2 id s with
      | (.ok depth, s) =>
        match get_rank1 s.taxonomy id with
        | .ok name => get_rank_code_go F rest (upsertD acc id ⟨name, cc.1, depth⟩) s
        | .err e => (.err e, s)
        | .timeout => (.timeout, s)
      | (.err e, s) => (.err e, s)
      | (.timeout, s) => (.timeout, s)
    | .err e => (.err e, s)
    | .timeout => (.timeout, s)

/-- `get_rank_code(tax_id_list)`. -/
def get_rank_code_st (F : Nat) (ids : List Nat) (s : TaxState) :
    Res (List (Nat × Rank)) × TaxState :=
  match get_rank_dict s.taxonomy ids [] with
  | .ok rd => get_rank_code_go F rd [] s
  | .err e => (.err e, s)
  | .timeout => (.timeout, s)

/-! ### `get_clade_rank_taxids` -/

/-- The `any([rank_code_weight < canonical_rank_weights[rank] for rank in
wanted_ranks])` test (the comprehension evaluates every element before
`any` runs, so a missing key raises regardless of earlier hits). -/
def any_deeper (w : Nat) : List String → Res Bool
  | [] => .ok false
  | rk :: rest =>
    match lookupD canonical_rank_weights rk with
    | none => .err (.keyErrorS rk)
    | some wr =>
      match any_deeper w rest with
      | .ok b => .ok (decide (w < wr) || b)
      | .err e => .err e
      | .timeout => .timeout

/-- `tax_lvl_dict[rank_code].add(tax_id)`. -/
def tldAdd (tld : List (String × List Nat)) (code : String) (id : Nat) :
    List (String × List Nat) :=
  upsertD tld code (((lookupD tld code).getD []) ++ [id])

/-- The recursive `dfs` of `get_clade_rank_taxids`.  The Python recursion
`dfs(tax_id)` followed by `for child in children: dfs(child)` is expressed
with an explicit pending list per recursion level; `visited_nodes` and
`tax_lvl_dict` are threaded exactly as the shared mutable set/dict are. -/
def crt_dfs (F : Nat) (wanted : List String) :
    Nat → List Nat → List Nat → List (String × List Nat) → TaxState →
    Res (List (String × List Nat) × List Nat) × TaxState
  | _, [], vis, tld, s => (.ok (tld, vis), s)
  | 0, _ :: _, _, _, s => (.timeout, s)
  | fuel + 1, id :: rest, vis, tld, s =>
    if id ∈ vis then crt_dfs F wanted fuel rest vis tld s
    else
      let vis' := id :: vis
      match get_rank_code_st F [id] s with
      | (.ok rd, s1) =>
        match lookupD rd id with
        | some r =>
          let tld' := if r.rank_depth = 0 ∧ r.rank_code ∈ wanted
                      then tldAdd tld r.rank_code id else tld
          match lookupD canonical_rank_weights r.rank_code with
          | none => (.err (.keyErrorS r.rank_code), s1)
          | some w =>
            match any_deeper w wanted with
            | .ok true =>
              match get_children1 s1.taxonomy id with
              | .ok ch =>
                match crt_dfs F wanted fuel ch vis' tld' s1 with
                | (.ok tv, s2) => crt_dfs F wanted fuel rest tv.2 tv.1 s2
                | (.err e, s2) => (.err e, s2)
                | (.timeout, s2) => (.timeout, s2)
              | .err e => (.err e, s1)
              | .timeout => (.timeout, s1)
            | .ok false => crt_dfs F wanted fuel rest vis' tld' s1
            | .err e => (.err e, s1)
            | .timeout => (.timeout, s1)
        | none => (.err (.keyErrorN (some id)), s1)
      | (.err e, s1) => (.err e, s1)
      | (.timeout, s1) => (.timeout, s1)

/-- `rank = translate_rank2code[rank]` / `set(rank)`: the wanted set of
single-letter rank codes (`set('G')` is the one-character set). -/
def wanted_of : Option String → Res (List String)
  | some rname =>
    match lookupD translate_rank2code rname with
    | some c => .ok [c]
    | none => .err (.keyErrorS rname)
  | none => .ok canonical_ranks

/-- The `for tax_id in tax_ids:` loop of `get_clade_rank_taxids`: each root
gets a fresh visited set and a fresh `tax_lvl_dict`. -/
def crt_loop (F dfuel : Nat) (wanted : List String) :
    List Nat → List (Nat × List (String × List Nat)) → TaxState →
    Res (List (Nat × List (String × List Nat))) × TaxState
  | [], acc, s => (.ok acc, s)
  | id :: rest, acc, s =>
    let tld0 := wanted.map (fun c => (c, ([] : List Nat)))
    match crt_dfs F wanted dfuel [id] [] tld0 s with
    | (.ok tv, s1) => crt_loop F dfuel wanted rest (upsertD acc id tv.1) s1
    | (.err e, s1) => (.err e, s1)
    | (.timeout, s1) => (.timeout, s1)

/-- `get_clade_rank_taxids(tax_ids, rank=None)`. -/
def get_clade_rank_taxids_st (F dfuel : Nat) (ids : List Nat)
    (rnk : Option String) (s : TaxState) :
    Res (List (Nat × List (String × List Nat))) × TaxState :=
  match wanted_of rnk with
  | .ok wanted => crt_loop F dfuel wanted ids [] s
  | .err e => (.err e, s)
  | .timeout => (.timeout, s)

/-! ### `get_siblings` -/

/-- The qualifying rank codes of `get_siblings`. -/
def sibling_rank_codes : List String := ["S", "G", "F", "O", "C", "P"]

/-- The inner `get_parent` helper of `get_siblings`: climb until an
ancestor that sits exactly at a qualifying canonical rank, or the root. -/
def sib_parent_walk (F : Nat) : Nat → Nat → TaxState → Res Nat × TaxState
  | 0, _, s => (.timeout, s)
  | fuel + 1, current, s =>
    match get_parent1 s.taxonomy current with
    | .ok pOpt =>
      match pOpt with
      | none => (.err (.keyErrorN none), s)
      | some p =>
        match get_rank_code_st F [p] s with
        | (.ok rd, s1) =>
          match lookupD rd p with
          | some r =>
            if r.rank_code ∈ sibling_rank_codes ∧ r.rank_depth = 0 then (.ok p, s1)
            else if p = 1 then (.ok p, s1)
            else sib_parent_walk F fuel p s1
          | none => (.err (.keyErrorN (some p)), s1)
        | (.err e, s1) => (.err e, s1)
        | (.timeout, s1) => (.timeout, s1)
    | .err e => (.err e, s)
    | .timeout => (.timeout, s)

/-- The recursive `dfs` of `get_siblings` (pending-list form as in
`crt_dfs`); collects descendants at the wanted code, not descending
below a hit. -/
def sib_dfs (F : Nat) (wanted : String) :
    Nat → List Nat → List Nat → List Nat → TaxState →
    Res (List Nat × List Nat) × TaxState
  | _, [], vis, sib, s => (.ok (sib, vis), s)
  | 0, _ :: _, _, _, s => (.timeout, s)
  | fuel + 1, id :: rest, vis, sib, s =>
    if id ∈ vis then sib_dfs F wanted fuel rest vis sib s
    else
      let vis' := id :: vis
      match get_rank_code_st F [id] s with
      | (.ok rd, s1) =>
        match lookupD rd id with
        | some r =>
          if r.rank_code ≠ wanted then
            match get_children1 s1.taxonomy id with
            | .ok ch =>
              match sib_dfs F wanted fuel ch vis' sib s1 with
              | (.ok sv, s2) => sib_dfs F wanted fuel rest sv.2 sv.1 s2
              | (.err e, s2) => (.err e, s2)
              | (.timeout, s2) => (.timeout, s2)
            | .err e => (.err e, s1)
            | .timeout => (.timeout, s1)
          else sib_dfs F wanted fuel rest vis' (sib ++ [id]) s1
        | none => (.err (.keyErrorN (some id)), s1)
      | (.err e, s1) => (.err e, s1)
      | (.timeout, s1) => (.timeout, s1)

/-! ### Auxiliary notions for the verification -/

/-- Deepest-first ancestor chain of `id`: the list `get_lineage1` builds
just before its final `reverse`. -/
def chainFull (t : Taxonomy) (F : Nat) (id : Nat) : Res (List Nat) :=
  match get_node1 t id with
  | .ok n => lineage_walk t F [id] n
  | .err e => .err e
  | .timeout => .timeout

/-- Python truthiness of the `parent` field: falsy for `None` and for `0`. -/
def parentFalsy : Option Nat → Bool
  | none => true
  | some p => decide (p = 0)

/-- Cache-free counterpart of the `get_lineage` loop: what the loop yields
when every queried lineage is recomputed. -/
def pure_lineage_list (t : Taxonomy) (F : Nat) :
    List Nat → List (Nat × List Nat) → Res (List (Nat × List Nat))
  | [], acc => .ok acc
  | id :: rest, acc =>
    match get_lineage1 t F id with
    | .ok l => pure_lineage_list t F rest (upsertD acc id l)
    | .err e => .err e
    | .timeout => .timeout

/-- The taxonomy has the root, `tax_id = 1`, as its only node with a falsy
parent link (the state `construct_tree` leaves a well-formed source in). -/
def UniqueRoot (t : Taxonomy) : Prop :=
  (∃ n, lookupD t 1 = some n) ∧ ∀ p ∈ t, parentFalsy p.2.parent = true → p.1 = 1

/-- Every memoized lineage equals its uncached recomputation. -/
def LinCo (t : Taxonomy) (F : Nat) (s : TaxState) : Prop :=
  ∀ p ∈ s.lineages, get_lineage1 t F p.1 = .ok p.2

/-- Every memoized distance equals an uncached recomputation (the pair is
stored under (min, max); the computation ran in one of the two orders). -/
def DistCo (t : Taxonomy) (F : Nat) (s : TaxState) : Prop :=
  ∀ p ∈ s.distances, ∀ q ∈ p.2,
    pure_distance t F p.1 q.1 = .ok q.2 ∨ pure_distance t F q.1 p.1 = .ok q.2

/-- Every memoized LCA equals an uncached recomputation. -/
def LcaCo (t : Taxonomy) (F : Nat) (s : TaxState) : Prop :=
  ∀ p ∈ s.lca_mappings, ∀ q ∈ p.2,
    pure_lca t F p.1 q.1 = .ok q.2 ∨ pure_lca t F q.1 p.1 = .ok q.2

/-- Cache coherence: the state's taxonomy is `t` and all three memo caches
contain only values their uncached recomputation confirms. -/
def Coherent (t : Taxonomy) (F : Nat) (s : TaxState) : Prop :=
  s.taxonomy = t ∧ LinCo t F s ∧ DistCo t F s ∧ LcaCo t F s

/-- `u` is an initial segment of `v`. -/
def pre (u v : List Nat) : Prop := ∃ w, u ++ w = v

/-- `u` is a final segment of `v`. -/
def suf (u v : List Nat) : Prop := ∃ w, w ++ u = v

/-- Clade membership: `Reachable t a b` holds when `b` is `a` or a
transitive child of `a` along `children` links. -/
inductive Reachable (t : Taxonomy) : Nat → Nat → Prop
  | refl (a : Nat) : Reachable t a a
  | step {a b c : Nat} (n : Node) : Reachable t a b → lookupD t b = some n →
      c ∈ n.children → Reachable t a c

/-- Number of occurrences of the root id among the root's recorded
children (0 while the root is not yet a key of the taxonomy). -/
def rootChildCount (τ : Taxonomy) : Nat :=
  match lookupD τ 1 with
  | some n => n.children.count 1
  | none => 0

/-- Soundness of a `tax_lvl_dict` collected under root `root`: every
recorded taxid lies in the queried clade and sits exactly (depth 0) at the
canonical rank whose code keys it, and that code was wanted. -/
def TldSound (t : Taxonomy) (F : Nat) (wanted : List String) (root : Nat)
    (tld : List (String × List Nat)) : Prop :=
  ∀ p ∈ tld, ∀ x ∈ p.2, Reachable t root x ∧
    ∃ r : Rank, pure_rank_code t F x = .ok r ∧ r.rank_depth = 0 ∧
      r.rank_code = p.1 ∧ p.1 ∈ wanted

/-- Soundness of the accumulated result of `get_clade_rank_taxids`: each
root's `tax_lvl_dict` is sound for that root. -/
def AccSound (t : Taxonomy) (F : Nat) (wanted : List String)
    (acc : List (Nat × List (String × List Nat))) : Prop :=
  ∀ p ∈ acc, TldSound t F wanted p.1 p.2

/-! ### Concrete input data used by witnesses and counterexamples -/

/-- Names file of the running example (root; genus Pinus; two species). -/
def exNames : List NameLine :=
  [⟨1, "root", "scientific name"⟩, ⟨2, "Pinus", "scientific name"⟩,
   ⟨3, "Pinus taeda", "scientific name"⟩, ⟨4, "Pinus strobus", "scientific name"⟩]

/-- Nodes file of the running example. -/
def exNodes : List NodeLine :=
  [⟨1, 1, "no rank"⟩, ⟨2, 1, "genus"⟩, ⟨3, 2, "species"⟩, ⟨4, 2, "species"⟩]

/-- Query state built from the running example (fresh caches). -/
def exState : TaxState :=
  match construct_tree exNames exNodes with
  | .ok bs => initState bs
  | _ => ⟨[], [], [], []⟩

/-- The `construct_tree` output of the running example, spelled out. -/
def exBuild : BuildState :=
  ⟨[(1, ⟨some "root", none, some "no rank", none, [2]⟩),
    (2, ⟨some "Pinus", none, some "genus", some 1, [3, 4]⟩),
    (3, ⟨some "Pinus taeda", none, some "species", some 2, []⟩),
    (4, ⟨some "Pinus strobus", none, some "species", some 2, []⟩)],
   [("no rank", [1]), ("genus", [2]), ("species", [3, 4])],
   [3, 4]⟩

/-- Names file for a taxonomy where a genus sits below a species. -/
def pgNames : List NameLine :=
  [⟨1, "root", "scientific name"⟩, ⟨2, "X", "scientific name"⟩,
   ⟨3, "Y", "scientific name"⟩]

/-- Nodes file with non-monotonic ranks: species 2 above genus 3. -/
def pgNodes : List NodeLine :=
  [⟨1, 1, "no rank"⟩, ⟨2, 1, "species"⟩, ⟨3, 2, "genus"⟩]

/-- Query state for the species-above-genus taxonomy. -/
def pgState : TaxState :=
  match construct_tree pgNames pgNodes with
  | .ok bs => initState bs
  | _ => ⟨[], [], [], []⟩

/-- Names file for a taxonomy with a superkingdom node. -/
def skNames : List NameLine :=
  [⟨1, "root", "scientific name"⟩, ⟨2, "Bacteria", "scientific name"⟩,
   ⟨3, "Z", "scientific name"⟩]

/-- Nodes file with a superkingdom (rank code D) at tax_id 2. -/
def skNodes : List NodeLine :=
  [⟨1, 1, "no rank"⟩, ⟨2, 1, "superkingdom"⟩, ⟨3, 2, "species"⟩]

/-- Query state for the superkingdom taxonomy. -/
def skState : TaxState :=
  match construct_tree skNames skNodes with
  | .ok bs => initState bs
  | _ => ⟨[], [], [], []⟩

/-- Names file with two retained scientific names for tax_id 1. -/
def dupSciNames : List NameLine :=
  [⟨1, "root", "scientific name"⟩, ⟨1, "alt", "scientific name"⟩]

/-- A nodes file whose root self-loop line appears twice. -/
def dupRootNodes : List NodeLine := [⟨1, 1, "no rank"⟩, ⟨1, 1, "no rank"⟩]

/-- Names file whose only record is the root. -/
def dupRootNames : List NameLine := [⟨1, "root", "scientific name"⟩]

/-- Nodes file referencing tax_id 3, which `gapNames` has no record for. -/
def gapNodes : List NodeLine :=
  [⟨1, 1, "no rank"⟩, ⟨2, 1, "genus"⟩, ⟨3, 2, "species"⟩]

/-- Names file missing tax_id 3. -/
def gapNames : List NameLine :=
  [⟨1, "r", "scientific name"⟩, ⟨2, "a", "scientific name"⟩]

/-- `get_siblings(tax_id)`. -/
def get_siblings_st (F dfuel : Nat) (id : Nat) (s : TaxState) :
    Res (List Nat) × TaxState :=
  match get_rank_code_st F [id] s with
  | (.ok rd, s1) =>
    match lookupD rd id with
    | some r =>
      if r.rank_depth ≠ 0 then (.err .invalidRank, s1)
      else
        match sib_parent_walk F dfuel id s1 with
        | (.ok par, s2) =>
          match sib_dfs F r.rank_code dfuel [par] [] [] s2 with
          | (.ok sv, s3) => (.ok sv.1, s3)
          | (.err e, s3) => (.err e, s3)
          | (.timeout, s3) => (.timeout, s3)
        | (.err e, s2) => (.err e, s2)
        | (.timeout, s2) => (.timeout, s2)
    | none => (.err (.keyErrorN (some id)), s1)
  | (.err e, s1) => (.err e, s1)
  | (.timeout, s1) => (.timeout, s1)

/-! ## Theorems -/

/-! ### Association lists and Python list primitives -/

theorem lookupD_upsertD_self {κ α : Type} [DecidableEq κ] (m : List (κ × α)) (k : κ) (v : α) :
    lookupD (upsertD m k v) k = some v := by
  induction m with
  | nil => simp [lookupD, upsertD]
  | cons p ps ih =>
    by_cases h : p.1 = k
    · simp [upsertD, lookupD, h]
    · simp [upsertD, lookupD, h, ih]

theorem lookupD_upsertD_ne {κ α : Type} [DecidableEq κ] (m : List (κ × α)) {k k' : κ} (v : α)
    (h : k' ≠ k) : lookupD (upsertD m k v) k' = lookupD m k' := by
  have hk : ¬ (k = k') := fun hh => h hh.symm
  induction m with
  | nil => simp [lookupD, upsertD, hk]
  | cons p ps ih =>
    by_cases hp : p.1 = k
    · have hp' : ¬ (p.1 = k') := by rw [hp]; exact hk
      simp [upsertD, lookupD, hp, hp', hk]
    · by_cases hp' : p.1 = k' <;> simp [upsertD, lookupD, hp, hp', ih, h]

theorem lookupD_mem {κ α : Type} [DecidableEq κ] {m : List (κ × α)} {k : κ} {v : α}
    (h : lookupD m k = some v) : (k, v) ∈ m := by
  induction m with
  | nil => simp [lookupD] at h
  | cons p ps ih =>
    by_cases hp : p.1 = k
    · simp only [lookupD, if_pos hp, Option.some.injEq] at h
      have : (k, v) = p := by rw [← hp, ← h]
      rw [List.mem_cons]
      exact Or.inl this
    · simp only [lookupD, if_neg hp] at h
      exact List.mem_cons_of_mem _ (ih h)

theorem lookupD_isSome_of_mem {κ α : Type} [DecidableEq κ] {m : List (κ × α)} {k : κ} {v : α}
    (h : (k, v) ∈ m) : ∃ v', lookupD m k = some v' := by
  induction m with
  | nil => simp at h
  | cons p ps ih =>
    by_cases hp : p.1 = k
    · exact ⟨p.2, by simp [lookupD, hp]⟩
    · rcases List.mem_cons.mp h with h1 | h1
      · exact absurd (congrArg Prod.fst h1.symm) hp
      · simpa [lookupD, hp] using ih h1

theorem pyRemove_ok_of_mem {l : List Nat} {x : Nat} (h : x ∈ l) :
    ∃ l', pyRemove l x = .ok l' := by
  induction l with
  | nil => simp at h
  | cons a rest ih =>
    by_cases ha : a = x
    · exact ⟨rest, by simp [pyRemove, ha]⟩
    · have hx : x ∈ rest := by
        rcases List.mem_cons.mp h with h1 | h1
        · exact absurd h1.symm ha
        · exact h1
      rcases ih hx with ⟨l', hl'⟩
      exact ⟨a :: l', by simp [pyRemove, ha, hl', Res.map]⟩

theorem pyRemove_err_of_not_mem {l : List Nat} {x : Nat} (h : x ∉ l) :
    pyRemove l x = .err .valueError := by
  induction l with
  | nil => rfl
  | cons a rest ih =>
    have ha : a ≠ x := fun hh => h (hh ▸ List.mem_cons_self a rest)
    have : x ∉ rest := fun hh => h (List.mem_cons_of_mem a hh)
    simp [pyRemove, ha, ih this, Res.map]

theorem pyRemove_count {l l' : List Nat} {x : Nat} (h : pyRemove l x = .ok l') :
    l'.count x + 1 = l.count x := by
  induction l generalizing l' with
  | nil => simp [pyRemove] at h
  | cons a rest ih =>
    by_cases ha : a = x
    · simp only [pyRemove, if_pos ha] at h
      cases h
      simp [List.count_cons, ha]
    · simp only [pyRemove, if_neg ha] at h
      cases hr : pyRemove rest x with
      | ok r =>
        rw [hr] at h
        simp only [Res.map, Res.ok.injEq] at h
        subst h
        have := ih hr
        simp [List.count_cons, ha]
        omega
      | err e => rw [hr] at h; simp [Res.map] at h
      | timeout => rw [hr] at h; simp [Res.map] at h

theorem pyIndexOf_of_nodup {l : List Nat} {i : Nat} {x : Nat} (hn : l.Nodup)
    (h : l[i]? = some x) : pyIndexOf l x = .ok i := by
  induction l generalizing i with
  | nil => simp at h
  | cons a rest ih =>
    by_cases ha : a = x
    · subst ha
      have : i = 0 := by
        by_contra hi
        rcases Nat.exists_eq_succ_of_ne_zero hi with ⟨j, rfl⟩
        have : a ∈ rest := List.getElem?_mem (by simpa using h)
        exact (List.nodup_cons.mp hn).1 this
      subst this
      simp [pyIndexOf]
    · have hi : i ≠ 0 := by
        rintro rfl
        simp at h
        exact ha h
      rcases Nat.exists_eq_succ_of_ne_zero hi with ⟨j, rfl⟩
      have hrest : rest[j]? = some x := by simpa using h
      simp [pyIndexOf, ha, ih (List.nodup_cons.mp hn).2 hrest, Res.map]

theorem pyGet_of_getElem {l : List Nat} {n : Nat} {x : Nat} (h : l[n]? = some x) :
    pyGet l (n : Int) = .ok x := by
  unfold pyGet
  have h0 : ¬ ((n : Int) < 0) := by omega
  have ht : ((n : Int)).toNat = n := by omega
  simp only [if_neg h0, ht, List.get?_eq_getElem?, h]

/-! ### Initial and final segments -/

theorem suf_refl (l : List Nat) : suf l l := ⟨[], rfl⟩

theorem suf_cons {u v : List Nat} (a : Nat) (h : suf u v) : suf u (a :: v) := by
  rcases h with ⟨w, rfl⟩
  exact ⟨a :: w, rfl⟩

theorem suf_len_le {u v : List Nat} (h : suf u v) : u.length ≤ v.length := by
  rcases h with ⟨w, rfl⟩
  simp

theorem suf_mem {u v : List Nat} {x : Nat} (h : suf u v) (hx : x ∈ u) : x ∈ v := by
  rcases h with ⟨w, rfl⟩
  exact List.mem_append_right w hx

theorem suf_drop (l : List Nat) (n : Nat) : suf (l.drop n) l :=
  ⟨l.take n, List.take_append_drop n l⟩

theorem eq_drop_of_suf {u l : List Nat} (h : suf u l) :
    u = l.drop (l.length - u.length) := by
  rcases h with ⟨w, rfl⟩
  have : (w ++ u).length - u.length = w.length := by simp
  rw [this, List.drop_left]

theorem suf_total : ∀ {l u v : List Nat}, suf u l → suf v l →
    u.length ≤ v.length → suf u v := by
  intro l
  induction l with
  | nil =>
    intro u v h1 _ _
    rcases h1 with ⟨w, hw⟩
    rcases List.append_eq_nil.mp hw with ⟨_, rfl⟩
    exact ⟨v, List.append_nil v⟩
  | cons a l' ih =>
    intro u v h1 h2 hl
    rcases h2 with ⟨w2, hw2⟩
    cases w2 with
    | nil =>
      simp only [List.nil_append] at hw2
      exact hw2 ▸ h1
    | cons b w2' =>
      have hv : suf v l' := ⟨w2', (by simpa using hw2 : b = a ∧ w2' ++ v = l').2⟩
      rcases h1 with ⟨w1, hw1⟩
      cases w1 with
      | nil =>
        simp only [List.nil_append] at hw1
        have h1' : u.length = l'.length + 1 := by rw [hw1]; simp
        have h2' : v.length ≤ l'.length := suf_len_le hv
        omega
      | cons c w1' =>
        have hu : suf u l' := ⟨w1', (by simpa using hw1 : c = a ∧ w1' ++ u = l').2⟩
        exact ih hu hv hl

theorem suf_eq_of_len {u v : List Nat} (h : suf u v) (hl : v.length ≤ u.length) :
    u = v := by
  rcases h with ⟨w, rfl⟩
  have hw : w = [] := by
    rw [← List.length_eq_zero]
    have := List.length_append w u
    omega
  simp [hw]

theorem pre_reverse_of_suf {u v : List Nat} (h : suf u v) :
    pre u.reverse v.reverse := by
  rcases h with ⟨w, rfl⟩
  exact ⟨w.reverse, by simp⟩

theorem pre_getElem {u v : List Nat} {i : Nat} (h : pre u v) (hi : i < u.length) :
    v[i]? = u[i]? := by
  rcases h with ⟨w, rfl⟩
  exact List.getElem?_append_left hi

/-! ### Structure of ancestor chains -/

theorem get_node1_lookup {t : Taxonomy} {y : Nat} {n : Node}
    (h : get_node1 t y = .ok n) : lookupD t y = some n := by
  unfold get_node1 at h
  by_cases he : t.isEmpty
  · simp [he] at h
  · rw [if_neg he] at h
    cases hl : lookupD t y with
    | none => rw [hl] at h; exact absurd h (by simp)
    | some m => rw [hl] at h; cases h; rfl

theorem lineage_walk_acc (t : Taxonomy) :
    ∀ (F : Nat) (acc : List Nat) (node : Node),
      lineage_walk t F acc node = Res.map (acc ++ ·) (lineage_walk t F [] node) := by
  intro F
  induction F with
  | zero => intro acc node; rfl
  | succ F ih =>
    intro acc node
    cases hp : node.parent with
    | none => simp [lineage_walk, hp, Res.map]
    | some p =>
      by_cases h0 : p = 0
      · simp [lineage_walk, hp, h0, Res.map]
      · cases hn : get_node1 t p with
        | ok pn =>
          simp only [lineage_walk, hp, if_neg h0, hn]
          rw [ih (acc ++ [p]) pn, ih ([] ++ [p]) pn]
          cases lineage_walk t F [] pn <;> simp [Res.map]
        | err e => simp [lineage_walk, hp, if_neg h0, hn, Res.map]
        | timeout => simp [lineage_walk, hp, if_neg h0, hn, Res.map]

theorem get_lineage1_eq_chain (t : Taxonomy) (F id : Nat) :
    get_lineage1 t F id = Res.map List.reverse (chainFull t F id) := by
  unfold get_lineage1 chainFull
  cases get_node1 t id <;> simp [Res.map]

theorem chainFull_base {t : Taxonomy} {F id : Nat} {n : Node}
    (hn : get_node1 t id = .ok n) (hf : parentFalsy n.parent = true) :
    chainFull t (F + 1) id = .ok [id] := by
  unfold chainFull
  rw [hn]
  cases hp : n.parent with
  | none => simp [lineage_walk, hp]
  | some p =>
    have h0 : p = 0 := by simpa [parentFalsy, hp] using hf
    simp [lineage_walk, hp, h0]

theorem chainFull_step {t : Taxonomy} {F id : Nat} {n : Node} {p : Nat} {pn : Node}
    (hn : get_node1 t id = .ok n) (hp : n.parent = some p) (h0 : p ≠ 0)
    (hpn : get_node1 t p = .ok pn) :
    chainFull t (F + 1) id = Res.map (id :: ·) (chainFull t F p) := by
  unfold chainFull
  rw [hn, hpn]
  simp only [lineage_walk, hp, if_neg h0, hpn]
  rw [lineage_walk_acc t F ([id] ++ [p]) pn, lineage_walk_acc t F [p] pn]
  cases lineage_walk t F [] pn <;> simp [Res.map]

theorem chainFull_ok_inv {t : Taxonomy} {F id : Nat} {L : List Nat}
    (h : chainFull t (F + 1) id = .ok L) :
    ∃ n, get_node1 t id = .ok n ∧
      ((parentFalsy n.parent = true ∧ L = [id]) ∨
       (∃ p pn L', n.parent = some p ∧ p ≠ 0 ∧ get_node1 t p = .ok pn ∧
         chainFull t F p = .ok L' ∧ L = id :: L')) := by
  have hc := h
  unfold chainFull at hc
  cases hn : get_node1 t id with
  | ok n =>
    rw [hn] at hc
    refine ⟨n, rfl, ?_⟩
    cases hp : n.parent with
    | none =>
      left
      refine ⟨by simp [parentFalsy, hp], ?_⟩
      simp only [lineage_walk, hp] at hc
      cases hc
      rfl
    | some p =>
      by_cases h0 : p = 0
      · left
        refine ⟨by simp [parentFalsy, hp, h0], ?_⟩
        simp only [lineage_walk, hp, h0, if_pos rfl] at hc
        cases hc
        rfl
      · right
        cases hpn : get_node1 t p with
        | ok pn =>
          simp only [lineage_walk, hp, if_neg h0, hpn] at hc
          rw [lineage_walk_acc t F ([id] ++ [p]) pn] at hc
          cases hw : lineage_walk t F [] pn with
          | ok w =>
            rw [hw] at hc
            simp only [Res.map, Res.ok.injEq] at hc
            refine ⟨p, pn, p :: w, rfl, h0, hpn, ?_, ?_⟩
            · unfold chainFull
              rw [hpn]
              show lineage_walk t F [p] pn = Res.ok (p :: w)
              rw [lineage_walk_acc t F [p] pn, hw]
              rfl
            · rw [← hc]; rfl
          | err e => rw [hw] at hc; simp [Res.map] at hc
          | timeout => rw [hw] at hc; simp [Res.map] at hc
        | err e => simp [lineage_walk, hp, if_neg h0, hpn] at hc
        | timeout => simp [lineage_walk, hp, if_neg h0, hpn] at hc
  | err e => rw [hn] at hc; exact absurd hc (by simp)
  | timeout => rw [hn] at hc; exact absurd hc (by simp)

theorem chainFull_zero (t : Taxonomy) (id : Nat) {L : List Nat} :
    chainFull t 0 id = .ok L → False := by
  intro h
  unfold chainFull at h
  cases hn : get_node1 t id <;> rw [hn] at h <;> simp [lineage_walk] at h

theorem chainFull_mono {t : Taxonomy} {id : Nat} {L : List Nat} :
    ∀ {F : Nat}, chainFull t F id = .ok L → chainFull t (F + 1) id = .ok L := by
  intro F
  induction F generalizing id L with
  | zero => intro h; exact absurd h (fun hh => chainFull_zero t id hh)
  | succ F ih =>
    intro h
    rcases chainFull_ok_inv h with ⟨n, hn, hcase⟩
    rcases hcase with ⟨hf, rfl⟩ | ⟨p, pn, L', hp, h0, hpn, hL', rfl⟩
    · exact chainFull_base hn hf
    · rw [chainFull_step hn hp h0 hpn, ih hL']
      rfl

theorem chainFull_mono_le {t : Taxonomy} {id : Nat} {L : List Nat} {F F' : Nat}
    (hle : F ≤ F') (h : chainFull t F id = .ok L) : chainFull t F' id = .ok L := by
  induction hle with
  | refl => exact h
  | step _ ih => exact chainFull_mono ih

theorem chainFull_cons {t : Taxonomy} {F id : Nat} {L : List Nat}
    (h : chainFull t F id = .ok L) : ∃ L', L = id :: L' := by
  unfold chainFull at h
  cases hn : get_node1 t id with
  | ok n =>
    rw [hn] at h
    have h' : lineage_walk t F [id] n = .ok L := h
    rw [lineage_walk_acc] at h'
    cases hw : lineage_walk t F [] n with
    | ok w =>
      rw [hw] at h'
      simp only [Res.map, Res.ok.injEq] at h'
      exact ⟨w, h'.symm⟩
    | err e => rw [hw] at h'; simp [Res.map] at h'
    | timeout => rw [hw] at h'; simp [Res.map] at h'
  | err e => rw [hn] at h; exact absurd h (by simp)
  | timeout => rw [hn] at h; exact absurd h (by simp)

theorem chainFull_getLast {t : Taxonomy} {F id : Nat} {L : List Nat}
    (h : chainFull t F id = .ok L) :
    ∃ z n, L.getLast? = some z ∧ get_node1 t z = .ok n ∧
      parentFalsy n.parent = true := by
  induction F generalizing id L with
  | zero => exact absurd h (fun hh => chainFull_zero t id hh)
  | succ F ih =>
    rcases chainFull_ok_inv h with ⟨n, hn, hcase⟩
    rcases hcase with ⟨hf, rfl⟩ | ⟨p, pn, L', hp, h0, hpn, hL', rfl⟩
    · exact ⟨id, n, rfl, hn, hf⟩
    · rcases ih hL' with ⟨z, m, hz, hm, hmf⟩
      rcases chainFull_cons hL' with ⟨L'', rfl⟩
      exact ⟨z, m, by rw [List.getLast?_cons_cons]; exact hz, hm, hmf⟩

theorem chainFull_suffix {t : Taxonomy} {F id : Nat} {L : List Nat}
    (h : chainFull t F id = .ok L) :
    ∀ y ∈ L, ∃ Ly, chainFull t F y = .ok Ly ∧ suf Ly L := by
  induction F generalizing id L with
  | zero => exact absurd h (fun hh => chainFull_zero t id hh)
  | succ F ih =>
    intro y hy
    rcases chainFull_ok_inv h with ⟨n, hn, hcase⟩
    rcases hcase with ⟨hf, rfl⟩ | ⟨p, pn, L', hp, h0, hpn, hL', rfl⟩
    · rcases List.mem_singleton.mp hy with rfl
      exact ⟨[y], h, suf_refl _⟩
    · rcases List.mem_cons.mp hy with rfl | hy'
      · exact ⟨y :: L', h, suf_refl _⟩
      · rcases ih hL' y hy' with ⟨Ly, hLy, hsuf⟩
        exact ⟨Ly, chainFull_mono hLy, suf_cons id hsuf⟩

theorem chainFull_nodup {t : Taxonomy} {F id : Nat} {L : List Nat}
    (h : chainFull t F id = .ok L) : L.Nodup := by
  induction F generalizing id L with
  | zero => exact absurd h (fun hh => chainFull_zero t id hh)
  | succ F ih =>
    rcases chainFull_ok_inv h with ⟨n, hn, hcase⟩
    rcases hcase with ⟨hf, rfl⟩ | ⟨p, pn, L', hp, h0, hpn, hL', rfl⟩
    · simp
    · rw [List.nodup_cons]
      refine ⟨?_, ih hL'⟩
      intro hid
      rcases chainFull_suffix hL' id hid with ⟨Lid, hLid, hsuf⟩
      have : chainFull t (F + 1) id = .ok Lid := chainFull_mono hLid
      rw [h] at this
      cases this
      have := suf_len_le hsuf
      simp at this

theorem chainFull_root {t : Taxonomy} {F id : Nat} {L : List Nat}
    (hu : UniqueRoot t) (h : chainFull t F id = .ok L) :
    L.getLast? = some 1 := by
  rcases chainFull_getLast h with ⟨z, n, hz, hn, hf⟩
  have hmem : (z, n) ∈ t := lookupD_mem (get_node1_lookup hn)
  have hz1 : z = 1 := hu.2 (z, n) hmem hf
  rw [hz, hz1]

theorem chainFull_mem_keys {t : Taxonomy} {F id : Nat} {L : List Nat}
    (h : chainFull t F id = .ok L) :
    ∀ y ∈ L, ∃ n, get_node1 t y = .ok n := by
  intro y hy
  rcases chainFull_suffix h y hy with ⟨Ly, hLy, _⟩
  unfold chainFull at hLy
  cases hn : get_node1 t y with
  | ok n => exact ⟨n, rfl⟩
  | err e => rw [hn] at hLy; exact absurd hLy (by simp)
  | timeout => rw [hn] at hLy; exact absurd hLy (by simp)

/-! ### The deepest common ancestor -/

theorem common_suf {t : Taxonomy} {F y x : Nat} {Ry RX : List Nat}
    (hy : chainFull t F y = .ok Ry) (hX : chainFull t F x = .ok RX)
    (hmem : y ∈ RX) : suf Ry RX := by
  rcases chainFull_suffix hX y hmem with ⟨Ly, hLy, hsuf⟩
  rw [hy] at hLy
  cases hLy
  exact hsuf

theorem interCard_spec {t : Taxonomy} {F a b : Nat} {Ra Rb : List Nat}
    (ha : chainFull t F a = .ok Ra) (hb : chainFull t F b = .ok Rb) :
    interCard Ra.reverse Rb.reverse =
      (Ra.filter (fun y => decide (y ∈ Rb))).length := by
  unfold interCard
  have hcg : Ra.reverse.filter (fun x => decide (x ∈ Rb.reverse)) =
      Ra.reverse.filter (fun x => decide (x ∈ Rb)) := by
    refine List.filter_congr ?_
    intro x _
    simp [List.mem_reverse]
  rw [hcg, List.filter_reverse]
  have hnd : ((Ra.filter (fun x => decide (x ∈ Rb))).reverse).Nodup :=
    List.nodup_reverse.mpr ((chainFull_nodup ha).filter _)
  rw [hnd.dedup]
  simp

theorem deepest_common {t : Taxonomy} {F a b : Nat} {Ra Rb : List Nat}
    (hu : UniqueRoot t)
    (ha : chainFull t F a = .ok Ra) (hb : chainFull t F b = .ok Rb) :
    ∃ z Rz, chainFull t F z = .ok Rz ∧ suf Rz Ra ∧ suf Rz Rb ∧
      (∀ y, y ∈ Ra → y ∈ Rb → y ∈ Rz) ∧
      interCard Ra.reverse Rb.reverse = Rz.length := by
  classical
  set cl : List Nat := Ra.filter (fun y => decide (y ∈ Rb)) with hcl
  have hone : (1 : Nat) ∈ cl := by
    rw [hcl, List.mem_filter]
    refine ⟨List.mem_of_mem_getLast? (chainFull_root hu ha), by
      simpa using List.mem_of_mem_getLast? (chainFull_root hu hb)⟩
  have hclne : cl ≠ [] := fun h => by simp [h] at hone
  set f : Nat → Nat := fun y => match chainFull t F y with
    | .ok L => L.length
    | .err _ => 0
    | .timeout => 0 with hf
  obtain ⟨z, hzarg⟩ : ∃ z, z ∈ cl.argmax f := by
    cases hza : cl.argmax f with
    | none => exact absurd (List.argmax_eq_none.mp hza) hclne
    | some z => exact ⟨z, by rw [Option.mem_def]⟩
  have hzcl : z ∈ cl := List.argmax_mem hzarg
  have hzRa : z ∈ Ra := (List.mem_filter.mp hzcl).1
  have hzRb : z ∈ Rb := by
    have := (List.mem_filter.mp hzcl).2
    simpa using this
  rcases chainFull_suffix ha z hzRa with ⟨Rz, hRz, hsufA⟩
  have hsufB : suf Rz Rb := common_suf hRz hb hzRb
  have hfz : f z = Rz.length := by rw [hf]; simp [hRz]
  have hdeep : ∀ y, y ∈ Ra → y ∈ Rb → y ∈ Rz := by
    intro y hyA hyB
    rcases chainFull_suffix ha y hyA with ⟨Ly, hLy, hsufLa⟩
    have hycl : y ∈ cl := by
      rw [hcl, List.mem_filter]
      exact ⟨hyA, by simpa using hyB⟩
    have hle : f y ≤ f z := List.le_of_mem_argmax hycl hzarg
    have hfy : f y = Ly.length := by rw [hf]; simp [hLy]
    have hsufLz : suf Ly Rz := by
      refine suf_total hsufLa hsufA ?_
      rw [← hfy, ← hfz]
      exact hle
    rcases chainFull_cons hLy with ⟨Ly', rfl⟩
    exact suf_mem hsufLz (List.mem_cons_self y Ly')
  refine ⟨z, Rz, hRz, hsufA, hsufB, hdeep, ?_⟩
  rw [interCard_spec ha hb, ← hcl]
  have hclnd : cl.Nodup := (chainFull_nodup ha).filter _
  have hRznd : Rz.Nodup := chainFull_nodup hRz
  have hmem : ∀ x, x ∈ cl ↔ x ∈ Rz := by
    intro x
    constructor
    · intro hx
      have h1 := (List.mem_filter.mp hx).1
      have h2 : x ∈ Rb := by simpa using (List.mem_filter.mp hx).2
      exact hdeep x h1 h2
    · intro hx
      rw [hcl, List.mem_filter]
      exact ⟨suf_mem hsufA hx, by simpa using suf_mem hsufB hx⟩
  have htf : cl.toFinset = Rz.toFinset := by
    ext x
    simpa using hmem x
  calc cl.length = cl.toFinset.card := (List.toFinset_card_of_nodup hclnd).symm
    _ = Rz.toFinset.card := by rw [htf]
    _ = Rz.length := List.toFinset_card_of_nodup hRznd

theorem chain_head_getElem {R : List Nat} {z : Nat} (h : R.head? = some z) :
    R.reverse[R.length - 1]? = some z := by
  have : R.reverse[R.reverse.length - 1]? = R.reverse.getLast? :=
    (List.getLast?_eq_getElem? _).symm
  rw [List.length_reverse] at this
  rw [this, List.getLast?_reverse, h]

/-- The value `get_lca` computes is the deepest node present in both
(root-first) lineages. -/
theorem pure_lca_spec {t : Taxonomy} {F a b : Nat} {Ra Rb : List Nat}
    (hu : UniqueRoot t)
    (ha : chainFull t F a = .ok Ra) (hb : chainFull t F b = .ok Rb) :
    ∃ z Rz, pure_lca t F a b = .ok z ∧ chainFull t F z = .ok Rz ∧
      Rz.head? = some z ∧ suf Rz Ra ∧ suf Rz Rb ∧
      (∀ y, y ∈ Ra → y ∈ Rb → y ∈ Rz) ∧
      interCard Ra.reverse Rb.reverse = Rz.length := by
  rcases deepest_common hu ha hb with ⟨z, Rz, hRz, hsufA, hsufB, hdeep, hk⟩
  rcases chainFull_cons hRz with ⟨Rz', hRzeq⟩
  have hhead : Rz.head? = some z := by rw [hRzeq]; rfl
  refine ⟨z, Rz, ?_, hRz, hhead, hsufA, hsufB, hdeep, hk⟩
  unfold pure_lca
  rw [get_lineage1_eq_chain, ha, get_lineage1_eq_chain, hb]
  show pyGet Ra.reverse ((interCard Ra.reverse Rb.reverse : Int) - 1) = .ok z
  have hkpos : 1 ≤ Rz.length := by rw [hRzeq]; simp
  have hcast : ((interCard Ra.reverse Rb.reverse : Int) - 1) =
      ((Rz.length - 1 : Nat) : Int) := by
    rw [hk]
    omega
  rw [hcast]
  refine pyGet_of_getElem ?_
  have hpre : pre Rz.reverse Ra.reverse := pre_reverse_of_suf hsufA
  have hlt : Rz.length - 1 < Rz.reverse.length := by
    rw [List.length_reverse]
    omega
  rw [pre_getElem hpre hlt]
  exact chain_head_getElem hhead

theorem pure_lca_ok_inv {t : Taxonomy} {F a b z : Nat}
    (h : pure_lca t F a b = .ok z) :
    ∃ Ra Rb, chainFull t F a = .ok Ra ∧ chainFull t F b = .ok Rb := by
  unfold pure_lca at h
  rw [get_lineage1_eq_chain, get_lineage1_eq_chain] at h
  cases hca : chainFull t F a with
  | ok Ra =>
    rw [hca] at h
    cases hcb : chainFull t F b with
    | ok Rb => exact ⟨Ra, Rb, rfl, rfl⟩
    | err e => rw [hcb] at h; simp [Res.map, Res.bind] at h
    | timeout => rw [hcb] at h; simp [Res.map, Res.bind] at h
  | err e => rw [hca] at h; simp [Res.map, Res.bind] at h
  | timeout => rw [hca] at h; simp [Res.map, Res.bind] at h

theorem pure_lca_symm {t : Taxonomy} {F a b z : Nat} (hu : UniqueRoot t)
    (h : pure_lca t F a b = .ok z) : pure_lca t F b a = .ok z := by
  rcases pure_lca_ok_inv h with ⟨Ra, Rb, ha, hb⟩
  rcases pure_lca_spec hu ha hb with ⟨z1, Rz1, hz1, hRz1, hh1, hs1a, hs1b, hd1, _⟩
  rcases pure_lca_spec hu hb ha with ⟨z2, Rz2, hz2, hRz2, hh2, hs2b, hs2a, hd2, _⟩
  rw [h] at hz1
  cases hz1
  have hz1mem : z ∈ Rz1 := List.mem_of_mem_head? hh1
  have hz2mem : z2 ∈ Rz2 := List.mem_of_mem_head? hh2
  have hz1c : z ∈ Rz2 := hd2 z (suf_mem hs1b hz1mem) (suf_mem hs1a hz1mem)
  have hz2c : z2 ∈ Rz1 := hd1 z2 (suf_mem hs2a hz2mem) (suf_mem hs2b hz2mem)
  have h12 : suf Rz1 Rz2 := common_suf hRz1 hRz2 hz1c
  have h21 : suf Rz2 Rz1 := common_suf hRz2 hRz1 hz2c
  have : Rz1 = Rz2 := suf_eq_of_len h12 (suf_len_le h21)
  rw [this] at hh1
  rw [hh1] at hh2
  cases hh2
  exact hz2

theorem pure_one_way_spec {t : Taxonomy} {F z id : Nat} {Rz R : List Nat}
    (hz : chainFull t F z = .ok Rz) (h : chainFull t F id = .ok R)
    (hsuf : suf Rz R) :
    pure_one_way t F z id = .ok ((R.length : Int) - (Rz.length : Int)) := by
  unfold pure_one_way
  rw [get_lineage1_eq_chain, h]
  show Res.bind (.ok R.reverse) _ = _
  rw [Res.bind]
  have hnd : R.reverse.Nodup := List.nodup_reverse.mpr (chainFull_nodup h)
  rcases chainFull_cons hz with ⟨Rz', hRzeq⟩
  have hzlen : 1 ≤ Rz.length := by rw [hRzeq]; simp
  have hRlen : 1 ≤ R.length := by
    rcases chainFull_cons h with ⟨R', hReq⟩
    rw [hReq]; simp
  have hgz : R.reverse[Rz.length - 1]? = some z := by
    have hpre : pre Rz.reverse R.reverse := pre_reverse_of_suf hsuf
    have hlt : Rz.length - 1 < Rz.reverse.length := by
      rw [List.length_reverse]; omega
    rw [pre_getElem hpre hlt]
    exact chain_head_getElem (by rw [hRzeq]; rfl)
  have hgid : R.reverse[R.length - 1]? = some id := by
    refine chain_head_getElem ?_
    rcases chainFull_cons h with ⟨R', hReq⟩
    rw [hReq]; rfl
  rw [pyIndexOf_of_nodup hnd hgz]
  rw [Res.bind]
  rw [pyIndexOf_of_nodup hnd hgid]
  rw [Res.bind]
  congr 1
  have h1 := suf_len_le hsuf
  omega

theorem pure_distance_spec {t : Taxonomy} {F a b : Nat} {Ra Rb : List Nat}
    (hu : UniqueRoot t)
    (ha : chainFull t F a = .ok Ra) (hb : chainFull t F b = .ok Rb) :
    ∃ z Rz, pure_lca t F a b = .ok z ∧ chainFull t F z = .ok Rz ∧
      suf Rz Ra ∧ suf Rz Rb ∧
      pure_distance t F a b =
        .ok (((Ra.length : Int) - Rz.length) + ((Rb.length : Int) - Rz.length)) := by
  rcases pure_lca_spec hu ha hb with ⟨z, Rz, hz, hRz, hh, hsA, hsB, _, _⟩
  refine ⟨z, Rz, hz, hRz, hsA, hsB, ?_⟩
  unfold pure_distance
  rw [hz, Res.bind, pure_one_way_spec hRz ha hsA, Res.bind,
    pure_one_way_spec hRz hb hsB, Res.bind]

theorem pure_lca_self {t : Taxonomy} {F a : Nat} {Ra : List Nat}
    (hu : UniqueRoot t) (ha : chainFull t F a = .ok Ra) :
    pure_lca t F a a = .ok a := by
  rcases pure_lca_spec hu ha ha with ⟨z, Rz, hz, hRz, hh, hsA, _, hdeep, _⟩
  have haRa : a ∈ Ra := by
    rcases chainFull_cons ha with ⟨Ra', hReq⟩
    rw [hReq]
    exact List.mem_cons_self a Ra'
  have haRz : a ∈ Rz := hdeep a haRa haRa
  have hsuf2 : suf Ra Rz := common_suf ha hRz haRz
  have : Rz = Ra := suf_eq_of_len hsA (suf_len_le hsuf2)
  rw [this] at hh
  rcases chainFull_cons ha with ⟨Ra', hReq⟩
  rw [hReq] at hh
  simp only [List.head?_cons, Option.some.injEq] at hh
  rw [hz, hh]

theorem pure_distance_self {t : Taxonomy} {F a : Nat} {Ra : List Nat}
    (hu : UniqueRoot t) (ha : chainFull t F a = .ok Ra) :
    pure_distance t F a a = .ok 0 := by
  unfold pure_distance
  rw [pure_lca_self hu ha]
  simp [Res.bind, pure_one_way_spec ha ha (suf_refl Ra)]

theorem pure_distance_ok_inv {t : Taxonomy} {F a b : Nat} {d : Int}
    (h : pure_distance t F a b = .ok d) :
    ∃ Ra Rb, chainFull t F a = .ok Ra ∧ chainFull t F b = .ok Rb := by
  unfold pure_distance at h
  cases hz : pure_lca t F a b with
  | ok z => exact pure_lca_ok_inv hz
  | err e => rw [hz] at h; simp [Res.bind] at h
  | timeout => rw [hz] at h; simp [Res.bind] at h

theorem pure_distance_zero {t : Taxonomy} {F x y : Nat} (hu : UniqueRoot t)
    (h : pure_distance t F x y = .ok 0) : x = y := by
  rcases pure_distance_ok_inv h with ⟨Rx, Ry, hx, hy⟩
  rcases pure_distance_spec hu hx hy with ⟨z, Rz, hz, hRz, hsX, hsY, hval⟩
  have heq : (0 : Int) =
      ((Rx.length : Int) - Rz.length) + ((Ry.length : Int) - Rz.length) :=
    Res.ok.inj (h.symm.trans hval)
  have hlx := suf_len_le hsX
  have hly := suf_len_le hsY
  have hRxz : Rz = Rx := suf_eq_of_len hsX (by omega)
  have hRyz : Rz = Ry := suf_eq_of_len hsY (by omega)
  rcases chainFull_cons hx with ⟨Rx', hxe⟩
  rcases chainFull_cons hy with ⟨Ry', hye⟩
  rcases chainFull_cons hRz with ⟨Rz', hze⟩
  have h1 : z = x := by
    have hh := hRxz
    rw [hze, hxe] at hh
    injection hh with hhead _
  have h2 : z = y := by
    have hh := hRyz
    rw [hze, hye] at hh
    injection hh with hhead _
  rw [← h1, ← h2]

/-! ### Stateful queries against their cache-free counterparts -/

theorem mem_upsertD {κ α : Type} [DecidableEq κ] {m : List (κ × α)} {k : κ} {v : α}
    {q : κ × α} (h : q ∈ upsertD m k v) : q = (k, v) ∨ q ∈ m := by
  induction m with
  | nil => simpa [upsertD] using h
  | cons p ps ih =>
    by_cases hp : p.1 = k
    · simp only [upsertD, if_pos hp] at h
      rcases List.mem_cons.mp h with h1 | h1
      · exact Or.inl h1
      · exact Or.inr (List.mem_cons_of_mem _ h1)
    · simp only [upsertD, if_neg hp] at h
      rcases List.mem_cons.mp h with h1 | h1
      · exact Or.inr (h1 ▸ List.mem_cons_self p ps)
      · rcases ih h1 with h2 | h2
        · exact Or.inl h2
        · exact Or.inr (List.mem_cons_of_mem _ h2)

theorem get_lineage_go_pure {t : Taxonomy} {F : Nat} :
    ∀ (ids : List Nat) (acc : List (Nat × List Nat)) (s : TaxState),
      s.taxonomy = t → LinCo t F s →
      (get_lineage_go F ids acc s).1 = pure_lineage_list t F ids acc ∧
      (get_lineage_go F ids acc s).2.taxonomy = t ∧
      LinCo t F (get_lineage_go F ids acc s).2 ∧
      (get_lineage_go F ids acc s).2.distances = s.distances ∧
      (get_lineage_go F ids acc s).2.lca_mappings = s.lca_mappings := by
  intro ids
  induction ids with
  | nil => intro acc s ht hl; exact ⟨rfl, ht, hl, rfl, rfl⟩
  | cons id rest ih =>
    intro acc s ht hl
    cases hc : lookupD s.lineages id with
    | some l =>
      have hpure : get_lineage1 t F id = .ok l := hl _ (lookupD_mem hc)
      have hgo : get_lineage_go F (id :: rest) acc s =
          get_lineage_go F rest (upsertD acc id l) s := by
        simp only [get_lineage_go, hc]
      have hpl : pure_lineage_list t F (id :: rest) acc =
          pure_lineage_list t F rest (upsertD acc id l) := by
        simp only [pure_lineage_list, hpure]
      rw [hgo, hpl]
      exact ih _ s ht hl
    | none =>
      cases hp : get_lineage1 t F id with
      | ok l =>
        have hp' : get_lineage1 s.taxonomy F id = .ok l := by rw [ht]; exact hp
        have hgo : get_lineage_go F (id :: rest) acc s =
            get_lineage_go F rest (upsertD acc id l)
              { s with lineages := upsertD s.lineages id l } := by
          simp only [get_lineage_go, hc, hp']
        have hpl : pure_lineage_list t F (id :: rest) acc =
            pure_lineage_list t F rest (upsertD acc id l) := by
          simp only [pure_lineage_list, hp]
        rw [hgo, hpl]
        have hl' : LinCo t F { s with lineages := upsertD s.lineages id l } := by
          intro q hq
          rcases mem_upsertD hq with h1 | h1
          · rw [h1]; exact hp
          · exact hl _ h1
        exact ih _ _ ht hl'
      | err e =>
        have hp' : get_lineage1 s.taxonomy F id = .err e := by rw [ht]; exact hp
        have hgo : get_lineage_go F (id :: rest) acc s = (.err e, s) := by
          simp only [get_lineage_go, hc, hp']
        rw [hgo]
        refine ⟨?_, ht, hl, rfl, rfl⟩
        simp [pure_lineage_list, hp]
      | timeout =>
        have hp' : get_lineage1 s.taxonomy F id = .timeout := by rw [ht]; exact hp
        have hgo : get_lineage_go F (id :: rest) acc s = (.timeout, s) := by
          simp only [get_lineage_go, hc, hp']
        rw [hgo]
        refine ⟨?_, ht, hl, rfl, rfl⟩
        simp [pure_lineage_list, hp]

theorem pure_lca_eq_list (t : Taxonomy) (F a b : Nat) :
    pure_lca t F a b =
      (pure_lineage_list t F [a, b] []).bind fun d =>
        match lookupD d a, lookupD d b with
        | some La, some Lb => pyGet La ((interCard La Lb : Int) - 1)
        | _, _ => .err (.keyErrorN (some a)) := by
  cases hpa : get_lineage1 t F a with
  | ok La =>
    cases hpb : get_lineage1 t F b with
    | ok Lb =>
      by_cases hab : b = a
      · subst hab
        rw [hpa] at hpb
        cases hpb
        simp [pure_lca, pure_lineage_list, hpa, Res.bind, lookupD_upsertD_self]
      · have hne : lookupD (upsertD (upsertD [] a La) b Lb) a
            = lookupD (upsertD [] a La) a :=
          lookupD_upsertD_ne _ _ (fun hh => hab hh.symm)
        simp [pure_lca, pure_lineage_list, hpa, hpb, Res.bind, hne,
          lookupD_upsertD_self]
    | err e => simp [pure_lca, pure_lineage_list, hpa, hpb, Res.bind]
    | timeout => simp [pure_lca, pure_lineage_list, hpa, hpb, Res.bind]
  | err e => simp [pure_lca, pure_lineage_list, hpa, Res.bind]
  | timeout => simp [pure_lca, pure_lineage_list, hpa, Res.bind]

theorem pure_lca_minmax {t : Taxonomy} {F a b z : Nat} (hu : UniqueRoot t)
    (h : pure_lca t F (min a b) (max a b) = .ok z ∨
         pure_lca t F (max a b) (min a b) = .ok z) :
    pure_lca t F a b = .ok z := by
  rcases Nat.le_total a b with hab | hab
  · rw [min_eq_left hab, max_eq_right hab] at h
    rcases h with h | h
    · exact h
    · exact pure_lca_symm hu h
  · rw [min_eq_right hab, max_eq_left hab] at h
    rcases h with h | h
    · exact pure_lca_symm hu h
    · exact h

theorem pure_lca_store {t : Taxonomy} {F a b z : Nat}
    (h : pure_lca t F a b = .ok z) :
    pure_lca t F (min a b) (max a b) = .ok z ∨
      pure_lca t F (max a b) (min a b) = .ok z := by
  rcases Nat.le_total a b with hab | hab
  · left; rw [min_eq_left hab, max_eq_right hab]; exact h
  · right; rw [min_eq_right hab, max_eq_left hab]; exact h

theorem pure_distance_symm {t : Taxonomy} {F a b : Nat} {d : Int}
    (hu : UniqueRoot t) (h : pure_distance t F a b = .ok d) :
    pure_distance t F b a = .ok d := by
  rcases pure_distance_ok_inv h with ⟨Ra, Rb, ha, hb⟩
  rcases pure_distance_spec hu ha hb with ⟨z, Rz, hz, hRz, hsA, hsB, hval⟩
  rcases pure_distance_spec hu hb ha with ⟨z', Rz', hz', hRz', hsB', hsA', hval'⟩
  have hzz : z' = z := by
    rw [pure_lca_symm hu hz] at hz'
    exact (Res.ok.inj hz').symm
  rw [hzz] at hRz'
  rw [hRz] at hRz'
  have hRzz : Rz' = Rz := (Res.ok.inj hRz').symm
  rw [hRzz] at hval'
  have hd : d = ((Ra.length : Int) - Rz.length) + ((Rb.length : Int) - Rz.length) :=
    Res.ok.inj (h.symm.trans hval)
  rw [hval', hd]
  congr 1
  omega

theorem pure_distance_minmax {t : Taxonomy} {F a b : Nat} {d : Int}
    (hu : UniqueRoot t)
    (h : pure_distance t F (min a b) (max a b) = .ok d ∨
         pure_distance t F (max a b) (min a b) = .ok d) :
    pure_distance t F a b = .ok d := by
  rcases Nat.le_total a b with hab | hab
  · rw [min_eq_left hab, max_eq_right hab] at h
    rcases h with h | h
    · exact h
    · exact pure_distance_symm hu h
  · rw [min_eq_right hab, max_eq_left hab] at h
    rcases h with h | h
    · exact pure_distance_symm hu h
    · exact h

theorem pure_distance_store {t : Taxonomy} {F a b : Nat} {d : Int}
    (h : pure_distance t F a b = .ok d) :
    pure_distance t F (min a b) (max a b) = .ok d ∨
      pure_distance t F (max a b) (min a b) = .ok d := by
  rcases Nat.le_total a b with hab | hab
  · left; rw [min_eq_left hab, max_eq_right hab]; exact h
  · right; rw [min_eq_right hab, max_eq_left hab]; exact h

theorem get_lca_uncached_spec {t : Taxonomy} {F a b : Nat} {s1 : TaxState}
    (hu : UniqueRoot t) (ht : s1.taxonomy = t) (hlin : LinCo t F s1)
    (hdist : DistCo t F s1) (hlca : LcaCo t F s1) :
    (get_lca_uncached F a b s1).1 = pure_lca t F a b ∧
    Coherent t F (get_lca_uncached F a b s1).2 := by
  obtain ⟨hres0, ht2, hlin2, hd2, hl2⟩ :=
    get_lineage_go_pure [a, b] [] s1 ht hlin
  rcases hpair : get_lineage_st F [a, b] s1 with ⟨r, s2⟩
  have hpair' : get_lineage_go F [a, b] [] s1 = (r, s2) := hpair
  rw [hpair'] at hres0 ht2 hlin2 hd2 hl2
  have hdist2 : DistCo t F s2 := by
    intro p hp q hq
    exact hdist p (by rw [← hd2]; exact hp) q hq
  have hlca2 : LcaCo t F s2 := by
    intro p hp q hq
    exact hlca p (by rw [← hl2]; exact hp) q hq
  have hplca := pure_lca_eq_list t F a b
  unfold get_lca_uncached
  rw [hpair]
  cases r with
  | ok d =>
    have hres : pure_lineage_list t F [a, b] [] = .ok d := hres0.symm
    rw [hres] at hplca
    simp only [Res.bind] at hplca
    cases hla : lookupD d a with
    | some La =>
      cases hlb : lookupD d b with
      | some Lb =>
        rw [hla, hlb] at hplca
        dsimp only at hplca
        cases hpg : pyGet La ((interCard La Lb : Int) - 1) with
        | ok z =>
          rw [hpg] at hplca
          simp only [hla, hlb, hpg]
          refine ⟨hplca.symm, ht2, hlin2, hdist2, ?_⟩
          intro p hp q hq
          rcases mem_upsertD hp with hp1 | hp1
          · rw [hp1] at hq
            dsimp only at hq
            rcases mem_upsertD hq with hq1 | hq1
            · rw [hp1, hq1]
              dsimp only
              exact pure_lca_store hplca
            · rw [hp1]
              dsimp only
              cases hsub2 : lookupD s2.lca_mappings (min a b) with
              | some sub0 =>
                rw [hsub2] at hq1
                simp only [Option.getD] at hq1
                exact hlca2 _ (lookupD_mem hsub2) q hq1
              | none =>
                rw [hsub2] at hq1
                simp at hq1
          · exact hlca2 p hp1 q hq
        | err e =>
          rw [hpg] at hplca
          simp only [hla, hlb, hpg]
          exact ⟨hplca.symm, ht2, hlin2, hdist2, hlca2⟩
        | timeout =>
          rw [hpg] at hplca
          simp only [hla, hlb, hpg]
          exact ⟨hplca.symm, ht2, hlin2, hdist2, hlca2⟩
      | none =>
        rw [hla, hlb] at hplca
        dsimp only at hplca
        simp only [hla, hlb]
        exact ⟨hplca.symm, ht2, hlin2, hdist2, hlca2⟩
    | none =>
      rw [hla] at hplca
      dsimp only at hplca
      simp only [hla]
      exact ⟨hplca.symm, ht2, hlin2, hdist2, hlca2⟩
  | err e =>
    have hres : pure_lineage_list t F [a, b] [] = .err e := hres0.symm
    rw [hres] at hplca
    simp only [Res.bind] at hplca
    exact ⟨hplca.symm, ht2, hlin2, hdist2, hlca2⟩
  | timeout =>
    have hres : pure_lineage_list t F [a, b] [] = .timeout := hres0.symm
    rw [hres] at hplca
    simp only [Res.bind] at hplca
    exact ⟨hplca.symm, ht2, hlin2, hdist2, hlca2⟩

theorem get_lca_st_spec {t : Taxonomy} (F a b : Nat) {s : TaxState}
    (hu : UniqueRoot t) (hco : Coherent t F s) :
    (get_lca_st F a b s).1 = pure_lca t F a b ∧
    Coherent t F (get_lca_st F a b s).2 := by
  obtain ⟨ht, hlin, hdist, hlca⟩ := hco
  cases hsub : lookupD s.lca_mappings (min a b) with
  | some sub =>
    cases hcv : lookupD sub (max a b) with
    | some z =>
      have hz : pure_lca t F a b = .ok z := by
        refine pure_lca_minmax hu ?_
        exact hlca _ (lookupD_mem hsub) _ (lookupD_mem hcv)
      have hred : get_lca_st F a b s = (.ok z, s) := by
        simp only [get_lca_st, hsub, hcv]
      rw [hred, hz]
      exact ⟨rfl, ht, hlin, hdist, hlca⟩
    | none =>
      have hred : get_lca_st F a b s = get_lca_uncached F a b s := by
        simp only [get_lca_st, hsub, hcv]
      rw [hred]
      exact get_lca_uncached_spec hu ht hlin hdist hlca
  | none =>
    have hred : get_lca_st F a b s =
        get_lca_uncached F a b
          { s with lca_mappings := upsertD s.lca_mappings (min a b) [] } := by
      simp only [get_lca_st, hsub]
    rw [hred]
    refine get_lca_uncached_spec hu ht hlin hdist ?_
    intro p hp q hq
    rcases mem_upsertD hp with hp1 | hp1
    · rw [hp1] at hq
      simp at hq
    · exact hlca p hp1 q hq

theorem one_way_st_spec {t : Taxonomy} {F anc id : Nat} {s1 : TaxState}
    (ht : s1.taxonomy = t) (hlin : LinCo t F s1) :
    (one_way_st F anc id s1).1 = pure_one_way t F anc id ∧
    (one_way_st F anc id s1).2.taxonomy = t ∧
    LinCo t F (one_way_st F anc id s1).2 ∧
    (one_way_st F anc id s1).2.distances = s1.distances ∧
    (one_way_st F anc id s1).2.lca_mappings = s1.lca_mappings := by
  obtain ⟨hres0, ht2, hlin2, hd2, hl2⟩ := get_lineage_go_pure [id] [] s1 ht hlin
  rcases hpair : get_lineage_st F [id] s1 with ⟨r, s2⟩
  have hpair' : get_lineage_go F [id] [] s1 = (r, s2) := hpair
  rw [hpair'] at hres0 ht2 hlin2 hd2 hl2
  unfold one_way_st
  rw [hpair]
  cases r with
  | ok lins =>
    have hres : pure_lineage_list t F [id] [] = .ok lins := hres0.symm
    cases hp : get_lineage1 t F id with
    | ok L =>
      have hlins : lins = [(id, L)] := by
        simp only [pure_lineage_list, hp] at hres
        exact (Res.ok.inj hres).symm
      have hlk : lookupD lins id = some L := by
        rw [hlins]
        simp [lookupD]
      simp only [hlk]
      unfold pure_one_way
      rw [hp]
      simp only [Res.bind]
      cases hai : pyIndexOf L anc with
      | ok ai =>
        simp only [Res.bind]
        cases hii : pyIndexOf L id with
        | ok ii => exact ⟨rfl, ht2, hlin2, hd2, hl2⟩
        | err e => exact ⟨rfl, ht2, hlin2, hd2, hl2⟩
        | timeout => exact ⟨rfl, ht2, hlin2, hd2, hl2⟩
      | err e => exact ⟨rfl, ht2, hlin2, hd2, hl2⟩
      | timeout => exact ⟨rfl, ht2, hlin2, hd2, hl2⟩
    | err e => simp [pure_lineage_list, hp] at hres
    | timeout => simp [pure_lineage_list, hp] at hres
  | err e =>
    have hres : pure_lineage_list t F [id] [] = .err e := hres0.symm
    cases hp : get_lineage1 t F id with
    | ok L => simp [pure_lineage_list, hp] at hres
    | err e' =>
      simp only [pure_lineage_list, hp, Res.err.injEq] at hres
      subst hres
      have hpw : pure_one_way t F anc id = .err e' := by
        unfold pure_one_way
        rw [hp]
        rfl
      rw [hpw]
      exact ⟨rfl, ht2, hlin2, hd2, hl2⟩
    | timeout => simp [pure_lineage_list, hp] at hres
  | timeout =>
    have hres : pure_lineage_list t F [id] [] = .timeout := hres0.symm
    cases hp : get_lineage1 t F id with
    | ok L => simp [pure_lineage_list, hp] at hres
    | err e' => simp [pure_lineage_list, hp] at hres
    | timeout =>
      have hpw : pure_one_way t F anc id = .timeout := by
        unfold pure_one_way
        rw [hp]
        rfl
      rw [hpw]
      exact ⟨rfl, ht2, hlin2, hd2, hl2⟩

theorem get_distance_uncached_spec {t : Taxonomy} {F a b : Nat} {s1 : TaxState}
    (hu : UniqueRoot t) (ht : s1.taxonomy = t) (hlin : LinCo t F s1)
    (hdist : DistCo t F s1) (hlca : LcaCo t F s1) :
    (get_distance_uncached F a b s1).1 = pure_distance t F a b ∧
    Coherent t F (get_distance_uncached F a b s1).2 := by
  obtain ⟨hlcares, hco2⟩ := get_lca_st_spec F a b hu ⟨ht, hlin, hdist, hlca⟩
  rcases hpl : get_lca_st F a b s1 with ⟨rz, s2⟩
  rw [hpl] at hlcares hco2
  unfold get_distance_uncached
  rw [hpl]
  obtain ⟨ht2, hlin2, hdist2, hlca2⟩ := hco2
  cases rz with
  | ok z =>
    have hz : pure_lca t F a b = .ok z := hlcares.symm
    obtain ⟨h1res, ht3, hlin3, hd3, hl3⟩ :=
      @one_way_st_spec t F z a s2 ht2 hlin2
    rcases hp1 : one_way_st F z a s2 with ⟨r1, s3⟩
    rw [hp1] at h1res ht3 hlin3 hd3 hl3
    dsimp only
    rw [hp1]
    have hdist3 : DistCo t F s3 := fun p hp q hq => hdist2 p (hd3 ▸ hp) q hq
    have hlca3 : LcaCo t F s3 := fun p hp q hq => hlca2 p (hl3 ▸ hp) q hq
    cases r1 with
    | ok d1 =>
      have ho1 : pure_one_way t F z a = .ok d1 := h1res.symm
      obtain ⟨h2res, ht4, hlin4, hd4, hl4⟩ :=
        @one_way_st_spec t F z b s3 ht3 hlin3
      rcases hp2 : one_way_st F z b s3 with ⟨r2, s4⟩
      rw [hp2] at h2res ht4 hlin4 hd4 hl4
      dsimp only
      rw [hp2]
      have hdist4 : DistCo t F s4 := fun p hp q hq => hdist3 p (hd4 ▸ hp) q hq
      have hlca4 : LcaCo t F s4 := fun p hp q hq => hlca3 p (hl4 ▸ hp) q hq
      cases r2 with
      | ok d2 =>
        have ho2 : pure_one_way t F z b = .ok d2 := h2res.symm
        have hpd : pure_distance t F a b = .ok (d1 + d2) := by
          unfold pure_distance
          rw [hz]
          simp only [Res.bind]
          rw [ho1]
          simp only [Res.bind]
          rw [ho2]
        refine ⟨hpd.symm, ht4, hlin4, ?_, hlca4⟩
        intro p hp q hq
        rcases mem_upsertD hp with hp1 | hp1
        · rw [hp1] at hq
          dsimp only at hq
          rcases mem_upsertD hq with hq1 | hq1
          · rw [hp1, hq1]
            dsimp only
            exact pure_distance_store hpd
          · rw [hp1]
            dsimp only
            cases hsub2 : lookupD s4.distances (min a b) with
            | some sub0 =>
              rw [hsub2] at hq1
              simp only [Option.getD] at hq1
              exact hdist4 _ (lookupD_mem hsub2) q hq1
            | none =>
              rw [hsub2] at hq1
              simp at hq1
        · exact hdist4 p hp1 q hq
      | err e =>
        have ho2 : pure_one_way t F z b = .err e := h2res.symm
        have hpd : pure_distance t F a b = .err e := by
          unfold pure_distance
          rw [hz]
          simp only [Res.bind]
          rw [ho1]
          simp only [Res.bind]
          rw [ho2]
        exact ⟨hpd.symm, ht4, hlin4, hdist4, hlca4⟩
      | timeout =>
        have ho2 : pure_one_way t F z b = .timeout := h2res.symm
        have hpd : pure_distance t F a b = .timeout := by
          unfold pure_distance
          rw [hz]
          simp only [Res.bind]
          rw [ho1]
          simp only [Res.bind]
          rw [ho2]
        exact ⟨hpd.symm, ht4, hlin4, hdist4, hlca4⟩
    | err e =>
      have ho1 : pure_one_way t F z a = .err e := h1res.symm
      have hpd : pure_distance t F a b = .err e := by
        unfold pure_distance
        rw [hz]
        simp only [Res.bind]
        rw [ho1]
      exact ⟨hpd.symm, ht3, hlin3, hdist3, hlca3⟩
    | timeout =>
      have ho1 : pure_one_way t F z a = .timeout := h1res.symm
      have hpd : pure_distance t F a b = .timeout := by
        unfold pure_distance
        rw [hz]
        simp only [Res.bind]
        rw [ho1]
      exact ⟨hpd.symm, ht3, hlin3, hdist3, hlca3⟩
  | err e =>
    have hz : pure_lca t F a b = .err e := hlcares.symm
    have hpd : pure_distance t F a b = .err e := by
      unfold pure_distance
      rw [hz]
      rfl
    exact ⟨hpd.symm, ht2, hlin2, hdist2, hlca2⟩
  | timeout =>
    have hz : pure_lca t F a b = .timeout := hlcares.symm
    have hpd : pure_distance t F a b = .timeout := by
      unfold pure_distance
      rw [hz]
      rfl
    exact ⟨hpd.symm, ht2, hlin2, hdist2, hlca2⟩

theorem get_distance_st_spec {t : Taxonomy} (F a b : Nat) {s : TaxState}
    (hu : UniqueRoot t) (hco : Coherent t F s) :
    (get_distance_st F a b s).1 = pure_distance t F a b ∧
    Coherent t F (get_distance_st F a b s).2 := by
  obtain ⟨ht, hlin, hdist, hlca⟩ := hco
  cases hsub : lookupD s.distances (min a b) with
  | some sub =>
    cases hcv : lookupD sub (max a b) with
    | some d =>
      have hd : pure_distance t F a b = .ok d := by
        refine pure_distance_minmax hu ?_
        exact hdist _ (lookupD_mem hsub) _ (lookupD_mem hcv)
      have hred : get_distance_st F a b s = (.ok d, s) := by
        simp only [get_distance_st, hsub, hcv]
      rw [hred, hd]
      exact ⟨rfl, ht, hlin, hdist, hlca⟩
    | none =>
      have hred : get_distance_st F a b s = get_distance_uncached F a b s := by
        simp only [get_distance_st, hsub, hcv]
      rw [hred]
      exact get_distance_uncached_spec hu ht hlin hdist hlca
  | none =>
    have hred : get_distance_st F a b s =
        get_distance_uncached F a b
          { s with distances := upsertD s.distances (min a b) [] } := by
      simp only [get_distance_st, hsub]
    rw [hred]
    refine get_distance_uncached_spec hu ht hlin ?_ hlca
    intro p hp q hq
    rcases mem_upsertD hp with hp1 | hp1
    · rw [hp1] at hq
      simp at hq
    · exact hdist p hp1 q hq

theorem get_rank_code_st_single {t : Taxonomy} (F id : Nat) {s : TaxState}
    (hu : UniqueRoot t) (hco : Coherent t F s) :
    (get_rank_code_st F [id] s).1 =
      Res.map (fun r => [(id, r)]) (pure_rank_code t F id) ∧
    Coherent t F (get_rank_code_st F [id] s).2 := by
  obtain ⟨ht, hlin, hdist, hlca⟩ := hco
  have hco' : Coherent t F s := ⟨ht, hlin, hdist, hlca⟩
  unfold get_rank_code_st
  unfold pure_rank_code
  cases hr : get_rank1 t id with
  | ok rank =>
    have hrd : get_rank_dict s.taxonomy [id] [] = .ok [(id, rank)] := by
      rw [ht]
      simp [get_rank_dict, hr, upsertD]
    rw [hrd]
    simp only [Res.bind]
    unfold get_rank_code_go
    cases hw : rank_walk t F rank id with
    | ok cc =>
      have hw' : rank_walk s.taxonomy F rank id = .ok cc := by rw [ht]; exact hw
      rw [hw']
      simp only [Res.bind]
      obtain ⟨hdres, hco2⟩ := get_distance_st_spec F cc.2 id hu hco'
      rcases hpd : get_distance_st F cc.2 id s with ⟨rd, s2⟩
      rw [hpd] at hdres hco2
      obtain ⟨ht2, hlin2, hdist2, hlca2⟩ := hco2
      cases rd with
      | ok depth =>
        have hpdist : pure_distance t F cc.2 id = .ok depth := hdres.symm
        rw [hpdist]
        simp only [Res.bind]
        have hr2' : get_rank1 s2.taxonomy id = .ok rank := by rw [ht2]; exact hr
        rw [hr2']
        unfold get_rank_code_go
        exact ⟨rfl, ht2, hlin2, hdist2, hlca2⟩
      | err e =>
        have hpdist : pure_distance t F cc.2 id = .err e := hdres.symm
        rw [hpdist]
        exact ⟨rfl, ht2, hlin2, hdist2, hlca2⟩
      | timeout =>
        have hpdist : pure_distance t F cc.2 id = .timeout := hdres.symm
        rw [hpdist]
        exact ⟨rfl, ht2, hlin2, hdist2, hlca2⟩
    | err e =>
      have hw' : rank_walk s.taxonomy F rank id = .err e := by rw [ht]; exact hw
      rw [hw']
      exact ⟨rfl, ht, hlin, hdist, hlca⟩
    | timeout =>
      have hw' : rank_walk s.taxonomy F rank id = .timeout := by rw [ht]; exact hw
      rw [hw']
      exact ⟨rfl, ht, hlin, hdist, hlca⟩
  | err e =>
    have hrd : get_rank_dict s.taxonomy [id] [] = .err e := by
      rw [ht]
      simp [get_rank_dict, hr]
    rw [hrd]
    exact ⟨rfl, ht, hlin, hdist, hlca⟩
  | timeout =>
    have hrd : get_rank_dict s.taxonomy [id] [] = .timeout := by
      rw [ht]
      simp [get_rank_dict, hr]
    rw [hrd]
    exact ⟨rfl, ht, hlin, hdist, hlca⟩

/-! ### The upward rank-code walk -/

theorem isEmpty_false_of_lookup {t : Taxonomy} {k : Nat} {n : Node}
    (h : lookupD t k = some n) : t.isEmpty = false := by
  cases t with
  | nil => simp [lookupD] at h
  | cons p ps => rfl

theorem get_lineage1_unknown {t : Taxonomy} {F u : Nat}
    (hne : t.isEmpty = false) (hu : lookupD t u = none) :
    get_lineage1 t F u = .err (.keyErrorN (some u)) := by
  simp [get_lineage1, get_node1, hne, hu]

/-- At every step of the `while not rank_code:` loop, the loop variable
`rank` is the textual rank of `current_node`; hence at exit the code comes
from the stopping node's own rank (or is `R` at the root). -/
theorem rank_walk_inv {t : Taxonomy} :
    ∀ {F current : Nat} {rank : Option String} {c : String} {fin : Nat},
      get_rank1 t current = .ok rank →
      rank_walk t F rank current = .ok (c, fin) →
      ∃ rfin, get_rank1 t fin = .ok rfin ∧
        ((∃ c', rankCodeOf rfin = some c' ∧ c = c') ∨
         (fin = 1 ∧ rankCodeOf rfin = none ∧ c = "R")) := by
  intro F
  induction F with
  | zero => intro current rank c fin _ h; simp [rank_walk] at h
  | succ F ih =>
    intro current rank c fin hr h
    unfold rank_walk at h
    split at h
    · rename_i c0 hrc
      have hpair := Res.ok.inj h
      have hc : c0 = c := congrArg Prod.fst hpair
      have hfin : current = fin := congrArg Prod.snd hpair
      exact ⟨rank, hfin ▸ hr, Or.inl ⟨c0, hrc, hc.symm⟩⟩
    · rename_i hrc
      split at h
      · rename_i h1
        have hpair := Res.ok.inj h
        have hc : "R" = c := congrArg Prod.fst hpair
        have hfin : current = fin := congrArg Prod.snd hpair
        exact ⟨rank, hfin ▸ hr, Or.inr ⟨hfin ▸ h1, hrc, hc.symm⟩⟩
      · rename_i h1
        split at h
        · rename_i pOpt hp
          split at h
          · simp at h
          · rename_i p
            split at h
            · rename_i rp hrp
              exact ih hrp h
            · simp at h
            · simp at h
        · simp at h
        · simp at h

theorem pure_rank_code_ok_inv {t : Taxonomy} {F id : Nat} {r : Rank}
    (h : pure_rank_code t F id = .ok r) :
    ∃ rank cc depth, get_rank1 t id = .ok rank ∧
      rank_walk t F rank id = .ok cc ∧
      pure_distance t F cc.2 id = .ok depth ∧
      r = ⟨rank, cc.1, depth⟩ := by
  unfold pure_rank_code at h
  cases h1 : get_rank1 t id with
  | ok rank =>
    rw [h1] at h
    simp only [Res.bind] at h
    cases h2 : rank_walk t F rank id with
    | ok cc =>
      rw [h2] at h
      simp only [Res.bind] at h
      cases h3 : pure_distance t F cc.2 id with
      | ok depth =>
        rw [h3] at h
        simp only [Res.bind] at h
        exact ⟨rank, cc, depth, rfl, h2, h3, (Res.ok.inj h).symm⟩
      | err e => rw [h3] at h; simp [Res.bind] at h
      | timeout => rw [h3] at h; simp [Res.bind] at h
    | err e => rw [h2] at h; simp [Res.bind] at h
    | timeout => rw [h2] at h; simp [Res.bind] at h
  | err e => rw [h1] at h; simp [Res.bind] at h
  | timeout => rw [h1] at h; simp [Res.bind] at h

/-- Core of C4 at the cache-free level: a rank depth of zero forces the
walk to have стopped at the queried node itself. -/
theorem pure_rank_code_depth_zero {t : Taxonomy} {F id : Nat} {r : Rank}
    (hu : UniqueRoot t) (h : pure_rank_code t F id = .ok r)
    (hd : r.rank_depth = 0) :
    ∃ rn, get_rank1 t id = .ok rn ∧
      ((∃ c, rankCodeOf rn = some c ∧ r.rank_code = c) ∨
       (id = 1 ∧ rankCodeOf rn = none ∧ r.rank_code = "R")) := by
  rcases pure_rank_code_ok_inv h with ⟨rank, cc, depth, h1, h2, h3, h4⟩
  have hdep0 : depth = 0 := by rw [h4] at hd; exact hd
  rw [hdep0] at h3
  have hfin : cc.2 = id := pure_distance_zero hu h3
  rcases rank_walk_inv h1 h2 with ⟨rfin, hrfin, hcase⟩
  rw [hfin] at hrfin
  have hrn : rfin = rank := by
    rw [h1] at hrfin
    exact (Res.ok.inj hrfin).symm
  refine ⟨rank, h1, ?_⟩
  rw [h4]
  rcases hcase with ⟨c', hc1, hc2⟩ | ⟨hfin1, hc1, hc2⟩
  · exact Or.inl ⟨c', by rw [← hrn]; exact hc1, hc2⟩
  · exact Or.inr ⟨by rw [← hfin]; exact hfin1, by rw [← hrn]; exact hc1, hc2⟩

/-! ### Error shapes: query helpers never raise the sibling rank guard -/

theorem get_node1_err {t : Taxonomy} {id : Nat} {e : PyErr}
    (h : get_node1 t id = .err e) : e ≠ .invalidRank := by
  intro he
  subst he
  unfold get_node1 at h
  split at h
  · simp at h
  · split at h <;> simp at h

theorem lineage_walk_err {t : Taxonomy} :
    ∀ {F : Nat} {acc : List Nat} {node : Node} {e : PyErr},
      lineage_walk t F acc node = .err e → e ≠ .invalidRank := by
  intro F
  induction F with
  | zero => intro acc node e h; simp [lineage_walk] at h
  | succ F ih =>
    intro acc node e h he
    subst he
    unfold lineage_walk at h
    split at h
    · simp at h
    · split at h
      · simp at h
      · split at h
        · exact ih h rfl
        · rename_i e' hpn
          simp at h
          exact get_node1_err hpn h
        · simp at h

theorem get_lineage1_err {t : Taxonomy} {F id : Nat} {e : PyErr}
    (h : get_lineage1 t F id = .err e) : e ≠ .invalidRank := by
  intro he
  subst he
  unfold get_lineage1 at h
  split at h
  · rename_i n hn
    cases hw : lineage_walk t F [id] n with
    | ok l => rw [hw] at h; simp [Res.map] at h
    | err e' =>
      rw [hw] at h
      simp [Res.map] at h
      exact lineage_walk_err hw h
    | timeout => rw [hw] at h; simp [Res.map] at h
  · rename_i e' hn
    simp at h
    exact get_node1_err hn h
  · simp at h

theorem pure_lineage_list_err {t : Taxonomy} {F : Nat} :
    ∀ {ids : List Nat} {acc : List (Nat × List Nat)} {e : PyErr},
      pure_lineage_list t F ids acc = .err e → e ≠ .invalidRank := by
  intro ids
  induction ids with
  | nil => intro acc e h; simp [pure_lineage_list] at h
  | cons id rest ih =>
    intro acc e h he
    subst he
    unfold pure_lineage_list at h
    split at h
    · exact ih h rfl
    · rename_i e' hp
      simp at h
      exact get_lineage1_err hp h
    · simp at h

theorem pyGet_err {l : List Nat} {i : Int} {e : PyErr}
    (h : pyGet l i = .err e) : e ≠ .invalidRank := by
  intro he
  subst he
  unfold pyGet at h
  split at h
  · dsimp only at h
    split at h
    · simp at h
    · split at h <;> simp at h
  · dsimp only at h
    split at h
    · simp at h
    · split at h <;> simp at h

theorem pyIndexOf_err : ∀ {l : List Nat} {x : Nat} {e : PyErr},
    pyIndexOf l x = .err e → e ≠ .invalidRank := by
  intro l
  induction l with
  | nil =>
    intro x e h he
    subst he
    simp only [pyIndexOf] at h
    simp at h
  | cons a rest ih =>
    intro x e h he
    subst he
    unfold pyIndexOf at h
    split at h
    · simp at h
    · cases hr : pyIndexOf rest x with
      | ok i => rw [hr] at h; simp [Res.map] at h
      | err e' =>
        rw [hr] at h
        simp [Res.map] at h
        exact ih hr h
      | timeout => rw [hr] at h; simp [Res.map] at h

theorem pure_lca_err {t : Taxonomy} {F a b : Nat} {e : PyErr}
    (h : pure_lca t F a b = .err e) : e ≠ .invalidRank := by
  intro he
  subst he
  unfold pure_lca at h
  cases h1 : get_lineage1 t F a with
  | ok La =>
    rw [h1] at h
    simp only [Res.bind] at h
    cases h2 : get_lineage1 t F b with
    | ok Lb =>
      rw [h2] at h
      simp only [Res.bind] at h
      exact pyGet_err h rfl
    | err e' =>
      rw [h2] at h
      simp only [Res.bind, Res.err.injEq] at h
      exact get_lineage1_err h2 h
    | timeout => rw [h2] at h; simp [Res.bind] at h
  | err e' =>
    rw [h1] at h
    simp only [Res.bind, Res.err.injEq] at h
    exact get_lineage1_err h1 h
  | timeout => rw [h1] at h; simp [Res.bind] at h

theorem pure_one_way_err {t : Taxonomy} {F anc id : Nat} {e : PyErr}
    (h : pure_one_way t F anc id = .err e) : e ≠ .invalidRank := by
  intro he
  subst he
  unfold pure_one_way at h
  cases h1 : get_lineage1 t F id with
  | ok L =>
    rw [h1] at h
    simp only [Res.bind] at h
    cases h2 : pyIndexOf L anc with
    | ok ai =>
      rw [h2] at h
      simp only [Res.bind] at h
      cases h3 : pyIndexOf L id with
      | ok ii => rw [h3] at h; simp [Res.bind] at h
      | err e' =>
        rw [h3] at h
        simp only [Res.bind, Res.err.injEq] at h
        exact pyIndexOf_err h3 h
      | timeout => rw [h3] at h; simp [Res.bind] at h
    | err e' =>
      rw [h2] at h
      simp only [Res.bind, Res.err.injEq] at h
      exact pyIndexOf_err h2 h
    | timeout => rw [h2] at h; simp [Res.bind] at h
  | err e' =>
    rw [h1] at h
    simp only [Res.bind, Res.err.injEq] at h
    exact get_lineage1_err h1 h
  | timeout => rw [h1] at h; simp [Res.bind] at h

theorem pure_distance_err {t : Taxonomy} {F a b : Nat} {e : PyErr}
    (h : pure_distance t F a b = .err e) : e ≠ .invalidRank := by
  intro he
  subst he
  unfold pure_distance at h
  cases h1 : pure_lca t F a b with
  | ok z =>
    rw [h1] at h
    simp only [Res.bind] at h
    cases h2 : pure_one_way t F z a with
    | ok d1 =>
      rw [h2] at h
      simp only [Res.bind] at h
      cases h3 : pure_one_way t F z b with
      | ok d2 => rw [h3] at h; simp [Res.bind] at h
      | err e' =>
        rw [h3] at h
        simp only [Res.bind, Res.err.injEq] at h
        exact pure_one_way_err h3 h
      | timeout => rw [h3] at h; simp [Res.bind] at h
    | err e' =>
      rw [h2] at h
      simp only [Res.bind, Res.err.injEq] at h
      exact pure_one_way_err h2 h
    | timeout => rw [h2] at h; simp [Res.bind] at h
  | err e' =>
    rw [h1] at h
    simp only [Res.bind, Res.err.injEq] at h
    exact pure_lca_err h1 h
  | timeout => rw [h1] at h; simp [Res.bind] at h

theorem get_rank1_err {t : Taxonomy} {id : Nat} {e : PyErr}
    (h : get_rank1 t id = .err e) : e ≠ .invalidRank := by
  intro he
  subst he
  unfold get_rank1 at h
  cases hn : get_node1 t id with
  | ok n => rw [hn] at h; simp [Res.map] at h
  | err e' =>
    rw [hn] at h
    simp [Res.map] at h
    exact get_node1_err hn h
  | timeout => rw [hn] at h; simp [Res.map] at h

theorem get_parent1_err {t : Taxonomy} {id : Nat} {e : PyErr}
    (h : get_parent1 t id = .err e) : e ≠ .invalidRank := by
  intro he
  subst he
  unfold get_parent1 at h
  cases hn : get_node1 t id with
  | ok n => rw [hn] at h; simp [Res.map] at h
  | err e' =>
    rw [hn] at h
    simp [Res.map] at h
    exact get_node1_err hn h
  | timeout => rw [hn] at h; simp [Res.map] at h

theorem get_children1_err {t : Taxonomy} {id : Nat} {e : PyErr}
    (h : get_children1 t id = .err e) : e ≠ .invalidRank := by
  intro he
  subst he
  unfold get_children1 at h
  cases hn : get_node1 t id with
  | ok n => rw [hn] at h; simp [Res.map] at h
  | err e' =>
    rw [hn] at h
    simp [Res.map] at h
    exact get_node1_err hn h
  | timeout => rw [hn] at h; simp [Res.map] at h

theorem rank_walk_err {t : Taxonomy} :
    ∀ {F : Nat} {rank : Option String} {current : Nat} {e : PyErr},
      rank_walk t F rank current = .err e → e ≠ .invalidRank := by
  intro F
  induction F with
  | zero => intro rank current e h; simp [rank_walk] at h
  | succ F ih =>
    intro rank current e h he
    subst he
    unfold rank_walk at h
    split at h
    · simp at h
    · split at h
      · simp at h
      · split at h
        · split at h
          · simp at h
          · split at h
            · exact ih h rfl
            · rename_i e' hrp
              simp at h
              exact get_rank1_err hrp h
            · simp at h
        · rename_i e' hp
          simp at h
          exact get_parent1_err hp h
        · simp at h

theorem pure_rank_code_err {t : Taxonomy} {F id : Nat} {e : PyErr}
    (h : pure_rank_code t F id = .err e) : e ≠ .invalidRank := by
  intro he
  subst he
  unfold pure_rank_code at h
  cases h1 : get_rank1 t id with
  | ok rank =>
    rw [h1] at h
    simp only [Res.bind] at h
    cases h2 : rank_walk t F rank id with
    | ok cc =>
      rw [h2] at h
      simp only [Res.bind] at h
      cases h3 : pure_distance t F cc.2 id with
      | ok depth =>
        rw [h3] at h
        simp [Res.bind] at h
      | err e' =>
        rw [h3] at h
        simp only [Res.bind, Res.err.injEq] at h
        exact pure_distance_err h3 h
      | timeout => rw [h3] at h; simp [Res.bind] at h
    | err e' =>
      rw [h2] at h
      simp only [Res.bind, Res.err.injEq] at h
      exact rank_walk_err h2 h
    | timeout => rw [h2] at h; simp [Res.bind] at h
  | err e' =>
    rw [h1] at h
    simp only [Res.bind, Res.err.injEq] at h
    exact get_rank1_err h1 h
  | timeout => rw [h1] at h; simp [Res.bind] at h

/-! ### Freshly built states -/

theorem coherent_of_empty {t' : Taxonomy} {F : Nat} {s : TaxState}
    (h1 : s.taxonomy = t') (h2 : s.lineages = []) (h3 : s.distances = [])
    (h4 : s.lca_mappings = []) : Coherent t' F s := by
  refine ⟨h1, ?_, ?_, ?_⟩
  · intro p hp
    rw [h2] at hp
    simp at hp
  · intro p hp
    rw [h3] at hp
    simp at hp
  · intro p hp
    rw [h4] at hp
    simp at hp

theorem exState_uniqueRoot : UniqueRoot exState.taxonomy := by
  refine ⟨⟨_, rfl⟩, by decide⟩

theorem exState_coherent (F : Nat) : Coherent exState.taxonomy F exState :=
  coherent_of_empty rfl rfl rfl rfl

theorem pgState_uniqueRoot : UniqueRoot pgState.taxonomy := by
  refine ⟨⟨_, rfl⟩, by decide⟩

theorem pgState_coherent (F : Nat) : Coherent pgState.taxonomy F pgState :=
  coherent_of_empty rfl rfl rfl rfl

theorem skState_uniqueRoot : UniqueRoot skState.taxonomy := by
  refine ⟨⟨_, rfl⟩, by decide⟩

theorem skState_coherent (F : Nat) : Coherent skState.taxonomy F skState :=
  coherent_of_empty rfl rfl rfl rfl

/-! ## Claim theorems -/

/-- C1: for identifiers `a`, `b` of the built tree (terminating,
uniquely-rooted ancestor chains; coherent memo caches), `get_lca` returns
the element at index `k - 1` of `a`'s root-first lineage, where `k` is
the size of the set intersection of the two lineages, and that element is
the deepest node present in both lineages: it lies on both, and every
node lying on both is an ancestor-or-self of it. -/
theorem c1_get_lca_deepest_common {t : Taxonomy} {F a b : Nat} {s : TaxState}
    {Ra Rb : List Nat}
    (hu : UniqueRoot t) (hco : Coherent t F s)
    (ha : chainFull t F a = .ok Ra) (hb : chainFull t F b = .ok Rb) :
    ∃ z, (get_lca_st F a b s).1 = .ok z ∧
      z ∈ Ra.reverse ∧ z ∈ Rb.reverse ∧
      (∀ y, y ∈ Ra.reverse → y ∈ Rb.reverse →
        ∃ Rz, chainFull t F z = .ok Rz ∧ y ∈ Rz) ∧
      Ra.reverse[interCard Ra.reverse Rb.reverse - 1]? = some z := by
  obtain ⟨hres, _⟩ := get_lca_st_spec F a b hu hco
  rcases pure_lca_spec hu ha hb with ⟨z, Rz, hz, hRz, hh, hsA, hsB, hdeep, hk⟩
  refine ⟨z, by rw [hres, hz], ?_, ?_, ?_, ?_⟩
  · rw [List.mem_reverse]
    exact suf_mem hsA (List.mem_of_mem_head? hh)
  · rw [List.mem_reverse]
    exact suf_mem hsB (List.mem_of_mem_head? hh)
  · intro y hya hyb
    exact ⟨Rz, hRz, hdeep y (List.mem_reverse.mp hya) (List.mem_reverse.mp hyb)⟩
  · rw [hk]
    have hpre : pre Rz.reverse Ra.reverse := pre_reverse_of_suf hsA
    rcases chainFull_cons hRz with ⟨Rz', hRzeq⟩
    have hlt : Rz.length - 1 < Rz.reverse.length := by
      rw [List.length_reverse, hRzeq]
      simp
    rw [pre_getElem hpre hlt]
    exact chain_head_getElem hh

/-- C4: whenever `get_rank_code`, run on a coherent state of the built
tree, reports `rank_depth = 0` for `n`, the reported rank code is the
canonical-table image of `n`'s own textual rank, the root being the only
`R` case. -/
theorem c4_rank_depth_zero_identity {t : Taxonomy} {F n : Nat} {s : TaxState}
    {d : List (Nat × Rank)} {r : Rank}
    (hu : UniqueRoot t) (hco : Coherent t F s)
    (hrun : (get_rank_code_st F [n] s).1 = .ok d)
    (hlk : lookupD d n = some r) (hdepth : r.rank_depth = 0) :
    ∃ rn, get_rank1 t n = .ok rn ∧
      ((∃ c, rankCodeOf rn = some c ∧ r.rank_code = c) ∨
       (n = 1 ∧ rankCodeOf rn = none ∧ r.rank_code = "R")) := by
  obtain ⟨hres, _⟩ := get_rank_code_st_single F n hu hco
  rw [hrun] at hres
  cases hp : pure_rank_code t F n with
  | ok r' =>
    rw [hp] at hres
    simp only [Res.map, Res.ok.injEq] at hres
    rw [hres] at hlk
    simp [lookupD] at hlk
    rw [← hlk] at hdepth
    rcases pure_rank_code_depth_zero hu hp hdepth with ⟨rn, h1, h2⟩
    refine ⟨rn, h1, ?_⟩
    rw [← hlk]
    exact h2
  | err e => rw [hp] at hres; simp [Res.map] at hres
  | timeout => rw [hp] at hres; simp [Res.map] at hres

/-- C6: `get_lineage` of a node `n` with a terminating ancestor chain is a
root-first list beginning with the root 1 and ending with `n`; the root's
own lineage is the one-element list `[1]`. -/
theorem c6_lineage_roundtrip {t : Taxonomy} {F n : Nat} {s : TaxState}
    {Rn : List Nat} {rootn : Node}
    (hu : UniqueRoot t) (ht : s.taxonomy = t) (hlin : LinCo t F s)
    (hn : chainFull t F n = .ok Rn)
    (hroot : lookupD t 1 = some rootn) (hrp : rootn.parent = none) :
    ((get_lineage_st F [n] s).1 = .ok [(n, Rn.reverse)] ∧
      Rn.reverse.head? = some 1 ∧ Rn.reverse.getLast? = some n) ∧
    (get_lineage_st F [1] s).1 = .ok [(1, [1])] := by
  obtain ⟨hres, _, _, _, _⟩ := get_lineage_go_pure [n] [] s ht hlin
  obtain ⟨hres1, _, _, _, _⟩ := get_lineage_go_pure [1] [] s ht hlin
  have hpn : get_lineage1 t F n = .ok Rn.reverse := by
    rw [get_lineage1_eq_chain, hn]
    rfl
  have hchain1 : chainFull t F 1 = .ok [1] := by
    cases F with
    | zero => exact absurd hn (chainFull_zero t n)
    | succ F' =>
      refine @chainFull_base t F' 1 rootn ?_ ?_
      · simp [get_node1, isEmpty_false_of_lookup hroot, hroot]
      · rw [hrp]
        rfl
  have hp1 : get_lineage1 t F 1 = .ok [1] := by
    rw [get_lineage1_eq_chain, hchain1]
    rfl
  have hres' : (get_lineage_st F [n] s).1 = pure_lineage_list t F [n] [] := hres
  have hres1' : (get_lineage_st F [1] s).1 = pure_lineage_list t F [1] [] := hres1
  refine ⟨⟨?_, ?_, ?_⟩, ?_⟩
  · rw [hres']
    simp [pure_lineage_list, hpn, upsertD]
  · rw [List.head?_reverse]
    exact chainFull_root hu hn
  · rw [List.getLast?_reverse]
    rcases chainFull_cons hn with ⟨Rn', hRneq⟩
    rw [hRneq]
    rfl
  · rw [hres1']
    simp [pure_lineage_list, hp1, upsertD]

/-- C7: querying lineage, LCA or distance with an identifier `u` absent
from the built tree raises `KeyError(u)`; the taxonomy itself is never
modified, the caches stay coherent, and a later lineage query for a known
identifier still succeeds. -/
theorem c7_unknown_taxon_scoped_failure {t : Taxonomy} {F u x : Nat}
    {s : TaxState}
    (hu : UniqueRoot t) (hco : Coherent t F s) (hunk : lookupD t u = none) :
    get_lineage_st F [u] s = (.err (.keyErrorN (some u)), s) ∧
    ((get_lca_st F u x s).1 = .err (.keyErrorN (some u)) ∧
      (get_lca_st F u x s).2.taxonomy = s.taxonomy ∧
      Coherent t F (get_lca_st F u x s).2) ∧
    ((get_distance_st F u x s).1 = .err (.keyErrorN (some u)) ∧
      (get_distance_st F u x s).2.taxonomy = s.taxonomy ∧
      Coherent t F (get_distance_st F u x s).2) ∧
    (∀ k Rk, chainFull t F k = .ok Rk →
      (get_lineage_st F [k] (get_distance_st F u x s).2).1 =
        .ok [(k, Rk.reverse)]) := by
  obtain ⟨ht, hlin, hdist, hlca⟩ := hco
  have hne : t.isEmpty = false := by
    rcases hu.1 with ⟨rn, hrn⟩
    exact isEmpty_false_of_lookup hrn
  have hpu : get_lineage1 t F u = .err (.keyErrorN (some u)) :=
    get_lineage1_unknown hne hunk
  have hplca : pure_lca t F u x = .err (.keyErrorN (some u)) := by
    unfold pure_lca
    rw [hpu]
    rfl
  have hpdist : pure_distance t F u x = .err (.keyErrorN (some u)) := by
    unfold pure_distance
    rw [hplca]
    rfl
  have hnotc : lookupD s.lineages u = none := by
    cases hc : lookupD s.lineages u with
    | none => rfl
    | some l =>
      have := hlin _ (lookupD_mem hc)
      rw [hpu] at this
      exact absurd this (by simp)
  have hpu' : get_lineage1 s.taxonomy F u = .err (.keyErrorN (some u)) := by
    rw [ht]
    exact hpu
  refine ⟨?_, ?_, ?_, ?_⟩
  · show get_lineage_go F [u] [] s = _
    simp only [get_lineage_go, hnotc, hpu']
  · obtain ⟨hres, hco2⟩ := get_lca_st_spec F u x hu ⟨ht, hlin, hdist, hlca⟩
    exact ⟨by rw [hres, hplca], by rw [hco2.1, ht], hco2⟩
  · obtain ⟨hres, hco2⟩ := get_distance_st_spec F u x hu ⟨ht, hlin, hdist, hlca⟩
    exact ⟨by rw [hres, hpdist], by rw [hco2.1, ht], hco2⟩
  · intro k Rk hk
    obtain ⟨_, hco2⟩ := get_distance_st_spec F u x hu ⟨ht, hlin, hdist, hlca⟩
    obtain ⟨hres2, _, _, _, _⟩ :=
      get_lineage_go_pure [k] [] (get_distance_st F u x s).2 hco2.1 hco2.2.1
    have hres2' : (get_lineage_st F [k] (get_distance_st F u x s).2).1 =
        pure_lineage_list t F [k] [] := hres2
    rw [hres2']
    have hpk : get_lineage1 t F k = .ok Rk.reverse := by
      rw [get_lineage1_eq_chain, hk]
      rfl
    simp [pure_lineage_list, hpk, upsertD]

/-- C8: `get_lca(a, a)` returns `a` and `get_distance(a, a)` returns `0`
for every identifier `a` of the built tree with a terminating ancestor
chain. -/
theorem c8_self_distance_lca {t : Taxonomy} {F a : Nat} {s : TaxState}
    {Ra : List Nat}
    (hu : UniqueRoot t) (hco : Coherent t F s)
    (ha : chainFull t F a = .ok Ra) :
    (get_lca_st F a a s).1 = .ok a ∧
    (get_distance_st F a a s).1 = .ok 0 := by
  obtain ⟨hres1, _⟩ := get_lca_st_spec F a a hu hco
  obtain ⟨hres2, _⟩ := get_distance_st_spec F a a hu hco
  constructor
  · rw [hres1]
    exact pure_lca_self hu ha
  · rw [hres2]
    exact pure_distance_self hu ha

/-- Witness for C1 at the running example: `a = 3`, `b = 4`, whose LCA is
the genus node 2. -/
theorem c1_witness :
    ∃ z, (get_lca_st 10 3 4 exState).1 = .ok z ∧
      z ∈ ([3, 2, 1] : List Nat).reverse ∧
      z ∈ ([4, 2, 1] : List Nat).reverse ∧
      (∀ y, y ∈ ([3, 2, 1] : List Nat).reverse →
        y ∈ ([4, 2, 1] : List Nat).reverse →
        ∃ Rz, chainFull exState.taxonomy 10 z = .ok Rz ∧ y ∈ Rz) ∧
      (([3, 2, 1] : List Nat).reverse)[interCard ([3, 2, 1] : List Nat).reverse
        ([4, 2, 1] : List Nat).reverse - 1]? = some z :=
  c1_get_lca_deepest_common exState_uniqueRoot (exState_coherent 10)
    (by decide) (by decide)

/-- Witness for C4 at the running example: node 3 has depth-0 rank code
`S`, the table image of its own rank "species". -/
theorem c4_witness :
    ∃ rn, get_rank1 exState.taxonomy 3 = .ok rn ∧
      ((∃ c, rankCodeOf rn = some c ∧
          (⟨some "species", "S", 0⟩ : Rank).rank_code = c) ∨
       (3 = 1 ∧ rankCodeOf rn = none ∧
          (⟨some "species", "S", 0⟩ : Rank).rank_code = "R")) :=
  c4_rank_depth_zero_identity exState_uniqueRoot (exState_coherent 10)
    (by decide : (get_rank_code_st 10 [3] exState).1 =
      Res.ok [(3, ⟨some "species", "S", 0⟩)])
    (by decide) (by decide)

/-- Witness for C6 at the running example: node 3's lineage. -/
theorem c6_witness :
    ((get_lineage_st 10 [3] exState).1 =
        .ok [(3, ([3, 2, 1] : List Nat).reverse)] ∧
      ([3, 2, 1] : List Nat).reverse.head? = some 1 ∧
      ([3, 2, 1] : List Nat).reverse.getLast? = some 3) ∧
    (get_lineage_st 10 [1] exState).1 = .ok [(1, [1])] :=
  c6_lineage_roundtrip exState_uniqueRoot rfl ((exState_coherent 10).2.1)
    (by decide)
    (by decide : lookupD exState.taxonomy 1 =
      some ⟨some "root", none, some "no rank", none, [2]⟩)
    (by decide)

/-- Witness for C7 at the running example: identifier 99 is unknown. -/
theorem c7_witness :
    get_lineage_st 10 [99] exState = (.err (.keyErrorN (some 99)), exState) ∧
    ((get_lca_st 10 99 3 exState).1 = .err (.keyErrorN (some 99)) ∧
      (get_lca_st 10 99 3 exState).2.taxonomy = exState.taxonomy ∧
      Coherent exState.taxonomy 10 (get_lca_st 10 99 3 exState).2) ∧
    ((get_distance_st 10 99 3 exState).1 = .err (.keyErrorN (some 99)) ∧
      (get_distance_st 10 99 3 exState).2.taxonomy = exState.taxonomy ∧
      Coherent exState.taxonomy 10 (get_distance_st 10 99 3 exState).2) ∧
    (∀ k Rk, chainFull exState.taxonomy 10 k = .ok Rk →
      (get_lineage_st 10 [k] (get_distance_st 10 99 3 exState).2).1 =
        .ok [(k, Rk.reverse)]) :=
  c7_unknown_taxon_scoped_failure exState_uniqueRoot (exState_coherent 10)
    (by decide)

/-- Witness for C8 at the running example: `a = 3`. -/
theorem c8_witness :
    (get_lca_st 10 3 3 exState).1 = .ok 3 ∧
    (get_distance_st 10 3 3 exState).1 = .ok 0 :=
  c8_self_distance_lca exState_uniqueRoot (exState_coherent 10)
    (by decide : chainFull exState.taxonomy 10 3 = Res.ok [3, 2, 1])

/-! ### `get_siblings` -/

theorem get_rank_code_st_err {t : Taxonomy} (F id : Nat) {s : TaxState}
    (hu : UniqueRoot t) (hco : Coherent t F s) {e : PyErr}
    (h : (get_rank_code_st F [id] s).1 = .err e) : e ≠ .invalidRank := by
  obtain ⟨hres, _⟩ := get_rank_code_st_single F id hu hco
  rw [h] at hres
  cases hp : pure_rank_code t F id with
  | ok r => rw [hp] at hres; simp [Res.map] at hres
  | err e' =>
    rw [hp] at hres
    simp only [Res.map, Res.err.injEq] at hres
    rw [hres]
    exact pure_rank_code_err hp
  | timeout => rw [hp] at hres; simp [Res.map] at hres

theorem sib_parent_walk_spec {t : Taxonomy} (hu : UniqueRoot t) (F : Nat) :
    ∀ (dfuel : Nat) {cur : Nat} {s : TaxState}, Coherent t F s →
      Coherent t F (sib_parent_walk F dfuel cur s).2 ∧
      (∀ e, (sib_parent_walk F dfuel cur s).1 = .err e → e ≠ .invalidRank) := by
  intro dfuel
  induction dfuel with
  | zero =>
    intro cur s hco
    exact ⟨hco, by intro e h; simp [sib_parent_walk] at h⟩
  | succ d ih =>
    intro cur s hco
    cases hp : get_parent1 s.taxonomy cur with
    | ok pOpt =>
      cases pOpt with
      | none =>
        have hred : sib_parent_walk F (d + 1) cur s = (.err (.keyErrorN none), s) := by
          simp only [sib_parent_walk, hp]
        rw [hred]
        refine ⟨hco, ?_⟩
        intro e h
        simp only [Res.err.injEq] at h
        rw [← h]
        simp
      | some p =>
        obtain ⟨hres, hco2⟩ := get_rank_code_st_single F p hu hco
        rcases hpr : get_rank_code_st F [p] s with ⟨rr, s2⟩
        rw [hpr] at hres hco2
        cases rr with
        | ok rd =>
          cases hlk : lookupD rd p with
          | some r =>
            by_cases hcond : r.rank_code ∈ sibling_rank_codes ∧ r.rank_depth = 0
            · have hred : sib_parent_walk F (d + 1) cur s = (.ok p, s2) := by
                simp only [sib_parent_walk, hp, hpr, hlk, if_pos hcond]
              rw [hred]
              exact ⟨hco2, by intro e h; simp at h⟩
            · by_cases hp1 : p = 1
              · have hred : sib_parent_walk F (d + 1) cur s = (.ok p, s2) := by
                  simp only [sib_parent_walk, hp, hpr, hlk, if_neg hcond, if_pos hp1]
                rw [hred]
                exact ⟨hco2, by intro e h; simp at h⟩
              · have hred : sib_parent_walk F (d + 1) cur s =
                    sib_parent_walk F d p s2 := by
                  simp only [sib_parent_walk, hp, hpr, hlk, if_neg hcond, if_neg hp1]
                rw [hred]
                exact ih hco2
          | none =>
            have hred : sib_parent_walk F (d + 1) cur s =
                (.err (.keyErrorN (some p)), s2) := by
              simp only [sib_parent_walk, hp, hpr, hlk]
            rw [hred]
            refine ⟨hco2, ?_⟩
            intro e h
            simp only [Res.err.injEq] at h
            rw [← h]
            simp
        | err e' =>
          have hred : sib_parent_walk F (d + 1) cur s = (.err e', s2) := by
            simp only [sib_parent_walk, hp, hpr]
          rw [hred]
          refine ⟨hco2, ?_⟩
          intro e h
          simp only [Res.err.injEq] at h
          rw [← h]
          cases hq : pure_rank_code t F p with
          | ok r => rw [hq] at hres; simp [Res.map] at hres
          | err e2 =>
            rw [hq] at hres
            simp only [Res.map, Res.err.injEq] at hres
            rw [hres]
            exact pure_rank_code_err hq
          | timeout => rw [hq] at hres; simp [Res.map] at hres
        | timeout =>
          have hred : sib_parent_walk F (d + 1) cur s = (.timeout, s2) := by
            simp only [sib_parent_walk, hp, hpr]
          rw [hred]
          exact ⟨hco2, by intro e h; simp at h⟩
    | err e' =>
      have hred : sib_parent_walk F (d + 1) cur s = (.err e', s) := by
        simp only [sib_parent_walk, hp]
      rw [hred]
      refine ⟨hco, ?_⟩
      intro e h
      simp only [Res.err.injEq] at h
      rw [← h]
      exact get_parent1_err hp
    | timeout =>
      have hred : sib_parent_walk F (d + 1) cur s = (.timeout, s) := by
        simp only [sib_parent_walk, hp]
      rw [hred]
      exact ⟨hco, by intro e h; simp at h⟩

theorem sib_dfs_spec {t : Taxonomy} (hu : UniqueRoot t) (F : Nat) (wanted : String) :
    ∀ (fuel : Nat) (pending : List Nat) {vis sib : List Nat} {s : TaxState},
      Coherent t F s →
      Coherent t F (sib_dfs F wanted fuel pending vis sib s).2 ∧
      (∀ e, (sib_dfs F wanted fuel pending vis sib s).1 = .err e →
        e ≠ .invalidRank) := by
  intro fuel
  induction fuel with
  | zero =>
    intro pending vis sib s hco
    cases pending with
    | nil =>
      refine ⟨by simp only [sib_dfs]; exact hco, ?_⟩
      intro e h
      simp [sib_dfs] at h
    | cons id rest =>
      refine ⟨by simp only [sib_dfs]; exact hco, ?_⟩
      intro e h
      simp [sib_dfs] at h
  | succ f ihf =>
    intro pending vis sib s hco
    cases pending with
    | nil =>
      refine ⟨by simp only [sib_dfs]; exact hco, ?_⟩
      intro e h
      simp [sib_dfs] at h
    | cons id rest =>
      by_cases hv : id ∈ vis
      · have hred : sib_dfs F wanted (f + 1) (id :: rest) vis sib s =
            sib_dfs F wanted f rest vis sib s := by
          simp only [sib_dfs, if_pos hv]
        rw [hred]
        exact ihf rest hco
      · obtain ⟨hres, hco2⟩ := get_rank_code_st_single F id hu hco
        rcases hpr : get_rank_code_st F [id] s with ⟨rr, s2⟩
        rw [hpr] at hres hco2
        cases rr with
        | ok rd =>
          cases hlk : lookupD rd id with
          | some r =>
            by_cases hne : r.rank_code ≠ wanted
            · cases hch : get_children1 s2.taxonomy id with
              | ok ch =>
                rcases hrec : sib_dfs F wanted f ch (id :: vis) sib s2 with ⟨rr2, s3⟩
                obtain ⟨hco3, herr3⟩ := @ihf ch (id :: vis) sib s2 hco2
                rw [hrec] at hco3 herr3
                cases rr2 with
                | ok sv =>
                  have hred : sib_dfs F wanted (f + 1) (id :: rest) vis sib s =
                      sib_dfs F wanted f rest sv.2 sv.1 s3 := by
                    simp only [sib_dfs, if_neg hv, hpr, hlk, if_pos hne, hch, hrec]
                  rw [hred]
                  exact ihf rest hco3
                | err e' =>
                  have hred : sib_dfs F wanted (f + 1) (id :: rest) vis sib s =
                      (.err e', s3) := by
                    simp only [sib_dfs, if_neg hv, hpr, hlk, if_pos hne, hch, hrec]
                  rw [hred]
                  refine ⟨hco3, ?_⟩
                  intro e h
                  simp only [Res.err.injEq] at h
                  rw [← h]
                  exact herr3 e' rfl
                | timeout =>
                  have hred : sib_dfs F wanted (f + 1) (id :: rest) vis sib s =
                      (.timeout, s3) := by
                    simp only [sib_dfs, if_neg hv, hpr, hlk, if_pos hne, hch, hrec]
                  rw [hred]
                  exact ⟨hco3, by intro e h; simp at h⟩
              | err e' =>
                have hred : sib_dfs F wanted (f + 1) (id :: rest) vis sib s =
                    (.err e', s2) := by
                  simp only [sib_dfs, if_neg hv, hpr, hlk, if_pos hne, hch]
                rw [hred]
                refine ⟨hco2, ?_⟩
                intro e h
                simp only [Res.err.injEq] at h
                rw [← h]
                exact get_children1_err hch
              | timeout =>
                have hred : sib_dfs F wanted (f + 1) (id :: rest) vis sib s =
                    (.timeout, s2) := by
                  simp only [sib_dfs, if_neg hv, hpr, hlk, if_pos hne, hch]
                rw [hred]
                exact ⟨hco2, by intro e h; simp at h⟩
            · have hred : sib_dfs F wanted (f + 1) (id :: rest) vis sib s =
                  sib_dfs F wanted f rest (id :: vis) (sib ++ [id]) s2 := by
                simp only [sib_dfs, if_neg hv, hpr, hlk, if_neg hne]
              rw [hred]
              exact ihf rest hco2
          | none =>
            have hred : sib_dfs F wanted (f + 1) (id :: rest) vis sib s =
                (.err (.keyErrorN (some id)), s2) := by
              simp only [sib_dfs, if_neg hv, hpr, hlk]
            rw [hred]
            refine ⟨hco2, ?_⟩
            intro e h
            simp only [Res.err.injEq] at h
            rw [← h]
            simp
        | err e' =>
          have hred : sib_dfs F wanted (f + 1) (id :: rest) vis sib s =
              (.err e', s2) := by
            simp only [sib_dfs, if_neg hv, hpr]
          rw [hred]
          refine ⟨hco2, ?_⟩
          intro e h
          simp only [Res.err.injEq] at h
          rw [← h]
          cases hq : pure_rank_code t F id with
          | ok r => rw [hq] at hres; simp [Res.map] at hres
          | err e2 =>
            rw [hq] at hres
            simp only [Res.map, Res.err.injEq] at hres
            rw [hres]
            exact pure_rank_code_err hq
          | timeout => rw [hq] at hres; simp [Res.map] at hres
        | timeout =>
          have hred : sib_dfs F wanted (f + 1) (id :: rest) vis sib s =
              (.timeout, s2) := by
            simp only [sib_dfs, if_neg hv, hpr]
          rw [hred]
          exact ⟨hco2, by intro e h; simp at h⟩

/-- C3 counterexample: in the superkingdom example, node 2 sits exactly at
a canonical rank (`superkingdom`, code `D`, depth 0); `D` is not among the
qualifying sibling codes `{S, G, F, O, C, P}`, so the stated precondition
fails, yet `get_siblings(2)` succeeds with `[2]` instead of raising
`InvalidRankError`: the code only checks `rank_depth != 0`, never the
rank-code membership. -/
theorem c3_counterexample :
    pure_rank_code skState.taxonomy 20 2 = .ok ⟨some "superkingdom", "D", 0⟩ ∧
    "D" ∉ sibling_rank_codes ∧
    (get_siblings_st 20 20 2 skState).1 = .ok [2] := by
  refine ⟨by decide, by decide, by decide⟩

/-- C3 (amended): for an identifier `id` of a uniquely-rooted tree with
coherent caches whose rank-code resolution succeeds with rank record `r`,
`get_siblings(id)` raises `InvalidRankError` exactly when `r.rank_depth ≠ 0`;
membership of the rank code in `{S, G, F, O, C, P}` is never checked, so a
depth-0 node of any code (root included) does not raise this error. -/
theorem c3_siblings_invalid_rank_iff_depth {t : Taxonomy} {F dfuel id : Nat}
    {s : TaxState} {r : Rank}
    (hu : UniqueRoot t) (hco : Coherent t F s)
    (hp : pure_rank_code t F id = .ok r) :
    ((get_siblings_st F dfuel id s).1 = .err .invalidRank ↔ r.rank_depth ≠ 0) := by
  rcases hpr : get_rank_code_st F [id] s with ⟨rr, s2⟩
  obtain ⟨hres, hco2⟩ := get_rank_code_st_single F id hu hco
  rw [hpr] at hres hco2
  rw [hp] at hres
  dsimp only at hres
  simp only [Res.map] at hres
  subst hres
  by_cases hd : r.rank_depth ≠ 0
  · have hred : get_siblings_st F dfuel id s = (.err .invalidRank, s2) := by
      simp [get_siblings_st, hpr, lookupD, hd]
    rw [hred]
    simp [hd]
  · have hd' : r.rank_depth = 0 := by push_neg at hd; exact hd
    constructor
    · intro h
      exfalso
      rcases hpw : sib_parent_walk F dfuel id s2 with ⟨w, s3⟩
      obtain ⟨hco3, herr3⟩ := @sib_parent_walk_spec t hu F dfuel id s2 hco2
      rw [hpw] at hco3 herr3
      cases w with
      | ok par =>
        rcases hdf : sib_dfs F r.rank_code dfuel [par] [] [] s3 with ⟨w2, s4⟩
        obtain ⟨hco4, herr4⟩ := @sib_dfs_spec t hu F r.rank_code dfuel [par] [] [] s3 hco3
        rw [hdf] at hco4 herr4
        cases w2 with
        | ok sv =>
          have hred : get_siblings_st F dfuel id s = (.ok sv.1, s4) := by
            simp [get_siblings_st, hpr, lookupD, hd', hpw, hdf]
          rw [hred] at h
          simp at h
        | err e =>
          have hred : get_siblings_st F dfuel id s = (.err e, s4) := by
            simp [get_siblings_st, hpr, lookupD, hd', hpw, hdf]
          rw [hred] at h
          simp only [Res.err.injEq] at h
          exact herr4 e rfl h
        | timeout =>
          have hred : get_siblings_st F dfuel id s = (.timeout, s4) := by
            simp [get_siblings_st, hpr, lookupD, hd', hpw, hdf]
          rw [hred] at h
          simp at h
      | err e =>
        have hred : get_siblings_st F dfuel id s = (.err e, s3) := by
          simp [get_siblings_st, hpr, lookupD, hd', hpw]
        rw [hred] at h
        simp only [Res.err.injEq] at h
        exact herr3 e rfl h
      | timeout =>
        have hred : get_siblings_st F dfuel id s = (.timeout, s3) := by
          simp [get_siblings_st, hpr, lookupD, hd', hpw]
        rw [hred] at h
        simp at h
    · intro hdep
      exact absurd hdep hd

theorem c3_witness :
    ((get_siblings_st 20 20 3 skState).1 = .err .invalidRank ↔
      (⟨some "species", "S", 0⟩ : Rank).rank_depth ≠ 0) :=
  c3_siblings_invalid_rank_iff_depth skState_uniqueRoot (skState_coherent 20)
    (by decide : pure_rank_code skState.taxonomy 20 3 =
      .ok ⟨some "species", "S", 0⟩)

/-! ### `get_clade_rank_taxids`: soundness of the recorded taxids -/

theorem get_children1_ok {t : Taxonomy} {id : Nat} {ch : List Nat}
    (h : get_children1 t id = .ok ch) :
    ∃ n : Node, lookupD t id = some n ∧ ch = n.children := by
  unfold get_children1 at h
  cases hn : get_node1 t id with
  | ok n =>
    rw [hn] at h
    simp only [Res.map, Res.ok.injEq] at h
    exact ⟨n, get_node1_lookup hn, h.symm⟩
  | err e => rw [hn] at h; simp [Res.map] at h
  | timeout => rw [hn] at h; simp [Res.map] at h

theorem tldSound_fresh {t : Taxonomy} {F : Nat} {wanted : List String}
    {root : Nat} :
    TldSound t F wanted root (wanted.map (fun c => (c, ([] : List Nat)))) := by
  intro p hp x hx
  rcases List.mem_map.mp hp with ⟨c, _, hc⟩
  rw [← hc] at hx
  simp at hx

theorem tldSound_tldAdd {t : Taxonomy} {F : Nat} {wanted : List String}
    {root : Nat} {tld : List (String × List Nat)} {id : Nat} {r : Rank}
    (hs : TldSound t F wanted root tld) (hre : Reachable t root id)
    (hq : pure_rank_code t F id = .ok r) (hd : r.rank_depth = 0)
    (hw : r.rank_code ∈ wanted) :
    TldSound t F wanted root (tldAdd tld r.rank_code id) := by
  intro p hp x hx
  rcases mem_upsertD hp with h1 | h1
  · rw [h1] at hx ⊢
    rcases List.mem_append.mp hx with h2 | h2
    · cases hl : lookupD tld r.rank_code with
      | none => rw [hl] at h2; simp at h2
      | some l =>
        rw [hl] at h2
        simp only [Option.getD] at h2
        exact hs (r.rank_code, l) (lookupD_mem hl) x h2
    · have hx2 : x = id := by simpa using h2
      subst hx2
      exact ⟨hre, r, hq, hd, rfl, hw⟩
  · exact hs p h1 x hx

theorem crt_dfs_sound {t : Taxonomy} (hu : UniqueRoot t) (F : Nat)
    (wanted : List String) (root : Nat) :
    ∀ (fuel : Nat) (pending : List Nat) {vis : List Nat}
      {tld : List (String × List Nat)} {s : TaxState},
      Coherent t F s →
      (∀ x ∈ pending, Reachable t root x) →
      TldSound t F wanted root tld →
      Coherent t F (crt_dfs F wanted fuel pending vis tld s).2 ∧
      (∀ tv, (crt_dfs F wanted fuel pending vis tld s).1 = .ok tv →
        TldSound t F wanted root tv.1) := by
  intro fuel
  induction fuel with
  | zero =>
    intro pending vis tld s hco hpend hsnd
    cases pending with
    | nil =>
      refine ⟨by simp only [crt_dfs]; exact hco, ?_⟩
      intro tv h
      simp only [crt_dfs, Res.ok.injEq] at h
      rw [← h]
      exact hsnd
    | cons id rest =>
      refine ⟨by simp only [crt_dfs]; exact hco, ?_⟩
      intro tv h
      simp [crt_dfs] at h
  | succ f ihf =>
    intro pending vis tld s hco hpend hsnd
    cases pending with
    | nil =>
      refine ⟨by simp only [crt_dfs]; exact hco, ?_⟩
      intro tv h
      simp only [crt_dfs, Res.ok.injEq] at h
      rw [← h]
      exact hsnd
    | cons id rest =>
      have hpend_rest : ∀ x ∈ rest, Reachable t root x :=
        fun x hx => hpend x (List.mem_cons_of_mem _ hx)
      have hid : Reachable t root id := hpend id (List.mem_cons_self _ _)
      by_cases hv : id ∈ vis
      · have hred : crt_dfs F wanted (f + 1) (id :: rest) vis tld s =
            crt_dfs F wanted f rest vis tld s := by
          simp only [crt_dfs, if_pos hv]
        rw [hred]
        exact ihf rest hco hpend_rest hsnd
      · obtain ⟨hres, hco2⟩ := get_rank_code_st_single F id hu hco
        rcases hpr : get_rank_code_st F [id] s with ⟨rr, s2⟩
        rw [hpr] at hres hco2
        cases rr with
        | ok rd =>
          cases hq : pure_rank_code t F id with
          | ok r0 =>
            rw [hq] at hres
            simp only [Res.map, Res.ok.injEq] at hres
            subst hres
            have hlk : lookupD [(id, r0)] id = some r0 := by simp [lookupD]
            have hsnd' : TldSound t F wanted root
                (if r0.rank_depth = 0 ∧ r0.rank_code ∈ wanted
                 then tldAdd tld r0.rank_code id else tld) := by
              by_cases hcnd : r0.rank_depth = 0 ∧ r0.rank_code ∈ wanted
              · rw [if_pos hcnd]
                exact tldSound_tldAdd hsnd hid hq hcnd.1 hcnd.2
              · rw [if_neg hcnd]
                exact hsnd
            cases hwt : lookupD canonical_rank_weights r0.rank_code with
            | none =>
              have hred : crt_dfs F wanted (f + 1) (id :: rest) vis tld s =
                  (.err (.keyErrorS r0.rank_code), s2) := by
                simp only [crt_dfs, if_neg hv, hpr, hlk, hwt]
              rw [hred]
              exact ⟨hco2, by intro tv h; simp at h⟩
            | some w =>
              cases hdp : any_deeper w wanted with
              | ok b =>
                cases b with
                | true =>
                  cases hch : get_children1 s2.taxonomy id with
                  | ok ch =>
                    have hch_reach : ∀ x ∈ ch, Reachable t root x := by
                      obtain ⟨n, hn, hcn⟩ := get_children1_ok hch
                      rw [hco2.1] at hn
                      intro x hx
                      exact Reachable.step n hid hn (hcn ▸ hx)
                    rcases hrec : crt_dfs F wanted f ch (id :: vis)
                        (if r0.rank_depth = 0 ∧ r0.rank_code ∈ wanted
                         then tldAdd tld r0.rank_code id else tld) s2
                      with ⟨rr2, s3⟩
                    obtain ⟨hco3, hsnd3⟩ :=
                      @ihf ch (id :: vis)
                        (if r0.rank_depth = 0 ∧ r0.rank_code ∈ wanted
                         then tldAdd tld r0.rank_code id else tld) s2
                        hco2 hch_reach hsnd'
                    rw [hrec] at hco3 hsnd3
                    cases rr2 with
                    | ok tv1 =>
                      have hred : crt_dfs F wanted (f + 1) (id :: rest) vis tld s =
                          crt_dfs F wanted f rest tv1.2 tv1.1 s3 := by
                        simp only [crt_dfs, if_neg hv, hpr, hlk, hwt, hdp, hch, hrec]
                      rw [hred]
                      exact ihf rest hco3 hpend_rest (hsnd3 tv1 rfl)
                    | err e' =>
                      have hred : crt_dfs F wanted (f + 1) (id :: rest) vis tld s =
                          (.err e', s3) := by
                        simp only [crt_dfs, if_neg hv, hpr, hlk, hwt, hdp, hch, hrec]
                      rw [hred]
                      exact ⟨hco3, by intro tv h; simp at h⟩
                    | timeout =>
                      have hred : crt_dfs F wanted (f + 1) (id :: rest) vis tld s =
                          (.timeout, s3) := by
                        simp only [crt_dfs, if_neg hv, hpr, hlk, hwt, hdp, hch, hrec]
                      rw [hred]
                      exact ⟨hco3, by intro tv h; simp at h⟩
                  | err e' =>
                    have hred : crt_dfs F wanted (f + 1) (id :: rest) vis tld s =
                        (.err e', s2) := by
                      simp only [crt_dfs, if_neg hv, hpr, hlk, hwt, hdp, hch]
                    rw [hred]
                    exact ⟨hco2, by intro tv h; simp at h⟩
                  | timeout =>
                    have hred : crt_dfs F wanted (f + 1) (id :: rest) vis tld s =
                        (.timeout, s2) := by
                      simp only [crt_dfs, if_neg hv, hpr, hlk, hwt, hdp, hch]
                    rw [hred]
                    exact ⟨hco2, by intro tv h; simp at h⟩
                | false =>
                  have hred : crt_dfs F wanted (f + 1) (id :: rest) vis tld s =
                      crt_dfs F wanted f rest (id :: vis)
                        (if r0.rank_depth = 0 ∧ r0.rank_code ∈ wanted
                         then tldAdd tld r0.rank_code id else tld) s2 := by
                    simp only [crt_dfs, if_neg hv, hpr, hlk, hwt, hdp]
                  rw [hred]
                  exact ihf rest hco2 hpend_rest hsnd'
              | err e' =>
                have hred : crt_dfs F wanted (f + 1) (id :: rest) vis tld s =
                    (.err e', s2) := by
                  simp only [crt_dfs, if_neg hv, hpr, hlk, hwt, hdp]
                rw [hred]
                exact ⟨hco2, by intro tv h; simp at h⟩
              | timeout =>
                have hred : crt_dfs F wanted (f + 1) (id :: rest) vis tld s =
                    (.timeout, s2) := by
                  simp only [crt_dfs, if_neg hv, hpr, hlk, hwt, hdp]
                rw [hred]
                exact ⟨hco2, by intro tv h; simp at h⟩
          | err e0 => rw [hq] at hres; simp [Res.map] at hres
          | timeout => rw [hq] at hres; simp [Res.map] at hres
        | err e' =>
          have hred : crt_dfs F wanted (f + 1) (id :: rest) vis tld s =
              (.err e', s2) := by
            simp only [crt_dfs, if_neg hv, hpr]
          rw [hred]
          exact ⟨hco2, by intro tv h; simp at h⟩
        | timeout =>
          have hred : crt_dfs F wanted (f + 1) (id :: rest) vis tld s =
              (.timeout, s2) := by
            simp only [crt_dfs, if_neg hv, hpr]
          rw [hred]
          exact ⟨hco2, by intro tv h; simp at h⟩

theorem crt_loop_sound {t : Taxonomy} (hu : UniqueRoot t) (F dfuel : Nat)
    (wanted : List String) :
    ∀ (ids : List Nat) {acc : List (Nat × List (String × List Nat))}
      {s : TaxState},
      Coherent t F s → AccSound t F wanted acc →
      ∀ out, (crt_loop F dfuel wanted ids acc s).1 = .ok out →
        AccSound t F wanted out := by
  intro ids
  induction ids with
  | nil =>
    intro acc s hco hacc out h
    simp only [crt_loop, Res.ok.injEq] at h
    rw [← h]
    exact hacc
  | cons id rest ih =>
    intro acc s hco hacc out h
    rcases hdf : crt_dfs F wanted dfuel [id] []
        (wanted.map (fun c => (c, ([] : List Nat)))) s with ⟨rr, s1⟩
    obtain ⟨hco1, hsnd1⟩ :=
      @crt_dfs_sound t hu F wanted id dfuel [id] []
        (wanted.map (fun c => (c, ([] : List Nat)))) s hco
        (by intro x hx; simp at hx; rw [hx]; exact Reachable.refl id)
        tldSound_fresh
    rw [hdf] at hco1 hsnd1
    cases rr with
    | ok tv =>
      have hred : crt_loop F dfuel wanted (id :: rest) acc s =
          crt_loop F dfuel wanted rest (upsertD acc id tv.1) s1 := by
        simp only [crt_loop, hdf]
      rw [hred] at h
      have hacc' : AccSound t F wanted (upsertD acc id tv.1) := by
        intro p hp
        rcases mem_upsertD hp with h1 | h1
        · rw [h1]
          exact hsnd1 tv rfl
        · exact hacc p h1
      exact ih hco1 hacc' out h
    | err e =>
      have hred : crt_loop F dfuel wanted (id :: rest) acc s = (.err e, s1) := by
        simp only [crt_loop, hdf]
      rw [hred] at h
      simp at h
    | timeout =>
      have hred : crt_loop F dfuel wanted (id :: rest) acc s = (.timeout, s1) := by
        simp only [crt_loop, hdf]
      rw [hred] at h
      simp at h

/-- C2 counterexample: in the species-above-genus taxonomy, node 3 is in
the clade of root 1 and sits exactly at rank `genus` (code `G`, depth 0),
and `genus` resolves to the wanted set `["G"]`; yet
`get_clade_rank_taxids([1], 'genus')` records no taxid at all under `G`:
the pruning rule stops at the species node 2 because no wanted rank is
deeper than `S` in the canonical ordering, so the genus below it is never
visited. -/
theorem c2_counterexample :
    (get_clade_rank_taxids_st 10 10 [1] (some "genus") pgState).1 =
      .ok [(1, [("G", [])])] ∧
    Reachable pgState.taxonomy 1 3 ∧
    pure_rank_code pgState.taxonomy 10 3 = .ok ⟨some "genus", "G", 0⟩ ∧
    wanted_of (some "genus") = .ok ["G"] := by
  refine ⟨by decide, ?_, by decide, by decide⟩
  have h1 : lookupD pgState.taxonomy 1 =
      some ⟨some "root", none, some "no rank", none, [2]⟩ := by decide
  have h2 : lookupD pgState.taxonomy 2 =
      some ⟨some "X", none, some "species", some 1, [3]⟩ := by decide
  exact Reachable.step _
    (Reachable.step _ (Reachable.refl 1) h1 (by decide)) h2 (by decide)

/-- C2 (amended): `get_clade_rank_taxids` is sound but not complete.  Every
taxid it records under a root and a rank code is reachable from that root,
sits exactly (depth 0) at the canonical rank with that code, and the code
belongs to the wanted set resolved from the requested rank; the converse
(completeness for every clade member) fails because of the pruning rule,
as the counterexample shows. -/
theorem c2_clade_rank_taxids_sound {t : Taxonomy} {F dfuel : Nat}
    {ids : List Nat} {rnk : Option String} {s : TaxState}
    {out : List (Nat × List (String × List Nat))}
    (hu : UniqueRoot t) (hco : Coherent t F s)
    (hrun : (get_clade_rank_taxids_st F dfuel ids rnk s).1 = .ok out)
    {root : Nat} {tld : List (String × List Nat)} (h1 : (root, tld) ∈ out)
    {code : String} {taxids : List Nat} (h2 : (code, taxids) ∈ tld)
    {x : Nat} (hx : x ∈ taxids) :
    Reachable t root x ∧
    (∃ r : Rank, pure_rank_code t F x = .ok r ∧ r.rank_depth = 0 ∧
      r.rank_code = code) ∧
    (∃ wanted, wanted_of rnk = .ok wanted ∧ code ∈ wanted) := by
  unfold get_clade_rank_taxids_st at hrun
  cases hw : wanted_of rnk with
  | ok wanted =>
    rw [hw] at hrun
    have hout :=
      crt_loop_sound hu F dfuel wanted ids hco
        (by intro p hp; simp at hp) out hrun
    obtain ⟨hre, r, hprr, hd, hcode, hcw⟩ := hout (root, tld) h1 (code, taxids) h2 x hx
    exact ⟨hre, ⟨r, hprr, hd, hcode⟩, ⟨wanted, rfl, hcw⟩⟩
  | err e =>
    rw [hw] at hrun
    simp at hrun
  | timeout =>
    rw [hw] at hrun
    simp at hrun

theorem c2_witness :
    Reachable exState.taxonomy 1 2 ∧
    (∃ r : Rank, pure_rank_code exState.taxonomy 10 2 = .ok r ∧
      r.rank_depth = 0 ∧ r.rank_code = "G") ∧
    (∃ wanted, wanted_of (some "genus") = .ok wanted ∧ "G" ∈ wanted) :=
  c2_clade_rank_taxids_sound exState_uniqueRoot (exState_coherent 10)
    (by decide : (get_clade_rank_taxids_st 10 10 [1] (some "genus") exState).1 =
      .ok [(1, [("G", [2])])])
    (by decide : ((1, [("G", [2])]) : Nat × List (String × List Nat)) ∈
      [(1, [("G", [2])])])
    (by decide : (("G", [2]) : String × List Nat) ∈ [("G", [2])])
    (by decide : 2 ∈ [2])

/-! ### `construct_tree`: root normalization -/

theorem lookupD_upsertD_cases {κ α : Type} [DecidableEq κ] {m : List (κ × α)}
    {k k' : κ} {v w : α} (h : lookupD (upsertD m k v) k' = some w) :
    (k' = k ∧ w = v) ∨ (k' ≠ k ∧ lookupD m k' = some w) := by
  by_cases hk : k' = k
  · subst hk
    rw [lookupD_upsertD_self] at h
    exact Or.inl ⟨rfl, (Option.some.inj h).symm⟩
  · rw [lookupD_upsertD_ne _ _ hk] at h
    exact Or.inr ⟨hk, h⟩

theorem upsert2_keys {τ : Taxonomy} {tid pid : Nat} {nd q : Node}
    (S : List Nat) (hS : ∀ k n, lookupD τ k = some n → k ∈ S)
    (hidS : tid ∈ S) (hparS : pid ∈ S) :
    ∀ k n, lookupD (upsertD (upsertD τ tid nd) pid q) k = some n → k ∈ S := by
  intro k n hk
  rcases lookupD_upsertD_cases hk with ⟨hkp, _⟩ | ⟨hkp, hk2⟩
  · rw [hkp]
    exact hparS
  · rcases lookupD_upsertD_cases hk2 with ⟨hkt, _⟩ | ⟨hkt, hk3⟩
    · rw [hkt]
      exact hidS
    · exact hS k n hk3

theorem upsert2_parents {τ : Taxonomy} {tid pid : Nat} {nd q : Node}
    (hndp : nd.parent = some pid)
    (hq : (∃ pnode, lookupD (upsertD τ tid nd) pid = some pnode ∧
            q = { pnode with children := pnode.children ++ [tid] }) ∨
          (lookupD (upsertD τ tid nd) pid = none ∧
            q.children = [tid] ∧ q.parent = none))
    (D : List Nat)
    (hD : ∀ k ∈ D, ∃ n, lookupD τ k = some n ∧ n.parent ≠ none) :
    ∀ k, k = tid ∨ k ∈ D →
      ∃ n, lookupD (upsertD (upsertD τ tid nd) pid q) k = some n ∧
        n.parent ≠ none := by
  intro k hk
  by_cases hkp : k = pid
  · subst hkp
    rcases hq with ⟨pnode, hpn, hqe⟩ | ⟨hpn, _, _⟩
    · refine ⟨q, lookupD_upsertD_self _ _ _, ?_⟩
      rcases lookupD_upsertD_cases hpn with ⟨_, hpv⟩ | ⟨hpt, hp2⟩
      · rw [hqe, hpv]
        simp [hndp]
      · rcases hk with hk1 | hk1
        · exact absurd hk1 hpt
        · obtain ⟨n, hn, hnp⟩ := hD k hk1
          have hpe : pnode = n := by
            rw [hp2] at hn
            exact Option.some.inj hn
          rw [hqe, hpe]
          exact hnp
    · exfalso
      rcases hk with hk1 | hk1
      · rw [hk1, lookupD_upsertD_self] at hpn
        simp at hpn
      · obtain ⟨n, hn, _⟩ := hD k hk1
        by_cases hpt : k = tid
        · rw [hpt, lookupD_upsertD_self] at hpn
          simp at hpn
        · rw [lookupD_upsertD_ne _ _ hpt, hn] at hpn
          simp at hpn
  · rcases hk with hk1 | hk1
    · subst hk1
      refine ⟨nd, ?_, by simp [hndp]⟩
      rw [lookupD_upsertD_ne _ _ hkp, lookupD_upsertD_self]
    · obtain ⟨n, hn, hnp⟩ := hD k hk1
      by_cases hkt : k = tid
      · subst hkt
        refine ⟨nd, ?_, by simp [hndp]⟩
        rw [lookupD_upsertD_ne _ _ hkp, lookupD_upsertD_self]
      · refine ⟨n, ?_, hnp⟩
        rw [lookupD_upsertD_ne _ _ hkp, lookupD_upsertD_ne _ _ hkt]
        exact hn

theorem upsert2_count {τ : Taxonomy} {tid pid : Nat} {nd q : Node}
    (hndc : (∃ nd₀, lookupD τ tid = some nd₀ ∧ nd.children = nd₀.children) ∨
            (lookupD τ tid = none ∧ nd.children = []))
    (hq : (∃ pnode, lookupD (upsertD τ tid nd) pid = some pnode ∧
            q = { pnode with children := pnode.children ++ [tid] }) ∨
          (lookupD (upsertD τ tid nd) pid = none ∧
            q.children = [tid] ∧ q.parent = none)) :
    rootChildCount (upsertD (upsertD τ tid nd) pid q) =
      rootChildCount τ + (if tid = 1 ∧ pid = 1 then 1 else 0) := by
  by_cases hp1 : pid = 1
  · subst hp1
    rcases hq with ⟨pnode, hpn, hqe⟩ | ⟨hpn, hqc, _⟩
    · rcases lookupD_upsertD_cases hpn with ⟨h1t, hpv⟩ | ⟨h1t, hp2⟩
      · subst h1t
        subst hpv
        rcases hndc with ⟨nd₀, h0, hce⟩ | ⟨h0, hce⟩
        · simp [rootChildCount, lookupD_upsertD_self, hqe, hce, h0,
            List.count_append]
        · simp [rootChildCount, lookupD_upsertD_self, hqe, hce, h0,
            List.count_append]
      · have htne : tid ≠ 1 := fun hh => h1t hh.symm
        simp [rootChildCount, lookupD_upsertD_self, hqe, hp2,
          List.count_append, htne]
        exact List.count_eq_zero.mpr (by simp [h1t])
    · have h1t : (1 : Nat) ≠ tid := by
        intro hh
        rw [← hh] at hpn
        rw [lookupD_upsertD_self] at hpn
        simp at hpn
      have h0 : lookupD τ 1 = none := by
        rw [lookupD_upsertD_ne _ _ h1t] at hpn
        exact hpn
      have htne : tid ≠ 1 := fun hh => h1t hh.symm
      simp [rootChildCount, lookupD_upsertD_self, hqc, h0, htne]
      exact List.count_eq_zero.mpr (by simp [h1t])
  · have hLp : lookupD (upsertD (upsertD τ tid nd) pid q) 1 =
        lookupD (upsertD τ tid nd) 1 :=
      lookupD_upsertD_ne _ _ (fun hh => hp1 hh.symm)
    by_cases ht1 : tid = 1
    · subst ht1
      rcases hndc with ⟨nd₀, h0, hce⟩ | ⟨h0, hce⟩
      · simp [rootChildCount, hLp, lookupD_upsertD_self, hce, h0, hp1]
      · simp [rootChildCount, hLp, lookupD_upsertD_self, hce, h0, hp1]
    · have hLt : lookupD (upsertD τ tid nd) 1 = lookupD τ 1 :=
        lookupD_upsertD_ne _ _ (fun hh => ht1 hh.symm)
      simp [rootChildCount, hLp, hLt, ht1]

theorem process_node_line_inv (m : List (Nat × Names)) {st st' : BuildState}
    {l : NodeLine} (h : process_node_line m st l = .ok st')
    (S : List Nat) (hS : ∀ k n, lookupD st.taxonomy k = some n → k ∈ S)
    (hidS : l.tax_id ∈ S) (hparS : l.parent ∈ S)
    (D : List Nat)
    (hD : ∀ k ∈ D, ∃ n, lookupD st.taxonomy k = some n ∧ n.parent ≠ none) :
    (∀ k n, lookupD st'.taxonomy k = some n → k ∈ S) ∧
    (∀ k, k = l.tax_id ∨ k ∈ D →
      ∃ n, lookupD st'.taxonomy k = some n ∧ n.parent ≠ none) ∧
    rootChildCount st'.taxonomy = rootChildCount st.taxonomy +
      (if l.tax_id = 1 ∧ l.parent = 1 then 1 else 0) := by
  cases hm : lookupD m l.tax_id with
  | none => simp [process_node_line, hm] at h
  | some nm =>
    cases hbr : lookupD st.byranks l.rank with
    | some ids =>
      cases ht : lookupD st.taxonomy l.tax_id with
      | some node =>
        cases htp : lookupD
            (upsertD st.taxonomy l.tax_id
              { node with rank := some l.rank, parent := some l.parent })
            l.parent with
        | some pnode =>
          simp only [process_node_line, hm, hbr, ht, htp, Res.ok.injEq] at h
          subst h
          exact ⟨upsert2_keys S hS hidS hparS,
            upsert2_parents rfl (Or.inl ⟨pnode, htp, rfl⟩) D hD,
            upsert2_count (Or.inl ⟨node, ht, rfl⟩) (Or.inl ⟨pnode, htp, rfl⟩)⟩
        | none =>
          cases hmp : lookupD m l.parent with
          | none => simp [process_node_line, hm, hbr, ht, htp, hmp] at h
          | some pm =>
            simp only [process_node_line, hm, hbr, ht, htp, hmp, Res.ok.injEq] at h
            subst h
            exact ⟨upsert2_keys S hS hidS hparS,
              upsert2_parents rfl (Or.inr ⟨htp, rfl, rfl⟩) D hD,
              upsert2_count (Or.inl ⟨node, ht, rfl⟩) (Or.inr ⟨htp, rfl, rfl⟩)⟩
      | none =>
        cases htp : lookupD
            (upsertD st.taxonomy l.tax_id
              { name := nm.scientific_name,
                genbank_common_name := nm.genbank_common_name,
                rank := some l.rank, parent := some l.parent, children := [] })
            l.parent with
        | some pnode =>
          simp only [process_node_line, hm, hbr, ht, htp, Res.ok.injEq] at h
          subst h
          exact ⟨upsert2_keys S hS hidS hparS,
            upsert2_parents rfl (Or.inl ⟨pnode, htp, rfl⟩) D hD,
            upsert2_count (Or.inr ⟨ht, rfl⟩) (Or.inl ⟨pnode, htp, rfl⟩)⟩
        | none =>
          cases hmp : lookupD m l.parent with
          | none => simp [process_node_line, hm, hbr, ht, htp, hmp] at h
          | some pm =>
            simp only [process_node_line, hm, hbr, ht, htp, hmp, Res.ok.injEq] at h
            subst h
            exact ⟨upsert2_keys S hS hidS hparS,
              upsert2_parents rfl (Or.inr ⟨htp, rfl, rfl⟩) D hD,
              upsert2_count (Or.inr ⟨ht, rfl⟩) (Or.inr ⟨htp, rfl, rfl⟩)⟩
    | none =>
      cases ht : lookupD st.taxonomy l.tax_id with
      | some node =>
        cases htp : lookupD
            (upsertD st.taxonomy l.tax_id
              { node with rank := some l.rank, parent := some l.parent })
            l.parent with
        | some pnode =>
          simp only [process_node_line, hm, hbr, ht, htp, Res.ok.injEq] at h
          subst h
          exact ⟨upsert2_keys S hS hidS hparS,
            upsert2_parents rfl (Or.inl ⟨pnode, htp, rfl⟩) D hD,
            upsert2_count (Or.inl ⟨node, ht, rfl⟩) (Or.inl ⟨pnode, htp, rfl⟩)⟩
        | none =>
          cases hmp : lookupD m l.parent with
          | none => simp [process_node_line, hm, hbr, ht, htp, hmp] at h
          | some pm =>
            simp only [process_node_line, hm, hbr, ht, htp, hmp, Res.ok.injEq] at h
            subst h
            exact ⟨upsert2_keys S hS hidS hparS,
              upsert2_parents rfl (Or.inr ⟨htp, rfl, rfl⟩) D hD,
              upsert2_count (Or.inl ⟨node, ht, rfl⟩) (Or.inr ⟨htp, rfl, rfl⟩)⟩
      | none =>
        cases htp : lookupD
            (upsertD st.taxonomy l.tax_id
              { name := nm.scientific_name,
                genbank_common_name := nm.genbank_common_name,
                rank := some l.rank, parent := some l.parent, children := [] })
            l.parent with
        | some pnode =>
          simp only [process_node_line, hm, hbr, ht, htp, Res.ok.injEq] at h
          subst h
          exact ⟨upsert2_keys S hS hidS hparS,
            upsert2_parents rfl (Or.inl ⟨pnode, htp, rfl⟩) D hD,
            upsert2_count (Or.inr ⟨ht, rfl⟩) (Or.inl ⟨pnode, htp, rfl⟩)⟩
        | none =>
          cases hmp : lookupD m l.parent with
          | none => simp [process_node_line, hm, hbr, ht, htp, hmp] at h
          | some pm =>
            simp only [process_node_line, hm, hbr, ht, htp, hmp, Res.ok.injEq] at h
            subst h
            exact ⟨upsert2_keys S hS hidS hparS,
              upsert2_parents rfl (Or.inr ⟨htp, rfl, rfl⟩) D hD,
              upsert2_count (Or.inr ⟨ht, rfl⟩) (Or.inr ⟨htp, rfl, rfl⟩)⟩

theorem process_node_lines_inv (m : List (Nat × Names)) :
    ∀ (ls : List NodeLine) {st st' : BuildState},
      process_node_lines m ls st = .ok st' →
      ∀ (S : List Nat), (∀ k n, lookupD st.taxonomy k = some n → k ∈ S) →
        (∀ l ∈ ls, l.tax_id ∈ S) → (∀ l ∈ ls, l.parent ∈ S) →
      ∀ (D : List Nat),
        (∀ k ∈ D, ∃ n, lookupD st.taxonomy k = some n ∧ n.parent ≠ none) →
      (∀ k n, lookupD st'.taxonomy k = some n → k ∈ S) ∧
      (∀ k, k ∈ ls.map (fun l => l.tax_id) ∨ k ∈ D →
        ∃ n, lookupD st'.taxonomy k = some n ∧ n.parent ≠ none) ∧
      rootChildCount st'.taxonomy = rootChildCount st.taxonomy +
        ls.countP (fun l => decide (l.tax_id = 1 ∧ l.parent = 1)) := by
  intro ls
  induction ls with
  | nil =>
    intro st st' h S hS _ _ D hD
    simp only [process_node_lines, Res.ok.injEq] at h
    subst h
    refine ⟨hS, ?_, by simp⟩
    intro k hk
    rcases hk with hk | hk
    · simp at hk
    · exact hD k hk
  | cons l rest ih =>
    intro st st' h S hS hid hpar D hD
    cases hstep : process_node_line m st l with
    | ok st1 =>
      have h2 : process_node_lines m rest st1 = .ok st' := by
        simp only [process_node_lines, hstep] at h
        exact h
      obtain ⟨ha1, hb1, hc1⟩ :=
        process_node_line_inv m hstep S hS (hid l (List.mem_cons_self _ _))
          (hpar l (List.mem_cons_self _ _)) D hD
      obtain ⟨ha2, hb2, hc2⟩ :=
        ih h2 S ha1 (fun x hx => hid x (List.mem_cons_of_mem _ hx))
          (fun x hx => hpar x (List.mem_cons_of_mem _ hx))
          (l.tax_id :: D)
          (by
            intro k hk
            rcases List.mem_cons.mp hk with hk | hk
            · exact hb1 k (Or.inl hk)
            · exact hb1 k (Or.inr hk))
      refine ⟨ha2, ?_, ?_⟩
      · intro k hk
        apply hb2
        rcases hk with hk | hk
        · simp only [List.map_cons, List.mem_cons] at hk
          rcases hk with hk | hk
          · exact Or.inr (hk ▸ List.mem_cons_self _ _)
          · exact Or.inl hk
        · exact Or.inr (List.mem_cons_of_mem _ hk)
      · rw [hc2, hc1, List.countP_cons]
        by_cases hcond : l.tax_id = 1 ∧ l.parent = 1
        · simp only [hcond, and_self, if_true, decide_true_eq_true]
          simp [hcond]
          omega
        · simp [hcond]
    | err e => simp [process_node_lines, hstep] at h
    | timeout => simp [process_node_lines, hstep] at h

/-- C5 counterexample: a nodes source in which the root's self-loop line
`1 | 1 | no rank` appears twice.  Name coverage holds (the only referenced
identifier, 1, has its own record line), `construct_tree` succeeds, yet
the root still lists itself among its children: the children list gains
one `1` per duplicate line and `list.remove(1)` removes only the first. -/
theorem c5_counterexample :
    (∀ l ∈ dupRootNodes, l.parent ∈ dupRootNodes.map (fun l' => l'.tax_id)) ∧
    ∃ bs : BuildState, construct_tree dupRootNames dupRootNodes = .ok bs ∧
      ∃ root : Node, lookupD bs.taxonomy 1 = some root ∧ root.parent = none ∧
        1 ∈ root.children := by
  refine ⟨by decide,
    ⟨⟨[(1, ⟨some "root", none, some "no rank", none, [1]⟩)],
      [("no rank", [1, 1])], []⟩, by decide,
      ⟨⟨some "root", none, some "no rank", none, [1]⟩, by decide, rfl,
        by decide⟩⟩⟩

/-- C5 (amended): after `construct_tree` succeeds on a node source in which
every referenced identifier has its own record line and the root self-loop
line `1 | 1 | ...` occurs at most once, the root has parent `None` and does
not occur among its own children, and every other node's parent is not
`None`.  (The at-most-once condition is needed: a duplicated self-loop
line leaves a `1` in the root's children, as the counterexample shows.) -/
theorem c5_root_normalization {names : List NameLine} {nodes : List NodeLine}
    {bs : BuildState}
    (hcov : ∀ l ∈ nodes, l.parent ∈ nodes.map (fun l' => l'.tax_id))
    (hone : nodes.countP (fun l => decide (l.tax_id = 1 ∧ l.parent = 1)) ≤ 1)
    (hok : construct_tree names nodes = .ok bs) :
    (∃ root : Node, lookupD bs.taxonomy 1 = some root ∧ root.parent = none ∧
      1 ∉ root.children) ∧
    (∀ k n, lookupD bs.taxonomy k = some n → n.parent = none → k = 1) := by
  unfold construct_tree at hok
  cases hm : parse_names names [] with
  | ok m =>
    rw [hm] at hok
    simp only [Res.bind] at hok
    cases hp : process_node_lines m nodes {} with
    | ok st =>
      rw [hp] at hok
      simp only [Res.bind] at hok
      obtain ⟨hkeys, hparents, hcount⟩ :=
        process_node_lines_inv m nodes hp (nodes.map (fun l' => l'.tax_id))
          (by intro k n hk; simp [lookupD] at hk)
          (fun l hl => List.mem_map_of_mem _ hl)
          hcov
          [] (by intro k hk; simp at hk)
      have hrc0 : rootChildCount (({} : BuildState)).taxonomy = 0 := rfl
      rw [hrc0] at hcount
      unfold adjust_root at hok
      cases hr : lookupD st.taxonomy 1 with
      | none => rw [hr] at hok; simp at hok
      | some root =>
        rw [hr] at hok
        dsimp only at hok
        cases hpy : pyRemove root.children 1 with
        | ok ch =>
          rw [hpy] at hok
          simp only [Res.ok.injEq] at hok
          subst hok
          have hcnt1 : rootChildCount st.taxonomy = root.children.count 1 := by
            simp [rootChildCount, hr]
          have hchc : ch.count 1 + 1 = root.children.count 1 := pyRemove_count hpy
          have hch0 : ch.count 1 = 0 := by omega
          constructor
          · refine ⟨{ root with parent := none, children := ch },
              lookupD_upsertD_self _ _ _, rfl, ?_⟩
            exact List.count_eq_zero.mp hch0
          · intro k n hk hpn
            by_contra hne
            rw [lookupD_upsertD_ne _ _ hne] at hk
            have hkS := hkeys k n hk
            obtain ⟨n', hn', hn'p⟩ := hparents k (Or.inl hkS)
            rw [hk] at hn'
            exact hn'p (by rw [← Option.some.inj hn']; exact hpn)
        | err e => rw [hpy] at hok; simp at hok
        | timeout => rw [hpy] at hok; simp at hok
    | err e => rw [hp] at hok; simp [Res.bind] at hok
    | timeout => rw [hp] at hok; simp [Res.bind] at hok
  | err e => rw [hm] at hok; simp [Res.bind] at hok
  | timeout => rw [hm] at hok; simp [Res.bind] at hok

theorem c5_witness :
    (∃ root : Node, lookupD exBuild.taxonomy 1 = some root ∧
      root.parent = none ∧ 1 ∉ root.children) ∧
    (∀ k n, lookupD exBuild.taxonomy k = some n → n.parent = none → k = 1) :=
  c5_root_normalization (by decide) (by decide)
    (by decide : construct_tree exNames exNodes = .ok exBuild)

/-! ### `parse_names`: duplicate-name detection -/

theorem sciFlag_upsert_self (m : List (Nat × Names)) (id : Nat) (e : Names) :
    sciFlag (upsertD m id e) id = if e.scientific_name.isSome then 1 else 0 := by
  simp [sciFlag, lookupD_upsertD_self]

theorem sciFlag_upsert_ne (m : List (Nat × Names)) {id id' : Nat} (e : Names)
    (h : id' ≠ id) : sciFlag (upsertD m id e) id' = sciFlag m id' := by
  simp [sciFlag, lookupD_upsertD_ne _ _ h]

theorem comFlag_upsert_self (m : List (Nat × Names)) (id : Nat) (e : Names) :
    comFlag (upsertD m id e) id =
      if e.genbank_common_name.isSome then 1 else 0 := by
  simp [comFlag, lookupD_upsertD_self]

theorem comFlag_upsert_ne (m : List (Nat × Names)) {id id' : Nat} (e : Names)
    (h : id' ≠ id) : comFlag (upsertD m id e) id' = comFlag m id' := by
  simp [comFlag, lookupD_upsertD_ne _ _ h]

theorem parse_names_ok_of_nodup :
    ∀ (ls : List NameLine) (m : List (Nat × Names)),
      (∀ id, countSci ls id + sciFlag m id ≤ 1) →
      (∀ id, countCommon ls id + comFlag m id ≤ 1) →
      ∃ m', parse_names ls m = .ok m' := by
  intro ls
  induction ls with
  | nil =>
    intro m _ _
    exact ⟨m, rfl⟩
  | cons l rest ih =>
    intro m hs hc
    by_cases hw : l.name_type ∈ wanted_name_types
    · cases hml : lookupD m l.tax_id with
      | some nm =>
        by_cases hsci : l.name_type = "scientific name"
        · by_cases hnms : nm.scientific_name.isSome
          · exfalso
            have h1 := hs l.tax_id
            have h2 : countSci (l :: rest) l.tax_id =
                countSci rest l.tax_id + 1 := by
              simp [countSci, List.countP_cons, hsci]
            have h3 : sciFlag m l.tax_id = 1 := by
              simp [sciFlag, hml, hnms]
            omega
          · have hred : parse_names (l :: rest) m = parse_names rest
                (upsertD m l.tax_id { nm with scientific_name := some l.name_txt }) := by
              simp [parse_names, wanted_name_types, hml, hsci, hnms]
            obtain ⟨m', hm'⟩ := ih
              (upsertD m l.tax_id { nm with scientific_name := some l.name_txt })
              (by
                intro id
                by_cases hid : id = l.tax_id
                · subst hid
                  have h1 := hs l.tax_id
                  have h2 : countSci (l :: rest) l.tax_id = countSci rest l.tax_id + 1 := by
                    simp [countSci, List.countP_cons, hsci]
                  have h3 : sciFlag
                      (upsertD m l.tax_id { nm with scientific_name := some l.name_txt })
                      l.tax_id = 1 := by
                    simp [sciFlag_upsert_self]
                  omega
                · have h1 := hs id
                  have h2 : countSci (l :: rest) id = countSci rest id +
                      (if l.tax_id = id ∧ l.name_type = "scientific name"
                       then 1 else 0) := by
                    simp [countSci, List.countP_cons]
                  have h3 := sciFlag_upsert_ne m
                    { nm with scientific_name := some l.name_txt } hid
                  omega)
              (by
                intro id
                have h1 := hc id
                have h2 : countCommon (l :: rest) id = countCommon rest id := by
                  simp [countCommon, List.countP_cons, hsci]
                by_cases hid : id = l.tax_id
                · subst hid
                  have h3 : comFlag
                      (upsertD m l.tax_id { nm with scientific_name := some l.name_txt })
                      l.tax_id = comFlag m l.tax_id := by
                    simp [comFlag, lookupD_upsertD_self, hml]
                  omega
                · have h3 := comFlag_upsert_ne m
                    { nm with scientific_name := some l.name_txt } hid
                  omega)
            exact ⟨m', by rw [hred]; exact hm'⟩
        · have hcom : l.name_type = "genbank common name" := by
            simp [wanted_name_types] at hw
            rcases hw with hw | hw
            · exact absurd hw hsci
            · exact hw
          by_cases hnmc : nm.genbank_common_name.isSome
          · exfalso
            have h1 := hc l.tax_id
            have h2 : countCommon (l :: rest) l.tax_id =
                countCommon rest l.tax_id + 1 := by
              simp [countCommon, List.countP_cons, hcom]
            have h3 : comFlag m l.tax_id = 1 := by
              simp [comFlag, hml, hnmc]
            omega
          · have hred : parse_names (l :: rest) m = parse_names rest
                (upsertD m l.tax_id
                  { nm with genbank_common_name := some l.name_txt }) := by
              simp [parse_names, wanted_name_types, hml, hsci, hcom, hnmc]
            obtain ⟨m', hm'⟩ := ih
              (upsertD m l.tax_id { nm with genbank_common_name := some l.name_txt })
              (by
                intro id
                have h1 := hs id
                have h2 : countSci (l :: rest) id = countSci rest id := by
                  simp [countSci, List.countP_cons, hcom]
                by_cases hid : id = l.tax_id
                · subst hid
                  have h3 : sciFlag
                      (upsertD m l.tax_id { nm with genbank_common_name := some l.name_txt })
                      l.tax_id = sciFlag m l.tax_id := by
                    simp [sciFlag, lookupD_upsertD_self, hml]
                  omega
                · have h3 := sciFlag_upsert_ne m
                    { nm with genbank_common_name := some l.name_txt } hid
                  omega)
              (by
                intro id
                by_cases hid : id = l.tax_id
                · subst hid
                  have h1 := hc l.tax_id
                  have h2 : countCommon (l :: rest) l.tax_id = countCommon rest l.tax_id + 1 := by
                    simp [countCommon, List.countP_cons, hcom]
                  have h3 : comFlag
                      (upsertD m l.tax_id { nm with genbank_common_name := some l.name_txt })
                      l.tax_id = 1 := by
                    simp [comFlag_upsert_self]
                  omega
                · have h1 := hc id
                  have h2 : countCommon (l :: rest) id = countCommon rest id +
                      (if l.tax_id = id ∧ l.name_type = "genbank common name"
                       then 1 else 0) := by
                    simp [countCommon, List.countP_cons]
                  have h3 := comFlag_upsert_ne m
                    { nm with genbank_common_name := some l.name_txt } hid
                  omega)
            exact ⟨m', by rw [hred]; exact hm'⟩
      | none =>
        by_cases hsci : l.name_type = "scientific name"
        · have hred : parse_names (l :: rest) m = parse_names rest
              (upsertD (upsertD m l.tax_id {}) l.tax_id
                { Names.mk none none with scientific_name := some l.name_txt }) := by
            simp [parse_names, wanted_name_types, hml, hsci, lookupD_upsertD_self]
          obtain ⟨m', hm'⟩ := ih
            (upsertD (upsertD m l.tax_id {}) l.tax_id
              { Names.mk none none with scientific_name := some l.name_txt })
            (by
              intro id
              by_cases hid : id = l.tax_id
              · subst hid
                have h1 := hs l.tax_id
                have h2 : countSci (l :: rest) l.tax_id = countSci rest l.tax_id + 1 := by
                  simp [countSci, List.countP_cons, hsci]
                have h3 : sciFlag
                    (upsertD (upsertD m l.tax_id {}) l.tax_id
                      { Names.mk none none with scientific_name := some l.name_txt })
                    l.tax_id = 1 := by
                  simp [sciFlag_upsert_self]
                omega
              · have h1 := hs id
                have h2 : countSci (l :: rest) id = countSci rest id +
                    (if l.tax_id = id ∧ l.name_type = "scientific name"
                     then 1 else 0) := by
                  simp [countSci, List.countP_cons]
                have h3 : sciFlag
                    (upsertD (upsertD m l.tax_id {}) l.tax_id
                      { Names.mk none none with scientific_name := some l.name_txt })
                    id = sciFlag m id := by
                  rw [sciFlag_upsert_ne _ _ hid, sciFlag_upsert_ne _ _ hid]
                omega)
            (by
              intro id
              have h1 := hc id
              have h2 : countCommon (l :: rest) id = countCommon rest id := by
                simp [countCommon, List.countP_cons, hsci]
              by_cases hid : id = l.tax_id
              · subst hid
                have h3 : comFlag
                    (upsertD (upsertD m l.tax_id {}) l.tax_id
                      { Names.mk none none with scientific_name := some l.name_txt })
                    l.tax_id = 0 := by
                  simp [comFlag_upsert_self]
                omega
              · have h3 : comFlag
                    (upsertD (upsertD m l.tax_id {}) l.tax_id
                      { Names.mk none none with scientific_name := some l.name_txt })
                    id = comFlag m id := by
                  rw [comFlag_upsert_ne _ _ hid, comFlag_upsert_ne _ _ hid]
                omega)
          exact ⟨m', by rw [hred]; exact hm'⟩
        · have hcom : l.name_type = "genbank common name" := by
            simp [wanted_name_types] at hw
            rcases hw with hw | hw
            · exact absurd hw hsci
            · exact hw
          have hred : parse_names (l :: rest) m = parse_names rest
              (upsertD (upsertD m l.tax_id {}) l.tax_id
                { Names.mk none none with
                    genbank_common_name := some l.name_txt }) := by
            simp [parse_names, wanted_name_types, hml, hsci, hcom, lookupD_upsertD_self]
          obtain ⟨m', hm'⟩ := ih
            (upsertD (upsertD m l.tax_id {}) l.tax_id
              { Names.mk none none with genbank_common_name := some l.name_txt })
            (by
              intro id
              have h1 := hs id
              have h2 : countSci (l :: rest) id = countSci rest id := by
                simp [countSci, List.countP_cons, hcom]
              by_cases hid : id = l.tax_id
              · subst hid
                have h3 : sciFlag
                    (upsertD (upsertD m l.tax_id {}) l.tax_id
                      { Names.mk none none with
                          genbank_common_name := some l.name_txt })
                    l.tax_id = 0 := by
                  simp [sciFlag_upsert_self]
                omega
              · have h3 : sciFlag
                    (upsertD (upsertD m l.tax_id {}) l.tax_id
                      { Names.mk none none with
                          genbank_common_name := some l.name_txt })
                    id = sciFlag m id := by
                  rw [sciFlag_upsert_ne _ _ hid, sciFlag_upsert_ne _ _ hid]
                omega)
            (by
              intro id
              by_cases hid : id = l.tax_id
              · subst hid
                have h1 := hc l.tax_id
                have h2 : countCommon (l :: rest) l.tax_id = countCommon rest l.tax_id + 1 := by
                  simp [countCommon, List.countP_cons, hcom]
                have h3 : comFlag
                    (upsertD (upsertD m l.tax_id {}) l.tax_id
                      { Names.mk none none with
                          genbank_common_name := some l.name_txt })
                    l.tax_id = 1 := by
                  simp [comFlag_upsert_self]
                omega
              · have h1 := hc id
                have h2 : countCommon (l :: rest) id = countCommon rest id +
                    (if l.tax_id = id ∧ l.name_type = "genbank common name"
                     then 1 else 0) := by
                  simp [countCommon, List.countP_cons]
                have h3 : comFlag
                    (upsertD (upsertD m l.tax_id {}) l.tax_id
                      { Names.mk none none with
                          genbank_common_name := some l.name_txt })
                    id = comFlag m id := by
                  rw [comFlag_upsert_ne _ _ hid, comFlag_upsert_ne _ _ hid]
                omega)
          exact ⟨m', by rw [hred]; exact hm'⟩
    · have hns : l.name_type ≠ "scientific name" := by
        intro hh
        exact hw (by simp [wanted_name_types, hh])
      have hnc : l.name_type ≠ "genbank common name" := by
        intro hh
        exact hw (by simp [wanted_name_types, hh])
      have hred : parse_names (l :: rest) m = parse_names rest m := by
        simp [parse_names, hw]
      obtain ⟨m', hm'⟩ := ih m
        (by
          intro id
          have h1 := hs id
          have h2 : countSci (l :: rest) id = countSci rest id := by
            simp [countSci, List.countP_cons, hns]
          omega)
        (by
          intro id
          have h1 := hc id
          have h2 : countCommon (l :: rest) id = countCommon rest id := by
            simp [countCommon, List.countP_cons, hnc]
          omega)
      exact ⟨m', by rw [hred]; exact hm'⟩

theorem parse_names_err_spec :
    ∀ (ls : List NameLine) (m : List (Nat × Names)) {e : PyErr},
      parse_names ls m = .err e →
      ∃ id, (e = .dupSci id ∧ 2 ≤ countSci ls id + sciFlag m id) ∨
            (e = .dupCommon id ∧ 2 ≤ countCommon ls id + comFlag m id) := by
  intro ls
  induction ls with
  | nil =>
    intro m e h
    simp [parse_names] at h
  | cons l rest ih =>
    intro m e h
    by_cases hw : l.name_type ∈ wanted_name_types
    · cases hml : lookupD m l.tax_id with
      | some nm =>
        by_cases hsci : l.name_type = "scientific name"
        · by_cases hnms : nm.scientific_name.isSome
          · have hred : parse_names (l :: rest) m = .err (.dupSci l.tax_id) := by
              simp [parse_names, wanted_name_types, hml, hsci, hnms]
            rw [hred] at h
            simp only [Res.err.injEq] at h
            refine ⟨l.tax_id, Or.inl ⟨h.symm, ?_⟩⟩
            have h2 : countSci (l :: rest) l.tax_id =
                countSci rest l.tax_id + 1 := by
              simp [countSci, List.countP_cons, hsci]
            have h3 : sciFlag m l.tax_id = 1 := by
              simp [sciFlag, hml, hnms]
            omega
          · have hred : parse_names (l :: rest) m = parse_names rest
                (upsertD m l.tax_id { nm with scientific_name := some l.name_txt }) := by
              simp [parse_names, wanted_name_types, hml, hsci, hnms]
            rw [hred] at h
            obtain ⟨id, hcase⟩ := ih _ h
            refine ⟨id, ?_⟩
            rcases hcase with ⟨he, hcnt⟩ | ⟨he, hcnt⟩
            · refine Or.inl ⟨he, ?_⟩
              by_cases hid : id = l.tax_id
              · subst hid
                have h2 : countSci (l :: rest) l.tax_id =
                    countSci rest l.tax_id + 1 := by
                  simp [countSci, List.countP_cons, hsci]
                have h3 : sciFlag
                    (upsertD m l.tax_id { nm with scientific_name := some l.name_txt })
                    l.tax_id = 1 := by
                  simp [sciFlag, lookupD_upsertD_self]
                omega
              · have h2 : countSci (l :: rest) id = countSci rest id +
                    (if l.tax_id = id ∧ l.name_type = "scientific name"
                     then 1 else 0) := by
                  simp [countSci, List.countP_cons]
                have h3 := sciFlag_upsert_ne m
                  { nm with scientific_name := some l.name_txt } hid
                omega
            · refine Or.inr ⟨he, ?_⟩
              have h2 : countCommon (l :: rest) id = countCommon rest id := by
                simp [countCommon, List.countP_cons, hsci]
              by_cases hid : id = l.tax_id
              · subst hid
                have h3 : comFlag
                    (upsertD m l.tax_id { nm with scientific_name := some l.name_txt })
                    l.tax_id = comFlag m l.tax_id := by
                  simp [comFlag, lookupD_upsertD_self, hml]
                omega
              · have h3 := comFlag_upsert_ne m
                  { nm with scientific_name := some l.name_txt } hid
                omega
        · have hcom : l.name_type = "genbank common name" := by
            simp [wanted_name_types] at hw
            rcases hw with hw | hw
            · exact absurd hw hsci
            · exact hw
          by_cases hnmc : nm.genbank_common_name.isSome
          · have hred : parse_names (l :: rest) m = .err (.dupCommon l.tax_id) := by
              simp [parse_names, wanted_name_types, hml, hsci, hcom, hnmc]
            rw [hred] at h
            simp only [Res.err.injEq] at h
            refine ⟨l.tax_id, Or.inr ⟨h.symm, ?_⟩⟩
            have h2 : countCommon (l :: rest) l.tax_id =
                countCommon rest l.tax_id + 1 := by
              simp [countCommon, List.countP_cons, hcom]
            have h3 : comFlag m l.tax_id = 1 := by
              simp [comFlag, hml, hnmc]
            omega
          · have hred : parse_names (l :: rest) m = parse_names rest
                (upsertD m l.tax_id
                  { nm with genbank_common_name := some l.name_txt }) := by
              simp [parse_names, wanted_name_types, hml, hsci, hcom, hnmc]
            rw [hred] at h
            obtain ⟨id, hcase⟩ := ih _ h
            refine ⟨id, ?_⟩
            rcases hcase with ⟨he, hcnt⟩ | ⟨he, hcnt⟩
            · refine Or.inl ⟨he, ?_⟩
              have h2 : countSci (l :: rest) id = countSci rest id := by
                simp [countSci, List.countP_cons, hcom]
              by_cases hid : id = l.tax_id
              · subst hid
                have h3 : sciFlag
                    (upsertD m l.tax_id
                      { nm with genbank_common_name := some l.name_txt })
                    l.tax_id = sciFlag m l.tax_id := by
                  simp [sciFlag, lookupD_upsertD_self, hml]
                omega
              · have h3 := sciFlag_upsert_ne m
                  { nm with genbank_common_name := some l.name_txt } hid
                omega
            · refine Or.inr ⟨he, ?_⟩
              by_cases hid : id = l.tax_id
              · subst hid
                have h2 : countCommon (l :: rest) l.tax_id =
                    countCommon rest l.tax_id + 1 := by
                  simp [countCommon, List.countP_cons, hcom]
                have h3 : comFlag
                    (upsertD m l.tax_id
                      { nm with genbank_common_name := some l.name_txt })
                    l.tax_id = 1 := by
                  simp [comFlag, lookupD_upsertD_self]
                omega
              · have h2 : countCommon (l :: rest) id = countCommon rest id +
                    (if l.tax_id = id ∧ l.name_type = "genbank common name"
                     then 1 else 0) := by
                  simp [countCommon, List.countP_cons]
                have h3 := comFlag_upsert_ne m
                  { nm with genbank_common_name := some l.name_txt } hid
                omega
      | none =>
        by_cases hsci : l.name_type = "scientific name"
        · have hred : parse_names (l :: rest) m = parse_names rest
              (upsertD (upsertD m l.tax_id {}) l.tax_id
                { Names.mk none none with scientific_name := some l.name_txt }) := by
            simp [parse_names, wanted_name_types, hml, hsci, lookupD_upsertD_self]
          rw [hred] at h
          obtain ⟨id, hcase⟩ := ih _ h
          refine ⟨id, ?_⟩
          rcases hcase with ⟨he, hcnt⟩ | ⟨he, hcnt⟩
          · refine Or.inl ⟨he, ?_⟩
            by_cases hid : id = l.tax_id
            · subst hid
              have h2 : countSci (l :: rest) l.tax_id =
                  countSci rest l.tax_id + 1 := by
                simp [countSci, List.countP_cons, hsci]
              have h3 : sciFlag
                  (upsertD (upsertD m l.tax_id {}) l.tax_id
                    { Names.mk none none with scientific_name := some l.name_txt })
                  l.tax_id = 1 := by
                simp [sciFlag, lookupD_upsertD_self]
              omega
            · have h2 : countSci (l :: rest) id = countSci rest id +
                  (if l.tax_id = id ∧ l.name_type = "scientific name"
                   then 1 else 0) := by
                simp [countSci, List.countP_cons]
              have h3 : sciFlag
                  (upsertD (upsertD m l.tax_id {}) l.tax_id
                    { Names.mk none none with scientific_name := some l.name_txt })
                  id = sciFlag m id := by
                rw [sciFlag_upsert_ne _ _ hid, sciFlag_upsert_ne _ _ hid]
              omega
          · refine Or.inr ⟨he, ?_⟩
            have h2 : countCommon (l :: rest) id = countCommon rest id := by
              simp [countCommon, List.countP_cons, hsci]
            by_cases hid : id = l.tax_id
            · subst hid
              have h3 : comFlag
                  (upsertD (upsertD m l.tax_id {}) l.tax_id
                    { Names.mk none none with scientific_name := some l.name_txt })
                  l.tax_id = 0 := by
                simp [comFlag, lookupD_upsertD_self]
              omega
            · have h3 : comFlag
                  (upsertD (upsertD m l.tax_id {}) l.tax_id
                    { Names.mk none none with scientific_name := some l.name_txt })
                  id = comFlag m id := by
                rw [comFlag_upsert_ne _ _ hid, comFlag_upsert_ne _ _ hid]
              omega
        · have hcom : l.name_type = "genbank common name" := by
            simp [wanted_name_types] at hw
            rcases hw with hw | hw
            · exact absurd hw hsci
            · exact hw
          have hred : parse_names (l :: rest) m = parse_names rest
              (upsertD (upsertD m l.tax_id {}) l.tax_id
                { Names.mk none none with
                    genbank_common_name := some l.name_txt }) := by
            simp [parse_names, wanted_name_types, hml, hsci, hcom,
              lookupD_upsertD_self]
          rw [hred] at h
          obtain ⟨id, hcase⟩ := ih _ h
          refine ⟨id, ?_⟩
          rcases hcase with ⟨he, hcnt⟩ | ⟨he, hcnt⟩
          · refine Or.inl ⟨he, ?_⟩
            have h2 : countSci (l :: rest) id = countSci rest id := by
              simp [countSci, List.countP_cons, hcom]
            by_cases hid : id = l.tax_id
            · subst hid
              have h3 : sciFlag
                  (upsertD (upsertD m l.tax_id {}) l.tax_id
                    { Names.mk none none with
                        genbank_common_name := some l.name_txt })
                  l.tax_id = 0 := by
                simp [sciFlag, lookupD_upsertD_self]
              omega
            · have h3 : sciFlag
                  (upsertD (upsertD m l.tax_id {}) l.tax_id
                    { Names.mk none none with
                        genbank_common_name := some l.name_txt })
                  id = sciFlag m id := by
                rw [sciFlag_upsert_ne _ _ hid, sciFlag_upsert_ne _ _ hid]
              omega
          · refine Or.inr ⟨he, ?_⟩
            by_cases hid : id = l.tax_id
            · subst hid
              have h2 : countCommon (l :: rest) l.tax_id =
                  countCommon rest l.tax_id + 1 := by
                simp [countCommon, List.countP_cons, hcom]
              have h3 : comFlag
                  (upsertD (upsertD m l.tax_id {}) l.tax_id
                    { Names.mk none none with
                        genbank_common_name := some l.name_txt })
                  l.tax_id = 1 := by
                simp [comFlag, lookupD_upsertD_self]
              omega
            · have h2 : countCommon (l :: rest) id = countCommon rest id +
                  (if l.tax_id = id ∧ l.name_type = "genbank common name"
                   then 1 else 0) := by
                simp [countCommon, List.countP_cons]
              have h3 : comFlag
                  (upsertD (upsertD m l.tax_id {}) l.tax_id
                    { Names.mk none none with
                        genbank_common_name := some l.name_txt })
                  id = comFlag m id := by
                rw [comFlag_upsert_ne _ _ hid, comFlag_upsert_ne _ _ hid]
              omega
    · have hns : l.name_type ≠ "scientific name" := by
        intro hh
        exact hw (by simp [wanted_name_types, hh])
      have hnc : l.name_type ≠ "genbank common name" := by
        intro hh
        exact hw (by simp [wanted_name_types, hh])
      have hred : parse_names (l :: rest) m = parse_names rest m := by
        simp [parse_names, hw]
      rw [hred] at h
      obtain ⟨id, hcase⟩ := ih _ h
      refine ⟨id, ?_⟩
      rcases hcase with ⟨he, hcnt⟩ | ⟨he, hcnt⟩
      · refine Or.inl ⟨he, ?_⟩
        have h2 : countSci (l :: rest) id = countSci rest id := by
          simp [countSci, List.countP_cons, hns]
        omega
      · refine Or.inr ⟨he, ?_⟩
        have h2 : countCommon (l :: rest) id = countCommon rest id := by
          simp [countCommon, List.countP_cons, hnc]
        omega

/-- C9: a second retained scientific-name (resp. genbank-common-name) line
for an identifier that already has one makes name parsing fail with the
duplicate-name error naming such an identifier, and `construct_tree`
propagates that error (the build aborts); a name source with at most one
retained name of each kind per identifier parses without failure. -/
theorem countSci_zero_of_not_mem {ls : List NameLine} {id : Nat}
    (h : id ∉ ls.map (fun l => l.tax_id)) : countSci ls id = 0 := by
  apply List.countP_eq_zero.mpr
  intro l hl
  simp only [decide_eq_true_eq, not_and]
  intro hle _
  exact h (hle ▸ List.mem_map_of_mem (fun l => l.tax_id) hl)

theorem countCommon_zero_of_not_mem {ls : List NameLine} {id : Nat}
    (h : id ∉ ls.map (fun l => l.tax_id)) : countCommon ls id = 0 := by
  apply List.countP_eq_zero.mpr
  intro l hl
  simp only [decide_eq_true_eq, not_and]
  intro hle _
  exact h (hle ▸ List.mem_map_of_mem (fun l => l.tax_id) hl)

theorem parse_names_ok_bound :
    ∀ (ls : List NameLine) (m m' : List (Nat × Names)),
      parse_names ls m = .ok m' →
      ∀ id, countSci ls id + sciFlag m id ≤ 1 ∧
        countCommon ls id + comFlag m id ≤ 1 := by
  intro ls
  induction ls with
  | nil =>
    intro m m' _ id
    have h1 : countSci [] id = 0 := rfl
    have h2 : countCommon [] id = 0 := rfl
    have h3 : sciFlag m id ≤ 1 := by
      unfold sciFlag
      split <;> omega
    have h4 : comFlag m id ≤ 1 := by
      unfold comFlag
      split <;> omega
    omega
  | cons l rest ih =>
    intro m m' h id
    by_cases hw : l.name_type ∈ wanted_name_types
    · cases hml : lookupD m l.tax_id with
      | some nm =>
        by_cases hsci : l.name_type = "scientific name"
        · by_cases hnms : nm.scientific_name.isSome
          · exfalso
            have hred : parse_names (l :: rest) m = .err (.dupSci l.tax_id) := by
              simp [parse_names, wanted_name_types, hml, hsci, hnms]
            rw [hred] at h
            simp at h
          · have hred : parse_names (l :: rest) m = parse_names rest
                (upsertD m l.tax_id { nm with scientific_name := some l.name_txt }) := by
              simp [parse_names, wanted_name_types, hml, hsci, hnms]
            rw [hred] at h
            obtain ⟨ihs, ihc⟩ := ih _ m' h id
            by_cases hid : id = l.tax_id
            · have hidm : l.tax_id = id := hid.symm
              have h1 : countSci (l :: rest) id = countSci rest id + 1 := by
                simp [countSci, List.countP_cons, hidm, hsci]
              have h2 : sciFlag
                  (upsertD m l.tax_id { nm with scientific_name := some l.name_txt })
                  id = 1 := by
                rw [hid]
                simp [sciFlag, lookupD_upsertD_self]
              have h3 : sciFlag m id = 0 := by
                rw [hid]
                simp [sciFlag, hml, hnms]
              have h4 : countCommon (l :: rest) id = countCommon rest id := by
                simp [countCommon, List.countP_cons, hsci]
              have h5 : comFlag
                  (upsertD m l.tax_id { nm with scientific_name := some l.name_txt })
                  id = comFlag m id := by
                rw [hid]
                simp [comFlag, lookupD_upsertD_self, hml]
              omega
            · have hid' : l.tax_id ≠ id := fun hh => hid hh.symm
              have h1 : countSci (l :: rest) id = countSci rest id := by
                simp [countSci, List.countP_cons, hid']
              have h2 := sciFlag_upsert_ne m
                { nm with scientific_name := some l.name_txt } hid
              have h4 : countCommon (l :: rest) id = countCommon rest id := by
                simp [countCommon, List.countP_cons, hsci]
              have h5 := comFlag_upsert_ne m
                { nm with scientific_name := some l.name_txt } hid
              omega
        · have hcom : l.name_type = "genbank common name" := by
            simp [wanted_name_types] at hw
            rcases hw with hw | hw
            · exact absurd hw hsci
            · exact hw
          by_cases hnmc : nm.genbank_common_name.isSome
          · exfalso
            have hred : parse_names (l :: rest) m = .err (.dupCommon l.tax_id) := by
              simp [parse_names, wanted_name_types, hml, hsci, hcom, hnmc]
            rw [hred] at h
            simp at h
          · have hred : parse_names (l :: rest) m = parse_names rest
                (upsertD m l.tax_id
                  { nm with genbank_common_name := some l.name_txt }) := by
              simp [parse_names, wanted_name_types, hml, hsci, hcom, hnmc]
            rw [hred] at h
            obtain ⟨ihs, ihc⟩ := ih _ m' h id
            by_cases hid : id = l.tax_id
            · have hidm : l.tax_id = id := hid.symm
              have h1 : countCommon (l :: rest) id = countCommon rest id + 1 := by
                simp [countCommon, List.countP_cons, hidm, hcom]
              have h2 : comFlag
                  (upsertD m l.tax_id
                    { nm with genbank_common_name := some l.name_txt })
                  id = 1 := by
                rw [hid]
                simp [comFlag, lookupD_upsertD_self]
              have h3 : comFlag m id = 0 := by
                rw [hid]
                simp [comFlag, hml, hnmc]
              have h4 : countSci (l :: rest) id = countSci rest id := by
                simp [countSci, List.countP_cons, hcom]
              have h5 : sciFlag
                  (upsertD m l.tax_id
                    { nm with genbank_common_name := some l.name_txt })
                  id = sciFlag m id := by
                rw [hid]
                simp [sciFlag, lookupD_upsertD_self, hml]
              omega
            · have hid' : l.tax_id ≠ id := fun hh => hid hh.symm
              have h1 : countCommon (l :: rest) id = countCommon rest id := by
                simp [countCommon, List.countP_cons, hid']
              have h2 := comFlag_upsert_ne m
                { nm with genbank_common_name := some l.name_txt } hid
              have h4 : countSci (l :: rest) id = countSci rest id := by
                simp [countSci, List.countP_cons, hcom]
              have h5 := sciFlag_upsert_ne m
                { nm with genbank_common_name := some l.name_txt } hid
              omega
      | none =>
        by_cases hsci : l.name_type = "scientific name"
        · have hred : parse_names (l :: rest) m = parse_names rest
              (upsertD (upsertD m l.tax_id {}) l.tax_id
                { Names.mk none none with scientific_name := some l.name_txt }) := by
            simp [parse_names, wanted_name_types, hml, hsci, lookupD_upsertD_self]
          rw [hred] at h
          obtain ⟨ihs, ihc⟩ := ih _ m' h id
          by_cases hid : id = l.tax_id
          · have hidm : l.tax_id = id := hid.symm
            have h1 : countSci (l :: rest) id = countSci rest id + 1 := by
              simp [countSci, List.countP_cons, hidm, hsci]
            have h2 : sciFlag
                (upsertD (upsertD m l.tax_id {}) l.tax_id
                  { Names.mk none none with scientific_name := some l.name_txt })
                id = 1 := by
              rw [hid]
              simp [sciFlag, lookupD_upsertD_self]
            have h3 : sciFlag m id = 0 := by
              rw [hid]
              simp [sciFlag, hml]
            have h4 : countCommon (l :: rest) id = countCommon rest id := by
              simp [countCommon, List.countP_cons, hsci]
            have h5 : comFlag
                (upsertD (upsertD m l.tax_id {}) l.tax_id
                  { Names.mk none none with scientific_name := some l.name_txt })
                id = 0 := by
              rw [hid]
              simp [comFlag, lookupD_upsertD_self]
            have h6 : comFlag m id = 0 := by
              rw [hid]
              simp [comFlag, hml]
            omega
          · have hid' : l.tax_id ≠ id := fun hh => hid hh.symm
            have h1 : countSci (l :: rest) id = countSci rest id := by
              simp [countSci, List.countP_cons, hid']
            have h2 : sciFlag
                (upsertD (upsertD m l.tax_id {}) l.tax_id
                  { Names.mk none none with scientific_name := some l.name_txt })
                id = sciFlag m id := by
              rw [sciFlag_upsert_ne _ _ hid, sciFlag_upsert_ne _ _ hid]
            have h4 : countCommon (l :: rest) id = countCommon rest id := by
              simp [countCommon, List.countP_cons, hsci]
            have h5 : comFlag
                (upsertD (upsertD m l.tax_id {}) l.tax_id
                  { Names.mk none none with scientific_name := some l.name_txt })
                id = comFlag m id := by
              rw [comFlag_upsert_ne _ _ hid, comFlag_upsert_ne _ _ hid]
            omega
        · have hcom : l.name_type = "genbank common name" := by
            simp [wanted_name_types] at hw
            rcases hw with hw | hw
            · exact absurd hw hsci
            · exact hw
          have hred : parse_names (l :: rest) m = parse_names rest
              (upsertD (upsertD m l.tax_id {}) l.tax_id
                { Names.mk none none with
                    genbank_common_name := some l.name_txt }) := by
            simp [parse_names, wanted_name_types, hml, hsci, hcom,
              lookupD_upsertD_self]
          rw [hred] at h
          obtain ⟨ihs, ihc⟩ := ih _ m' h id
          by_cases hid : id = l.tax_id
          · have hidm : l.tax_id = id := hid.symm
            have h1 : countCommon (l :: rest) id = countCommon rest id + 1 := by
              simp [countCommon, List.countP_cons, hidm, hcom]
            have h2 : comFlag
                (upsertD (upsertD m l.tax_id {}) l.tax_id
                  { Names.mk none none with
                      genbank_common_name := some l.name_txt })
                id = 1 := by
              rw [hid]
              simp [comFlag, lookupD_upsertD_self]
            have h3 : comFlag m id = 0 := by
              rw [hid]
              simp [comFlag, hml]
            have h4 : countSci (l :: rest) id = countSci rest id := by
              simp [countSci, List.countP_cons, hcom]
            have h5 : sciFlag
                (upsertD (upsertD m l.tax_id {}) l.tax_id
                  { Names.mk none none with
                      genbank_common_name := some l.name_txt })
                id = 0 := by
              rw [hid]
              simp [sciFlag, lookupD_upsertD_self]
            have h6 : sciFlag m id = 0 := by
              rw [hid]
              simp [sciFlag, hml]
            omega
          · have hid' : l.tax_id ≠ id := fun hh => hid hh.symm
            have h1 : countCommon (l :: rest) id = countCommon rest id := by
              simp [countCommon, List.countP_cons, hid']
            have h2 : comFlag
                (upsertD (upsertD m l.tax_id {}) l.tax_id
                  { Names.mk none none with
                      genbank_common_name := some l.name_txt })
                id = comFlag m id := by
              rw [comFlag_upsert_ne _ _ hid, comFlag_upsert_ne _ _ hid]
            have h4 : countSci (l :: rest) id = countSci rest id := by
              simp [countSci, List.countP_cons, hcom]
            have h5 : sciFlag
                (upsertD (upsertD m l.tax_id {}) l.tax_id
                  { Names.mk none none with
                      genbank_common_name := some l.name_txt })
                id = sciFlag m id := by
              rw [sciFlag_upsert_ne _ _ hid, sciFlag_upsert_ne _ _ hid]
            omega
    · have hns : l.name_type ≠ "scientific name" := by
        intro hh
        exact hw (by simp [wanted_name_types, hh])
      have hnc : l.name_type ≠ "genbank common name" := by
        intro hh
        exact hw (by simp [wanted_name_types, hh])
      have hred : parse_names (l :: rest) m = parse_names rest m := by
        simp [parse_names, hw]
      rw [hred] at h
      obtain ⟨ihs, ihc⟩ := ih _ m' h id
      have h1 : countSci (l :: rest) id = countSci rest id := by
        simp [countSci, List.countP_cons, hns]
      have h2 : countCommon (l :: rest) id = countCommon rest id := by
        simp [countCommon, List.countP_cons, hnc]
      omega

theorem parse_names_no_timeout :
    ∀ (ls : List NameLine) (m : List (Nat × Names)),
      parse_names ls m = .timeout → False := by
  intro ls
  induction ls with
  | nil =>
    intro m h
    simp [parse_names] at h
  | cons l rest ih =>
    intro m h
    by_cases hw : l.name_type ∈ wanted_name_types
    · cases hml : lookupD m l.tax_id with
      | some nm =>
        by_cases hsci : l.name_type = "scientific name"
        · by_cases hnms : nm.scientific_name.isSome
          · have hred : parse_names (l :: rest) m = .err (.dupSci l.tax_id) := by
              simp [parse_names, wanted_name_types, hml, hsci, hnms]
            rw [hred] at h
            simp at h
          · have hred : parse_names (l :: rest) m = parse_names rest
                (upsertD m l.tax_id { nm with scientific_name := some l.name_txt }) := by
              simp [parse_names, wanted_name_types, hml, hsci, hnms]
            rw [hred] at h
            exact ih _ h
        · have hcom : l.name_type = "genbank common name" := by
            simp [wanted_name_types] at hw
            rcases hw with hw | hw
            · exact absurd hw hsci
            · exact hw
          by_cases hnmc : nm.genbank_common_name.isSome
          · have hred : parse_names (l :: rest) m = .err (.dupCommon l.tax_id) := by
              simp [parse_names, wanted_name_types, hml, hsci, hcom, hnmc]
            rw [hred] at h
            simp at h
          · have hred : parse_names (l :: rest) m = parse_names rest
                (upsertD m l.tax_id
                  { nm with genbank_common_name := some l.name_txt }) := by
              simp [parse_names, wanted_name_types, hml, hsci, hcom, hnmc]
            rw [hred] at h
            exact ih _ h
      | none =>
        by_cases hsci : l.name_type = "scientific name"
        · have hred : parse_names (l :: rest) m = parse_names rest
              (upsertD (upsertD m l.tax_id {}) l.tax_id
                { Names.mk none none with scientific_name := some l.name_txt }) := by
            simp [parse_names, wanted_name_types, hml, hsci, lookupD_upsertD_self]
          rw [hred] at h
          exact ih _ h
        · have hcom : l.name_type = "genbank common name" := by
            simp [wanted_name_types] at hw
            rcases hw with hw | hw
            · exact absurd hw hsci
            · exact hw
          have hred : parse_names (l :: rest) m = parse_names rest
              (upsertD (upsertD m l.tax_id {}) l.tax_id
                { Names.mk none none with
                    genbank_common_name := some l.name_txt }) := by
            simp [parse_names, wanted_name_types, hml, hsci, hcom,
              lookupD_upsertD_self]
          rw [hred] at h
          exact ih _ h
    · have hred : parse_names (l :: rest) m = parse_names rest m := by
        simp [parse_names, hw]
      rw [hred] at h
      exact ih _ h

/-- C9: a second retained scientific-name (resp. genbank-common-name) line
for an identifier that already has one forces the failure: whenever some
identifier has two or more retained lines of one kind, `parse_names`
returns a duplicate-name error — naming an identifier with at least two
retained lines of exactly that kind — and `construct_tree` propagates it,
aborting the build on any node source; conversely, a name source with at
most one retained name of each kind per identifier parses without
failure. -/
theorem c9_duplicate_names {names : List NameLine} :
    ((∃ id, 2 ≤ countSci names id ∨ 2 ≤ countCommon names id) →
      ∃ e, parse_names names [] = .err e ∧
        (∃ id, (e = .dupSci id ∧ 2 ≤ countSci names id) ∨
               (e = .dupCommon id ∧ 2 ≤ countCommon names id)) ∧
        ∀ nodes, construct_tree names nodes = .err e) ∧
    ((∀ id ∈ names.map (fun l => l.tax_id),
        countSci names id ≤ 1 ∧ countCommon names id ≤ 1) →
      ∃ m, parse_names names [] = .ok m) := by
  constructor
  · rintro ⟨id, hdup⟩
    cases hp : parse_names names [] with
    | ok m' =>
      exfalso
      obtain ⟨hs, hc⟩ := parse_names_ok_bound names [] m' hp id
      have hzs : sciFlag [] id = 0 := rfl
      have hzc : comFlag [] id = 0 := rfl
      rcases hdup with hdup | hdup <;> omega
    | err e =>
      refine ⟨e, rfl, ?_, ?_⟩
      · obtain ⟨i, hcase⟩ := parse_names_err_spec names [] hp
        refine ⟨i, ?_⟩
        rcases hcase with ⟨he, hcnt⟩ | ⟨he, hcnt⟩
        · refine Or.inl ⟨he, ?_⟩
          have hz : sciFlag [] i = 0 := rfl
          omega
        · refine Or.inr ⟨he, ?_⟩
          have hz : comFlag [] i = 0 := rfl
          omega
      · intro nodes
        simp [construct_tree, hp, Res.bind]
    | timeout => exact absurd hp (parse_names_no_timeout names [])
  · intro hnd
    refine parse_names_ok_of_nodup names [] (fun id => ?_) (fun id => ?_)
    · have hz : sciFlag [] id = 0 := rfl
      by_cases hmem : id ∈ names.map (fun l => l.tax_id)
      · have h := (hnd id hmem).1
        omega
      · have h := countSci_zero_of_not_mem hmem
        omega
    · have hz : comFlag [] id = 0 := rfl
      by_cases hmem : id ∈ names.map (fun l => l.tax_id)
      · have h := (hnd id hmem).2
        omega
      · have h := countCommon_zero_of_not_mem hmem
        omega

theorem c9_witness :
    (∃ e, parse_names dupSciNames [] = .err e ∧
      (∃ id, (e = .dupSci id ∧ 2 ≤ countSci dupSciNames id) ∨
             (e = .dupCommon id ∧ 2 ≤ countCommon dupSciNames id)) ∧
      ∀ nodes, construct_tree dupSciNames nodes = .err e) ∧
    (∃ m, parse_names exNames [] = .ok m) :=
  ⟨(@c9_duplicate_names dupSciNames).1 ⟨1, Or.inl (by decide)⟩,
   (@c9_duplicate_names exNames).2 (by decide)⟩

/-! ### `construct_tree`: name coverage of the node source -/

theorem upsert2_named {τ : Taxonomy} {m : List (Nat × Names)} {tid pid : Nat}
    {nd q : Node}
    (hK : ∀ k n, lookupD τ k = some n → (lookupD m k).isSome = true)
    (htid : (lookupD m tid).isSome = true)
    (hpid : (lookupD m pid).isSome = true) :
    ∀ k n, lookupD (upsertD (upsertD τ tid nd) pid q) k = some n →
      (lookupD m k).isSome = true := by
  intro k n hk
  rcases lookupD_upsertD_cases hk with ⟨hkp, _⟩ | ⟨_, hk2⟩
  · rw [hkp]
    exact hpid
  · rcases lookupD_upsertD_cases hk2 with ⟨hkt, _⟩ | ⟨_, hk3⟩
    · rw [hkt]
      exact htid
    · exact hK k n hk3

theorem process_node_line_named (m : List (Nat × Names)) {st st' : BuildState}
    {l : NodeLine} (h : process_node_line m st l = .ok st')
    (hK : ∀ k n, lookupD st.taxonomy k = some n → (lookupD m k).isSome = true) :
    (∀ k n, lookupD st'.taxonomy k = some n → (lookupD m k).isSome = true) ∧
    (lookupD m l.tax_id).isSome = true ∧ (lookupD m l.parent).isSome = true := by
  cases hm1 : lookupD m l.tax_id with
  | none => simp [process_node_line, hm1] at h
  | some nm =>
    have htid : (lookupD m l.tax_id).isSome = true := by simp [hm1]
    cases ht : lookupD st.taxonomy l.tax_id with
    | some node =>
      cases htp : lookupD
          (upsertD st.taxonomy l.tax_id
            { node with rank := some l.rank, parent := some l.parent })
          l.parent with
      | some pnode =>
        have hpid : (lookupD m l.parent).isSome = true := by
          rcases lookupD_upsertD_cases htp with ⟨hpt, _⟩ | ⟨_, hp2⟩
          · rw [hpt]
            simp [hm1]
          · exact hK _ _ hp2
        cases hbr : lookupD st.byranks l.rank <;>
          (simp only [process_node_line, hm1, ht, htp, hbr, Res.ok.injEq] at h
           subst h
           exact ⟨upsert2_named hK htid hpid, rfl, hpid⟩)
      | none =>
        cases hmp : lookupD m l.parent with
        | none => simp [process_node_line, hm1, ht, htp, hmp] at h
        | some pm =>
          have hpid : (lookupD m l.parent).isSome = true := by simp [hmp]
          cases hbr : lookupD st.byranks l.rank <;>
            (simp only [process_node_line, hm1, ht, htp, hmp, hbr,
               Res.ok.injEq] at h
             subst h
             exact ⟨upsert2_named hK htid hpid, rfl, rfl⟩)
    | none =>
      cases htp : lookupD
          (upsertD st.taxonomy l.tax_id
            { name := nm.scientific_name,
              genbank_common_name := nm.genbank_common_name,
              rank := some l.rank, parent := some l.parent, children := [] })
          l.parent with
      | some pnode =>
        have hpid : (lookupD m l.parent).isSome = true := by
          rcases lookupD_upsertD_cases htp with ⟨hpt, _⟩ | ⟨_, hp2⟩
          · rw [hpt]
            simp [hm1]
          · exact hK _ _ hp2
        cases hbr : lookupD st.byranks l.rank <;>
          (simp only [process_node_line, hm1, ht, htp, hbr, Res.ok.injEq] at h
           subst h
           exact ⟨upsert2_named hK htid hpid, rfl, hpid⟩)
      | none =>
        cases hmp : lookupD m l.parent with
        | none => simp [process_node_line, hm1, ht, htp, hmp] at h
        | some pm =>
          have hpid : (lookupD m l.parent).isSome = true := by simp [hmp]
          cases hbr : lookupD st.byranks l.rank <;>
            (simp only [process_node_line, hm1, ht, htp, hmp, hbr,
               Res.ok.injEq] at h
             subst h
             exact ⟨upsert2_named hK htid hpid, rfl, rfl⟩)

theorem process_node_line_err (m : List (Nat × Names)) {st : BuildState}
    {l : NodeLine} {e : PyErr} (h : process_node_line m st l = .err e) :
    ∃ k, e = .keyErrorN (some k) ∧ lookupD m k = none := by
  cases hm1 : lookupD m l.tax_id with
  | none =>
    refine ⟨l.tax_id, ?_, hm1⟩
    have hred : process_node_line m st l = .err (.keyErrorN (some l.tax_id)) := by
      simp [process_node_line, hm1]
    rw [hred] at h
    simp only [Res.err.injEq] at h
    exact h.symm
  | some nm =>
    cases ht : lookupD st.taxonomy l.tax_id with
    | some node =>
      cases htp : lookupD
          (upsertD st.taxonomy l.tax_id
            { node with rank := some l.rank, parent := some l.parent })
          l.parent with
      | some pnode => simp [process_node_line, hm1, ht, htp] at h
      | none =>
        cases hmp : lookupD m l.parent with
        | none =>
          refine ⟨l.parent, ?_, hmp⟩
          have hred : process_node_line m st l =
              .err (.keyErrorN (some l.parent)) := by
            simp [process_node_line, hm1, ht, htp, hmp]
          rw [hred] at h
          simp only [Res.err.injEq] at h
          exact h.symm
        | some pm => simp [process_node_line, hm1, ht, htp, hmp] at h
    | none =>
      cases htp : lookupD
          (upsertD st.taxonomy l.tax_id
            { name := nm.scientific_name,
              genbank_common_name := nm.genbank_common_name,
              rank := some l.rank, parent := some l.parent, children := [] })
          l.parent with
      | some pnode => simp [process_node_line, hm1, ht, htp] at h
      | none =>
        cases hmp : lookupD m l.parent with
        | none =>
          refine ⟨l.parent, ?_, hmp⟩
          have hred : process_node_line m st l =
              .err (.keyErrorN (some l.parent)) := by
            simp [process_node_line, hm1, ht, htp, hmp]
          rw [hred] at h
          simp only [Res.err.injEq] at h
          exact h.symm
        | some pm => simp [process_node_line, hm1, ht, htp, hmp] at h

theorem process_node_line_no_timeout (m : List (Nat × Names))
    {st : BuildState} {l : NodeLine}
    (h : process_node_line m st l = .timeout) : False := by
  cases hm1 : lookupD m l.tax_id with
  | none => simp [process_node_line, hm1] at h
  | some nm =>
    cases ht : lookupD st.taxonomy l.tax_id with
    | some node =>
      cases htp : lookupD
          (upsertD st.taxonomy l.tax_id
            { node with rank := some l.rank, parent := some l.parent })
          l.parent with
      | some pnode => simp [process_node_line, hm1, ht, htp] at h
      | none =>
        cases hmp : lookupD m l.parent with
        | none => simp [process_node_line, hm1, ht, htp, hmp] at h
        | some pm => simp [process_node_line, hm1, ht, htp, hmp] at h
    | none =>
      cases htp : lookupD
          (upsertD st.taxonomy l.tax_id
            { name := nm.scientific_name,
              genbank_common_name := nm.genbank_common_name,
              rank := some l.rank, parent := some l.parent, children := [] })
          l.parent with
      | some pnode => simp [process_node_line, hm1, ht, htp] at h
      | none =>
        cases hmp : lookupD m l.parent with
        | none => simp [process_node_line, hm1, ht, htp, hmp] at h
        | some pm => simp [process_node_line, hm1, ht, htp, hmp] at h

theorem process_node_lines_ok_named (m : List (Nat × Names)) :
    ∀ (ls : List NodeLine) {st st' : BuildState},
      process_node_lines m ls st = .ok st' →
      (∀ k n, lookupD st.taxonomy k = some n → (lookupD m k).isSome = true) →
      ∀ l ∈ ls, (lookupD m l.tax_id).isSome = true ∧
        (lookupD m l.parent).isSome = true := by
  intro ls
  induction ls with
  | nil =>
    intro st st' _ _ l hl
    simp at hl
  | cons l0 rest ih =>
    intro st st' h hK l hl
    cases hstep : process_node_line m st l0 with
    | ok st1 =>
      have h2 : process_node_lines m rest st1 = .ok st' := by
        simp only [process_node_lines, hstep] at h
        exact h
      obtain ⟨hK1, ht0, hp0⟩ := process_node_line_named m hstep hK
      rcases List.mem_cons.mp hl with hl | hl
      · subst hl
        exact ⟨ht0, hp0⟩
      · exact ih h2 hK1 l hl
    | err e => simp [process_node_lines, hstep] at h
    | timeout => simp [process_node_lines, hstep] at h

theorem process_node_lines_err_spec (m : List (Nat × Names)) :
    ∀ (ls : List NodeLine) {st : BuildState} {e : PyErr},
      process_node_lines m ls st = .err e →
      ∃ k, e = .keyErrorN (some k) ∧ lookupD m k = none := by
  intro ls
  induction ls with
  | nil =>
    intro st e h
    simp [process_node_lines] at h
  | cons l0 rest ih =>
    intro st e h
    cases hstep : process_node_line m st l0 with
    | ok st1 =>
      have h2 : process_node_lines m rest st1 = .err e := by
        simp only [process_node_lines, hstep] at h
        exact h
      exact ih h2
    | err e0 =>
      have he : e = e0 := by
        simp only [process_node_lines, hstep, Res.err.injEq] at h
        exact h.symm
      rw [he]
      exact process_node_line_err m hstep
    | timeout => exact absurd hstep (fun hh => process_node_line_no_timeout m hh)

theorem process_node_lines_no_timeout (m : List (Nat × Names)) :
    ∀ (ls : List NodeLine) (st : BuildState),
      process_node_lines m ls st = .timeout → False := by
  intro ls
  induction ls with
  | nil =>
    intro st h
    simp [process_node_lines] at h
  | cons l0 rest ih =>
    intro st h
    cases hstep : process_node_line m st l0 with
    | ok st1 =>
      have h2 : process_node_lines m rest st1 = .timeout := by
        simp only [process_node_lines, hstep] at h
        exact h
      exact ih st1 h2
    | err e => simp [process_node_lines, hstep] at h
    | timeout => exact process_node_line_no_timeout m hstep

/-- C10: name coverage is an implicit precondition of `construct_tree`.
When the name phase yields map `m` and some node line's own identifier or
parent identifier has no entry in `m`, the nodes phase stops at an
unhandled `KeyError` naming an identifier absent from `m` — not one of
the dedicated construction errors — and the whole build aborts with it. -/
theorem c10_name_coverage {names : List NameLine} {nodes : List NodeLine}
    {m : List (Nat × Names)}
    (hm : parse_names names [] = .ok m)
    (hmiss : ∃ l ∈ nodes, lookupD m l.tax_id = none ∨ lookupD m l.parent = none) :
    ∃ k, lookupD m k = none ∧
      construct_tree names nodes = .err (.keyErrorN (some k)) := by
  cases hpl : process_node_lines m nodes {} with
  | ok st =>
    exfalso
    obtain ⟨l, hl, hcase⟩ := hmiss
    have hKempty : ∀ k n, lookupD (({} : BuildState)).taxonomy k = some n →
        (lookupD m k).isSome = true := by
      intro k n hk
      simp [lookupD] at hk
    obtain ⟨h1, h2⟩ := process_node_lines_ok_named m nodes hpl hKempty l hl
    rcases hcase with hc | hc
    · rw [hc] at h1
      simp at h1
    · rw [hc] at h2
      simp at h2
  | err e =>
    obtain ⟨k, he, hk⟩ := process_node_lines_err_spec m nodes hpl
    refine ⟨k, hk, ?_⟩
    rw [← he]
    simp [construct_tree, hm, hpl, Res.bind]
  | timeout => exact absurd hpl (fun hh => process_node_lines_no_timeout m nodes {} hh)

theorem c10_witness :
    ∃ k, lookupD [(1, Names.mk (some "r") none), (2, Names.mk (some "a") none)]
        k = none ∧
      construct_tree gapNames gapNodes = .err (.keyErrorN (some k)) :=
  c10_name_coverage
    (by decide : parse_names gapNames [] =
      .ok [(1, Names.mk (some "r") none), (2, Names.mk (some "a") none)])
    (by decide)

end TaxSpec
